import Mathlib

/-! Omron D6T driver family: frame acquisition and integrity validation.

A shallow embedding of the D6T drivers of `src/i2c driver framework/d6t`:

* `D6tFull`  : `d6t_full.c` and `d6tioctl.c` (the two files share, verbatim, `d6t_crc8`,
  `d6t_checkPEC`, `d6t_get_frame`, `d6t_convert_u8_to_s16` and the init/clear pair);
* `D6tCore`  : `d6t_core.c` / `d6t_core.h`;
* `D6t32l`   : `d6t32l.c`;
* `D6t`      : `d6t.c`.

Machine integers are natural numbers (or integers for signed types) with the C truncation
written out as `% 2 ^ w`.  Kernel allocations are lists of cells behind a three-state pointer.
Bus traffic is scripted: the adapter's answer to every call is an input of the model.
The read entry points of `d6t_full.c` / `d6tioctl.c` are modelled twice: as functions
(`d6t_read`, `d6t_ioctl_READ_RAW`) and statement by statement (`read_step`), the latter so that
the lock discipline and the interleaving of two requests can be stated; the two agree.
-/

/-! ## Shared kernel vocabulary -/

/-- Linux errno values used by the drivers. -/
def EIO_code : Int := 5
/-- Linux errno: out of memory. -/
def ENOMEM : Int := 12
/-- Linux errno: bad address. -/
def EFAULT : Int := 14
/-- Linux errno: invalid argument. -/
def EINVAL : Int := 22
/-- Linux errno: inappropriate ioctl. -/
def ENOTTY : Int := 25

/-- Value of a kernel pointer to an array of cells: `NULL`, a live allocation with its
contents, or a pointer that still holds the address of a block already given to `kfree`. -/
inductive KPtr (α : Type) where
  | null : KPtr α
  | live (cells : List α) : KPtr α
  | freed : KPtr α
deriving DecidableEq, Repr

/-- The C test `!p`. -/
def KPtr.isNull {α : Type} : KPtr α → Bool
  | KPtr.null => true
  | _ => false

/-- Contents reachable through the pointer; `none` when dereferencing is undefined. -/
def KPtr.deref {α : Type} : KPtr α → Option (List α)
  | KPtr.live cells => some cells
  | _ => none

/-- Model of `kmalloc(count * sizeof(cell))`: the allocator either fails (`none`, giving `NULL`)
or hands out `count` cells with arbitrary initial contents `fill i`. -/
def kmalloc {α : Type} (oracle : Option (Nat → α)) (count : Nat) : KPtr α :=
  match oracle with
  | none => KPtr.null
  | some fill => KPtr.live ((List.range count).map fill)

/-- Store `src` into `dst` starting at cell `offset` (cells past the end of `dst` are dropped). -/
def store_at (dst : List Nat) (offset : Nat) (src : List Nat) : List Nat :=
  dst.take offset ++ (src.take (dst.length - offset)) ++ dst.drop (offset + src.length)

/-- The client handle: only the 7/10-bit bus address (`unsigned short addr`) is used. -/
structure i2c_client where
  addr : Nat
deriving DecidableEq, Repr

/-- Scripted answer of the adapter to one `i2c_transfer` call: the return value and the bytes
it stored into the buffer of the read message. -/
structure Xfer where
  ret : Int
  rx : List Nat
deriving DecidableEq, Repr

/-! ## GF(2) polynomial arithmetic (reference side of the checksum) -/

/-- Number of coefficients of a GF(2) polynomial held in the bits of `a` (degree + 1; 0 for 0). -/
def gf2_len_aux : Nat → Nat → Nat
  | 0, _ => 0
  | f + 1, a => if a = 0 then 0 else gf2_len_aux f (a / 2) + 1

/-- Bit length of `a`. -/
def gf2_len (a : Nat) : Nat := gf2_len_aux a a

/-- Carry-less product: XOR of `b * x^k` over the set bits `k` (below `n`) of `a`. -/
def gf2_mul_aux (b : Nat) : Nat → Nat → Nat
  | 0, _ => 0
  | k + 1, a => (if a.testBit k then b <<< k else 0) ^^^ gf2_mul_aux b k a

/-- Product of two polynomials over GF(2), both in bit representation. -/
def gf2_mul (a b : Nat) : Nat := gf2_mul_aux b (gf2_len a) a

/-- Schoolbook long division over GF(2): `k + 1` steps remain, the next one cancels the
coefficient of `x^(deg p + k)`; the pair is (quotient so far, running remainder). -/
def gf2_divmod_aux (p : Nat) : Nat → Nat × Nat → Nat × Nat
  | 0, qa => qa
  | k + 1, (q, a) =>
    gf2_divmod_aux p k
      (if a.testBit (gf2_len p - 1 + k) then (q ^^^ (1 <<< k), a ^^^ (p <<< k)) else (q, a))

/-- Quotient and remainder of `a` by `p` over GF(2). -/
def gf2_divmod (a p : Nat) : Nat × Nat := gf2_divmod_aux p (gf2_len a + 1 - gf2_len p) (0, a)

/-- Remainder of `a` modulo `p` over GF(2). -/
def gf2_mod (a p : Nat) : Nat := (gf2_divmod a p).2

/-- Quotient of `a` by `p` over GF(2). -/
def gf2_div (a p : Nat) : Nat := (gf2_divmod a p).1

/-- The CRC-8 generator `x^8 + x^2 + x + 1` (polynomial 0x07 with its leading term). -/
def crc8_generator : Nat := 0x107

/-- Reference CRC-8 step following the specification: the remainder of `(crc XOR byte) * x^8`
modulo the generator. -/
def crc8_reference_step (crc byte : Nat) : Nat := gf2_mod ((crc ^^^ byte) <<< 8) crc8_generator

/-- ASCII bytes of the check string "123456789". -/
def crc8_check_input : List Nat := [0x31, 0x32, 0x33, 0x34, 0x35, 0x36, 0x37, 0x38, 0x39]

namespace D6tFull

/-! ## `d6t_full.c` / `d6tioctl.c`: checksum engine and decoder -/

/-- One pass of the loop body of `d6t_crc8` on the `u8` variable `crc`:
`if (crc & 0x80) crc = (crc << 1) ^ 0x07; else crc <<= 1;`. -/
def crc8_shift (crc : Nat) : Nat :=
  if crc &&& 0x80 ≠ 0 then ((crc <<< 1) ^^^ 0x07) % 256 else (crc <<< 1) % 256

/-- The loop `for (int i = 0; i < 8; i++)` of `d6t_crc8`, with `n` passes left. -/
def crc8_loop : Nat → Nat → Nat
  | 0, crc => crc
  | n + 1, crc => crc8_loop n (crc8_shift crc)

/-- Source `d6t_crc8(u8 crc, u8 data)`: `crc ^= data;` then eight shift passes. -/
def d6t_crc8 (crc data : Nat) : Nat := crc8_loop 8 ((crc ^^^ data) % 256)

/-- The loop `for (u32 i = 0; i < n; i++) crc = d6t_crc8(crc, buf[i]);` of `d6t_checkPEC`,
with `k = n - i` passes left. -/
def pec_loop (buf : List Nat) : Nat → Nat → Nat → Nat
  | 0, _, crc => crc
  | k + 1, i, crc => pec_loop buf k (i + 1) (d6t_crc8 crc (buf.getD i 0))

/-- Source `d6t_checkPEC(client, d6t_data)`, on the values it reads: `client->addr`,
`d6t_data->n_read` and the contents of `d6t_data->buf`.  `true` is the error return.
`n` is a `u32`, so `n_read - 1` wraps for `n_read = 0`. -/
def d6t_checkPEC (addr n_read : Nat) (buf : List Nat) : Bool :=
  let n := (n_read + 2 ^ 32 - 1) % 2 ^ 32
  let crc := 0
  let addr8 := ((addr <<< 1) ||| 1) % 256
  let crc := d6t_crc8 crc addr8
  let crc := pec_loop buf n 0 crc
  crc != buf.getD n 0

/-- Contents of the two allocations of a session: the byte buffer and the sample buffer. -/
structure frame_mem where
  buf : List Nat
  raw : List Nat
deriving DecidableEq, Repr

/-- The loop of `d6t_convert_u8_to_s16` with `k = n - i` passes left:
`raw[i] = (buf[2 * i + 1] << 8) | buf[2 * i];` (the store truncates to `u16`). -/
def convert_loop : Nat → Nat → frame_mem → frame_mem
  | 0, _, m => m
  | k + 1, i, m =>
    convert_loop k (i + 1)
      { m with raw := m.raw.set i (((m.buf.getD (2 * i + 1) 0 <<< 8) ||| m.buf.getD (2 * i) 0) % 65536) }

/-- Source `d6t_convert_u8_to_s16(d6t_data)` on `n_raw_data` and the two buffers. -/
def d6t_convert_u8_to_s16 (n_raw_data : Nat) (m : frame_mem) : frame_mem :=
  convert_loop n_raw_data 0 m

end D6tFull

/-! ## Specification-side helpers -/

/-- Specification `compute_pec`: seed with the read-address byte, fold the data bytes in order. -/
def compute_pec (read_address_byte : Nat) (data : List Nat) : Nat :=
  List.foldl D6tFull.d6t_crc8 (D6tFull.d6t_crc8 0 read_address_byte) data

/-- The read-address byte `(bus_address << 1) | 1`, truncated to 8 bits. -/
def read_address_byte (addr : Nat) : Nat := ((addr <<< 1) ||| 1) % 256

/-- Flip bit `pos % 8` of byte `pos / 8` of a buffer. -/
def flip_bit (buf : List Nat) (pos : Nat) : List Nat :=
  buf.set (pos / 8) (buf.getD (pos / 8) 0 ^^^ (1 <<< (pos % 8)))

/-- Re-encode samples as byte pairs, low byte then high byte. -/
def reencode : List Nat → List Nat
  | [] => []
  | s :: rest => (s &&& 0xFF) :: (s >>> 8) :: reencode rest

/-- Little-endian pairing of a byte sequence (specification `decode`). -/
def decode_pairs : List Nat → List Nat
  | lo :: hi :: rest => (lo ||| (hi <<< 8)) :: decode_pairs rest
  | _ => []

/-- Inverse of one shift pass of the CRC register. -/
def crc8_unshift (y : Nat) : Nat :=
  if y % 2 = 1 then ((y ^^^ 0x07) >>> 1) ||| 0x80 else y >>> 1

/-- Inverse of `n` shift passes. -/
def crc8_unloop : Nat → Nat → Nat
  | 0, y => y
  | n + 1, y => crc8_unloop n (crc8_unshift y)

/-! ## Observable events -/

/-- Calls a driver makes to the rest of the kernel, in program order. -/
inductive Event where
  | mutex_lock : Event
  | mutex_unlock : Event
  | msleep (ms : Nat) : Event
  | i2c_transfer (addr command len : Nat) : Event
  | i2c_smbus_write_byte (command : Nat) : Event
  | i2c_master_recv (offset len : Nat) : Event
  | copy_to_user (bytes : List Nat) : Event
  | i2c_transfer_write (addr : Nat) (bytes : List Nat) : Event
  | i2c_master_send (addr : Nat) (bytes : List Nat) : Event
deriving DecidableEq, Repr

/-- Byte image of an array of `u16` samples on the little-endian targets of the driver. -/
def le_bytes : List Nat → List Nat
  | [] => []
  | s :: rest => (s % 256) :: (s / 256 % 256) :: le_bytes rest

/-- Conversion of an integer to `s8` (two's complement wrap). -/
def to_s8 (v : Int) : Int := (v + 128) % 256 - 128

/-- Conversion of an integer to `s16` (two's complement wrap). -/
def to_s16 (v : Int) : Int := (v + 32768) % 65536 - 32768

namespace D6tFull

/-! ## `d6t_full.c` / `d6tioctl.c`: model registry and session -/

/-- Macro `N_PIXELS(row, col)`. -/
def N_PIXELS (row col : Nat) : Nat := row * col

/-- Macro `N_READ(row, col)`: 2 bytes per pixel and PTAT, plus 1 byte for the CRC. -/
def N_READ (row col : Nat) : Nat := 2 * (1 + N_PIXELS row col) + 1

/-- Macro `NOT_SUPPORT` of `d6t_full.c` / `d6tioctl.c`. -/
def NOT_SUPPORT : Int := 0xFF

/-- Source `struct d6t_info`: `u8 command, row, col`; `s8` register fields. -/
structure d6t_info where
  model_name : String
  command : Nat
  row : Nat
  col : Nat
  status_reg : Int
  iir_avg_reg : Int
  cycle_reg : Int
deriving DecidableEq, Repr

/-- Entry `[D6T_01A]` of `d6t_info_tbl` (the `s8` fields store `NOT_SUPPORT` after conversion). -/
def tbl_D6T_01A : d6t_info :=
  { model_name := "d6t01a", command := 0x4C, row := 1, col := 1,
    status_reg := to_s8 NOT_SUPPORT, iir_avg_reg := to_s8 NOT_SUPPORT,
    cycle_reg := to_s8 NOT_SUPPORT }

/-- Entry `[D6T_32L_01A]` of `d6t_info_tbl`. -/
def tbl_D6T_32L_01A : d6t_info :=
  { model_name := "d6t32l01a", command := 0x4D, row := 32, col := 32,
    status_reg := to_s8 0x00, iir_avg_reg := to_s8 0x01, cycle_reg := to_s8 0x02 }

/-- Source `d6t_info_tbl`. -/
def d6t_info_tbl : List d6t_info := [tbl_D6T_01A, tbl_D6T_32L_01A]

/-- Source `struct d6t_data` without the mutex (lock traffic is recorded as events):
`d6t_info` points into the table or is `NULL`; `n_read`, `n_raw_data` are `u16`. -/
structure d6t_data where
  d6t_info : Option d6t_info
  buf : KPtr Nat
  raw : KPtr Nat
  n_read : Nat
  n_raw_data : Nat
deriving DecidableEq, Repr

/-- Session memory right after `kzalloc` in probe. -/
def d6t_data_zero : d6t_data :=
  { d6t_info := none, buf := KPtr.null, raw := KPtr.null, n_read := 0, n_raw_data := 0 }

/-- Source `ioctl_d6t_init` (`d6t_full.c`), identical to `d6t_init` of `d6tioctl.c`.
`alloc_buf`, `alloc_raw` script the two `kmalloc` calls.  Returns the `int` result and the
session as left behind. -/
def ioctl_d6t_init (d : d6t_data) (name : String)
    (alloc_buf alloc_raw : Option (Nat → Nat)) : Int × d6t_data :=
  let sel : Option d6t_info :=
    if name = "d6t01a" then some tbl_D6T_01A
    else if name = "d6t32l01a" then some tbl_D6T_32L_01A
    else none
  match sel with
  | none => (-EINVAL, d)
  | some info =>
    let d := { d with d6t_info := some info }
    let d := { d with n_read := N_READ info.row info.col % 65536 }
    let d := { d with n_raw_data := (N_PIXELS info.row info.col + 1) % 65536 }
    let d := { d with buf := kmalloc alloc_buf d.n_read }
    if d.buf.isNull then (-ENOMEM, d)
    else
      let d := { d with raw := kmalloc alloc_raw d.n_raw_data }
      if d.raw.isNull then (-ENOMEM, { d with buf := KPtr.freed })
      else (0, d)

/-- Source `d6t_get_frame`: one two-message `i2c_transfer` (command write, then a read of
`n_read` bytes into `buf`, zeroed beforehand), answered by `x`.  `none` marks undefined
behaviour (NULL or freed pointer dereferenced, or a write past the allocation). -/
def d6t_get_frame (client : Option i2c_client) (d : d6t_data) (x : Xfer) :
    Option (Int × d6t_data × List Event) :=
  match d.d6t_info with
  | none => none
  | some info =>
    let command := info.command
    match client with
    | none => some (-EINVAL, d, [])
    | some c =>
      if d.buf.isNull then some (-EINVAL, d, [])
      else
        match d.buf.deref with
        | none => none
        | some cells =>
          let len := d.n_read
          if cells.length < len then none
          else
            let zeroed := store_at cells 0 (List.replicate len 0)
            let filled := store_at zeroed 0 ((x.rx.take len).map fun b => b % 256)
            let d1 := { d with buf := KPtr.live filled }
            let ev := [Event.i2c_transfer c.addr command len]
            let ret := x.ret
            if ret < 0 then some (ret, d1, ev)
            else if ret ≠ 2 then some (-EIO_code, d1, ev)
            else some (0, d1, ev)

/-- What a read entry point leaves behind: its return value, the session, the file position,
the bytes stored into the caller's buffer, and the kernel calls made. -/
structure read_result where
  ret : Int
  data : Option d6t_data
  ppos : Int
  user : List Nat
  trace : List Event
deriving DecidableEq, Repr

/-- Source `d6t_read` of `d6t_full.c` on the global session pointer `g`.  `bus 0` answers the
single `i2c_transfer` of `d6t_get_frame`; `uncopied` is the return value of `copy_to_user`
(the number of bytes it left uncopied). -/
def d6t_read (g : Option d6t_data) (client : Option i2c_client) (ppos : Int)
    (bus : Nat → Xfer) (uncopied : Nat) : Option read_result :=
  match g with
  | none => some ⟨-EINVAL, g, ppos, [], []⟩
  | some d =>
    if d.d6t_info.isNone || d.buf.isNull || d.raw.isNull then some ⟨-EINVAL, g, ppos, [], []⟩
    else if ppos > 0 then some ⟨0, g, ppos, [], []⟩
    else
      match d6t_get_frame client d (bus 0) with
      | none => none
      | some (r, d1, ev) =>
        if r < 0 then
          some ⟨-EIO_code, some d1, ppos, [], [Event.mutex_lock] ++ ev ++ [Event.mutex_unlock]⟩
        else
          match client, d1.buf.deref, d1.raw.deref with
          | some c, some b, some samples =>
            if d6t_checkPEC c.addr d1.n_read b then
              some ⟨-EIO_code, some d1, ppos, [],
                [Event.mutex_lock] ++ ev ++ [Event.mutex_unlock]⟩
            else
              let m := d6t_convert_u8_to_s16 d1.n_raw_data ⟨b, samples⟩
              let d2 := { d1 with buf := KPtr.live m.buf, raw := KPtr.live m.raw }
              let total := d1.n_raw_data * 2
              let copied := (le_bytes (m.raw.take d1.n_raw_data)).take (total - uncopied)
              let tr :=
                [Event.mutex_lock] ++ ev ++ [Event.copy_to_user copied, Event.mutex_unlock]
              if uncopied ≠ 0 then some ⟨-EFAULT, some d2, ppos, copied, tr⟩
              else some ⟨(total : Int), some d2, ppos + (total : Int), copied, tr⟩
          | _, _, _ => none

/-- The `D6T_IOC_READ_RAW` case of `d6t_ioctl` in `d6tioctl.c` (no file position; 0 on
success). -/
def d6t_ioctl_READ_RAW (g : Option d6t_data) (client : Option i2c_client)
    (bus : Nat → Xfer) (uncopied : Nat) : Option read_result :=
  match g with
  | none => some ⟨-EINVAL, g, 0, [], []⟩
  | some d =>
    if d.d6t_info.isNone || d.buf.isNull || d.raw.isNull then some ⟨-EINVAL, g, 0, [], []⟩
    else
      match d6t_get_frame client d (bus 0) with
      | none => none
      | some (r, d1, ev) =>
        if r < 0 then
          some ⟨-EIO_code, some d1, 0, [], [Event.mutex_lock] ++ ev ++ [Event.mutex_unlock]⟩
        else
          match client, d1.buf.deref, d1.raw.deref with
          | some c, some b, some samples =>
            if d6t_checkPEC c.addr d1.n_read b then
              some ⟨-EIO_code, some d1, 0, [],
                [Event.mutex_lock] ++ ev ++ [Event.mutex_unlock]⟩
            else
              let m := d6t_convert_u8_to_s16 d1.n_raw_data ⟨b, samples⟩
              let d2 := { d1 with buf := KPtr.live m.buf, raw := KPtr.live m.raw }
              let total := d1.n_raw_data * 2
              let copied := (le_bytes (m.raw.take d1.n_raw_data)).take (total - uncopied)
              let tr :=
                [Event.mutex_lock] ++ ev ++ [Event.copy_to_user copied, Event.mutex_unlock]
              if uncopied ≠ 0 then some ⟨-EFAULT, some d2, 0, copied, tr⟩
              else some ⟨0, some d2, 0, copied, tr⟩
          | _, _, _ => none

end D6tFull

namespace D6tCore

/-! ## `d6t_core.c` / `d6t_core.h` -/

/-- Macro `NOT_SUPPORT` of `d6t_core.h`. -/
def NOT_SUPPORT : Int := -1
/-- Macro `D6T_01A_COMMAND`. -/
def D6T_01A_COMMAND : Nat := 0x4C
/-- Macro `D6T_32L_01A_COMMAND`. -/
def D6T_32L_01A_COMMAND : Nat := 0x4D

/-- Source `struct d6t_t`: `u8 row, col, command`; `s8 iir, avg, cycle`; `u16 n_read,
n_raw_data`; `u8 *buffer`; `s16 *raw_data`. -/
structure d6t_t where
  name : String
  row : Nat
  col : Nat
  iir : Int
  avg : Int
  cycle : Int
  command : Nat
  buffer : KPtr Nat
  n_read : Nat
  raw_data : KPtr Int
  n_raw_data : Nat
deriving DecidableEq, Repr

/-- Source `d6t_init(name)`.  `alloc_d6t` scripts the allocation of the structure itself,
`alloc_buffer` and `alloc_raw` the two buffer allocations (whose results are not checked).
`none` is the `NULL` return. -/
def d6t_init (name : String) (alloc_d6t : Bool)
    (alloc_buffer : Option (Nat → Nat)) (alloc_raw : Option (Nat → Int)) : Option d6t_t :=
  if !alloc_d6t then none
  else if name = "d6t01a" then
    let row := 1
    let col := 1
    let n_read := (2 * (1 + row * col) + 1) % 65536
    let n_raw_data := (1 + row * col) % 65536
    some { name := "d6t01a", row := row, col := col,
           iir := to_s8 NOT_SUPPORT, avg := to_s8 NOT_SUPPORT, cycle := to_s8 NOT_SUPPORT,
           command := D6T_01A_COMMAND,
           buffer := kmalloc alloc_buffer n_read, n_read := n_read,
           raw_data := kmalloc alloc_raw n_raw_data, n_raw_data := n_raw_data }
  else if name = "d6t32l01a" then
    let row := 32
    let col := 32
    let n_read := (2 * (1 + row * col) + 1) % 65536
    let n_raw_data := (1 + row * col) % 65536
    some { name := "d6t32l01a", row := row, col := col,
           iir := to_s8 5, avg := to_s8 5, cycle := to_s8 200,
           command := D6T_32L_01A_COMMAND,
           buffer := kmalloc alloc_buffer n_read, n_read := n_read,
           raw_data := kmalloc alloc_raw n_raw_data, n_raw_data := n_raw_data }
  else none

/-- One pass of the loop of `calc_crc` on the `uint8_t` variable `data`:
`temp = data; data <<= 1; if (temp & 0x80) data ^= 0x07;`. -/
def calc_crc_pass (data : Nat) : Nat :=
  let temp := data
  let data := (data <<< 1) % 256
  if temp &&& 0x80 ≠ 0 then (data ^^^ 0x07) % 256 else data

/-- The loop `for (index = 0; index < 8; index++)` of `calc_crc`, with `n` passes left. -/
def calc_crc_loop : Nat → Nat → Nat
  | 0, data => data
  | n + 1, data => calc_crc_loop n (calc_crc_pass data)

/-- Source `calc_crc(uint8_t data)`. -/
def calc_crc (data : Nat) : Nat := calc_crc_loop 8 (data % 256)

/-- The loop `for (i = 0; i < n; i++) crc = calc_crc(d6t->buffer[i] ^ crc);`, with `k = n - i`
passes left (the result of `calc_crc` is stored into the `u8` variable `crc`). -/
def pec_loop (buffer : List Nat) : Nat → Nat → Nat → Nat
  | 0, _, crc => crc
  | k + 1, i, crc => pec_loop buffer k (i + 1) (calc_crc (buffer.getD i 0 ^^^ crc) % 256)

/-- Source `d6t_checkPEC(client, d6t)` of `d6t_core.c` on `client->addr`, `d6t->n_read` and the
contents of `d6t->buffer`: 1 when the computed PEC differs from the trailer, else 0. -/
def d6t_checkPEC (addr n_read : Nat) (buffer : List Nat) : Nat :=
  let n := (n_read + 2 ^ 32 - 1) % 2 ^ 32
  let crc := calc_crc ((addr <<< 1) ||| 1) % 256
  let crc := pec_loop buffer n 0 crc
  if crc ≠ buffer.getD n 0 then 1 else 0

/-- Source `conv8us_s16_le(buf, n)`. -/
def conv8us_s16_le (buf : List Nat) (n : Nat) : Int :=
  let ret := to_s16 (buf.getD n 0)
  to_s16 (ret + to_s16 (buf.getD (n + 1) 0) * 256)

/-- Outcome of the transfer loop of `d6t_read_data`. -/
inductive loop_exit where
  | returned (code : Nat) : loop_exit
  | left : loop_exit
deriving DecidableEq, Repr

/-- The loop `for (int i = 0; i < 10; i++)` of `d6t_read_data`, with `k = 10 - i` passes left.
`bus i` answers the `i2c_transfer` of pass `i`; the bytes it delivers land in `buffer`. -/
def transfer_loop (bus : Nat → Xfer) (addr command len : Nat) :
    Nat → Nat → List Nat → List Event → loop_exit × List Nat × List Event
  | 0, _, buffer, tr => (loop_exit.left, buffer, tr)
  | k + 1, i, buffer, tr =>
    let ret := (bus i).ret
    let buffer := store_at buffer 0 (((bus i).rx.take len).map fun b => b % 256)
    let tr := tr ++ [Event.i2c_transfer addr command len]
    if ret ≠ 2 then
      if i = 9 then (loop_exit.returned 3, buffer, tr)
      else transfer_loop bus addr command len k (i + 1) buffer (tr ++ [Event.msleep 100])
    else (loop_exit.left, buffer, tr)

/-- The decode loop of `d6t_read_data`: `raw_data[i] = conv8us_s16_le(buffer, 2 * i)`, with
`k = n - i` passes left. -/
def decode_loop (buffer : List Nat) : Nat → Nat → List Int → List Int
  | 0, _, raw_data => raw_data
  | k + 1, i, raw_data =>
    decode_loop buffer k (i + 1) (raw_data.set i (conv8us_s16_le buffer (2 * i)))

/-- Source `d6t_read_data(client, d6t)`.  The function it calls as `D6T_checkPEC` is not
defined anywhere in the repository (the checksum routine of this file is spelled
`d6t_checkPEC`), so the callee is a parameter.  The write message is recorded with the
command byte the source assigns to `msgs[0].buf`.  `none` marks undefined behaviour (a buffer
pointer that is `NULL`, or too small an allocation). -/
def d6t_read_data (D6T_checkPEC : i2c_client → d6t_t → Int)
    (client : Option i2c_client) (d6t : Option d6t_t) (bus : Nat → Xfer) :
    Option (Nat × Option d6t_t × List Event) :=
  match client with
  | none => some (1, d6t, [])
  | some c =>
    match d6t with
    | none => some (2, d6t, [])
    | some t =>
      match t.buffer.deref with
      | none => none
      | some cells =>
        if cells.length < t.n_read then none
        else
          let zeroed := store_at cells 0 (List.replicate t.n_read 0)
          match transfer_loop bus c.addr t.command t.n_read 10 0 zeroed [] with
          | (loop_exit.returned code, buffer, tr) =>
            some (code, some { t with buffer := KPtr.live buffer }, tr)
          | (loop_exit.left, buffer, tr) =>
            let t1 := { t with buffer := KPtr.live buffer }
            let ret := D6T_checkPEC c t1
            if ret ≠ 1 then some (4, some t1, tr)
            else
              match t1.raw_data.deref with
              | none => none
              | some raw_data =>
                let n := t1.n_raw_data
                some (0, some { t1 with raw_data := KPtr.live (decode_loop buffer n 0 raw_data) },
                  tr)

end D6tCore

namespace D6t32l

/-! ## `d6t32l.c` -/

/-- Scripted behaviour of the bus during one pass of the retry loop of `d6t_read_helper`: the
return value of `i2c_smbus_write_byte` and the answer to the `j`-th `i2c_master_recv`. -/
structure Attempt where
  write_ret : Int
  recv : Nat → Xfer

/-- The chunk loop `while (offset < 2051)` of `d6t_read_helper`; `j` counts the reads already
issued in this attempt.  Result: the `error` flag, the buffer and the extended trace; `none`
only if `fuel` passes were not enough. -/
def chunk_loop (a : Attempt) : Nat → Nat → Nat → List Nat → List Event →
    Option (Bool × List Nat × List Event)
  | 0, _, _, _, _ => none
  | fuel + 1, j, offset, buf, tr =>
    if offset < 2051 then
      let to_read := min 256 (2051 - offset)
      let ret := (a.recv j).ret
      let buf := store_at buf offset (((a.recv j).rx.take to_read).map fun b => b % 256)
      let tr := tr ++ [Event.i2c_master_recv offset to_read]
      if ret < 0 then some (true, buf, tr)
      else chunk_loop a fuel (j + 1) (offset + to_read) buf tr
    else some (false, buf, tr)

/-- The conversion loop `for (int i = 0; i < 2050; i += 2) raw[i / 2] = (buf[i + 1] << 8) | buf[i];`
of `d6t_read_helper`. -/
def unpack_loop (buf : List Nat) : Nat → Nat → List Nat → List Nat
  | 0, _, raw => raw
  | fuel + 1, i, raw =>
    if i < 2050 then
      unpack_loop buf fuel (i + 2)
        (raw.set (i / 2) (((buf.getD (i + 1) 0 <<< 8) ||| buf.getD i 0) % 65536))
    else raw

/-- The retry loop `for (retry = 0; retry < 10; retry++)` of `d6t_read_helper`, with
`k = 10 - retry` passes left; `bus retry` scripts pass `retry`. -/
def retry_loop (bus : Nat → Attempt) : Nat → Nat → List Nat → List Nat → List Event →
    Option (Int × List Nat × List Event)
  | 0, _, _, raw, tr => some (-EIO_code, raw, tr)
  | k + 1, retry, buf, raw, tr =>
    let tr := tr ++ [Event.msleep 200, Event.i2c_smbus_write_byte 0x4D]
    if (bus retry).write_ret < 0 then retry_loop bus k (retry + 1) buf raw tr
    else
      match chunk_loop (bus retry) 2051 0 0 buf tr with
      | none => none
      | some (error, buf, tr) =>
        if !error then some (0, unpack_loop buf 2050 0 raw, tr)
        else retry_loop bus k (retry + 1) buf raw (tr ++ [Event.msleep 20])

/-- Source `d6t_read_helper(raw)`: `alloc` scripts `kmalloc(2051)`, `raw` is the caller's sample
array.  Result: return value, sample array, kernel calls; `none` only if a loop ran out of
fuel. -/
def d6t_read_helper (alloc : Option (Nat → Nat)) (raw : List Nat) (bus : Nat → Attempt) :
    Option (Int × List Nat × List Event) :=
  match (kmalloc alloc 2051).deref with
  | none => some (-ENOMEM, raw, [])
  | some buf => retry_loop bus 10 0 buf raw []

end D6t32l

/-! ## Counting attempts -/

/-- Number of command writes (`i2c_smbus_write_byte`) in a trace: one per acquisition attempt. -/
def count_writes : List Event → Nat
  | [] => 0
  | Event.i2c_smbus_write_byte _ :: rest => count_writes rest + 1
  | _ :: rest => count_writes rest

/-- Number of `i2c_transfer` calls in a trace. -/
def count_transfers : List Event → Nat
  | [] => 0
  | Event.i2c_transfer _ _ _ :: rest => count_transfers rest + 1
  | _ :: rest => count_transfers rest

/-- The bulk reads (`i2c_master_recv`) of a trace, as (offset, length) pairs in order. -/
def recv_chunks : List Event → List (Nat × Nat)
  | [] => []
  | Event.i2c_master_recv offset len :: rest => (offset, len) :: recv_chunks rest
  | _ :: rest => recv_chunks rest

/-- An attempt of `d6t_read_helper` succeeds end-to-end: the command write and each of the nine
bulk reads return a non-negative value. -/
def D6t32l.attempt_ok (a : D6t32l.Attempt) : Prop :=
  0 ≤ a.write_ret ∧ ∀ j, j < 9 → 0 ≤ (a.recv j).ret


/-! ## Concrete sessions and transports used as examples -/

/-- A scripted bus for `d6t_read_helper` on which the first three attempts fail at the command
write and every later attempt succeeds. -/
def D6t32l.bus_fail3_then_ok : Nat → D6t32l.Attempt :=
  fun i => if i < 3 then ⟨-5, fun _ => ⟨-5, []⟩⟩ else ⟨0, fun _ => ⟨256, []⟩⟩

/-- A scripted adapter on which the first three `i2c_transfer` calls fail and every later one
completes both messages. -/
def xbus_fail3_then_ok : Nat → Xfer :=
  fun i => if i < 3 then ⟨-5, []⟩ else ⟨2, [0x10, 0x01, 0x20, 0x01, 0x7A]⟩

/-- A `d6t_t` as `d6t_init("d6t01a")` leaves it when every allocation succeeds. -/
def D6tCore.d6t01a_ready : D6tCore.d6t_t :=
  { name := "d6t01a", row := 1, col := 1, iir := -1, avg := -1, cycle := -1,
    command := 0x4C, buffer := KPtr.live [0, 0, 0, 0, 0], n_read := 5,
    raw_data := KPtr.live [0, 0], n_raw_data := 2 }


/-- The bulk reads of one complete frame as the specification describes them: (offset, length)
pairs, eight chunks of 256 bytes followed by one of 3. -/
def D6t32l.full_read_chunks : List (Nat × Nat) :=
  [(0, 256), (256, 256), (512, 256), (768, 256), (1024, 256), (1280, 256), (1536, 256),
   (1792, 256), (2048, 3)]

/-- The same reads as trace events. -/
def D6t32l.full_read_events : List Event :=
  D6t32l.full_read_chunks.map fun c => Event.i2c_master_recv c.1 c.2

/-- Offsets are contiguous: each chunk starts where the previous one ended, the first at `start`. -/
def chunks_contiguous : Nat → List (Nat × Nat) → Prop
  | _, [] => True
  | start, c :: rest => c.1 = start ∧ chunks_contiguous (c.1 + c.2) rest


/-- A session as a successful init("d6t01a") leaves it (buffers of 5 bytes and 2 samples). -/
def D6tFull.d6t01a_session : D6tFull.d6t_data :=
  { d6t_info := some D6tFull.tbl_D6T_01A, buf := KPtr.live [0, 0, 0, 0, 0],
    raw := KPtr.live [0, 0], n_read := 5, n_raw_data := 2 }

/-- A scripted adapter whose first `i2c_transfer` fails with `-EIO` and whose later transfers
complete and deliver the frame `10 01 20 01` with its correct trailer `7A` (bus address 0x0A). -/
def xbus_fail1_then_good : Nat → Xfer :=
  fun i => if i = 0 then ⟨-5, []⟩ else ⟨2, [0x10, 0x01, 0x20, 0x01, 0x7A]⟩


/-! ## Session life cycle: clear and register write -/

namespace D6tFull

/-- Source `ioctl_d6t_clear` (`d6t_full.c`), identical to `d6t_clear` of `d6tioctl.c`.  Result:
the `int` return value, the session as left behind, and the pointers handed to `kfree`, in
order.  `none` marks undefined behaviour: `kfree` of a block that was freed before. -/
def ioctl_d6t_clear (d : d6t_data) : Option (Int × d6t_data × List (KPtr Nat)) :=
  if d.d6t_info.isNone then some (-EINVAL, d, [])
  else if d.buf = KPtr.freed ∨ d.raw = KPtr.freed then none
  else
    some (0,
      { d with d6t_info := none, buf := KPtr.null, raw := KPtr.null, n_read := 0,
               n_raw_data := 0 },
      [d.buf, d.raw])

/-- What `d6t_write` leaves behind: its return value and the kernel calls made (the session and
the file position are not written). -/
structure write_result where
  ret : Int
  trace : List Event
deriving DecidableEq, Repr

/-- Source `d6t_write` of `d6t_full.c` on the global session pointer `g`.  `count` is the
request size, `payload` the outcome of `copy_from_user(&msg, buf, sizeof(u16))` (`none` when
it fails, else the `u16` fetched), `xfer_ret` the answer of the adapter to the one-message
`i2c_transfer`.  The register comparison is the C one: the `u8` command and the `s8` register
fields are both promoted to `int`.  `none` marks undefined behaviour (`d6t_client` is `NULL`). -/
def d6t_write (g : Option d6t_data) (client : Option i2c_client) (ppos : Int) (count : Nat)
    (payload : Option Nat) (xfer_ret : Int) : Option write_result :=
  match g with
  | none => some ⟨-EINVAL, []⟩
  | some d =>
    match d.d6t_info with
    | none => some ⟨-EINVAL, []⟩
    | some info =>
      if ppos > 0 then some ⟨0, []⟩
      else if count ≠ 2 then some ⟨-EINVAL, []⟩
      else
        match payload with
        | none => some ⟨-EFAULT, []⟩
        | some fetched =>
          let msg := fetched % 65536
          let command := (msg >>> 8) % 256
          let value := (msg &&& 0xFF) % 256
          if (command : Int) ≠ info.iir_avg_reg ∧ (command : Int) ≠ info.cycle_reg then
            some ⟨-EINVAL, []⟩
          else
            match client with
            | none => none
            | some c =>
              let tr := [Event.i2c_transfer_write c.addr [command, value]]
              let ret := xfer_ret
              if ret < 0 then some ⟨ret, tr⟩
              else if ret ≠ 1 then some ⟨-EIO_code, tr⟩
              else some ⟨(count : Int), tr⟩

end D6tFull

namespace D6tCore

/-- What `d6t_clear` of `d6t_core.c` leaves behind: its return value, the caller's pointer
variable (`none` when `d6t_ptr` itself is `NULL`), and the blocks handed to `kfree`. -/
structure clear_result where
  code : Nat
  d6t_ptr : Option (Option d6t_t)
  freed_buffer : List (KPtr Nat)
  freed_raw_data : List (KPtr Int)
  freed_d6t : Bool
deriving DecidableEq, Repr

/-- Source `d6t_clear(struct d6t_t **d6t_ptr)`: `d6t_ptr` is `none` for a `NULL` argument,
`some slot` for a pointer to a variable holding `slot`.  `none` as a result marks undefined
behaviour (`kfree` of a block that was freed before). -/
def d6t_clear (d6t_ptr : Option (Option d6t_t)) : Option clear_result :=
  match d6t_ptr with
  | none => some ⟨1, none, [], [], false⟩
  | some none => some ⟨1, some none, [], [], false⟩
  | some (some d6t) =>
    if d6t.buffer = KPtr.freed ∨ d6t.raw_data = KPtr.freed then none
    else
      some ⟨0, some none,
        if d6t.buffer.isNull then [] else [d6t.buffer],
        if d6t.raw_data.isNull then [] else [d6t.raw_data],
        true⟩

end D6tCore

namespace D6t

/-! ## `d6t.c` -/

/-- Source `d6t_read_helper(raw)` of `d6t.c`: `write_ret` answers `i2c_smbus_write_byte`,
`recv` answers `i2c_master_recv` of 5 bytes into the local buffer, whose initial contents
`junk` are arbitrary. -/
def d6t_read_helper (raw : List Nat) (junk : Nat → Nat) (write_ret : Int) (recv : Xfer) :
    Int × List Nat × List Event :=
  let ret := write_ret
  if ret < 0 then (ret, raw, [Event.i2c_smbus_write_byte 0x4C])
  else
    let buf_local :=
      store_at ((List.range 5).map fun i => junk i % 256) 0
        ((recv.rx.take 5).map fun b => b % 256)
    let tr := [Event.i2c_smbus_write_byte 0x4C, Event.msleep 200, Event.i2c_master_recv 0 5]
    let ret := recv.ret
    if ret < 0 then (ret, raw, tr)
    else
      let raw := raw.set 0 (((buf_local.getD 1 0 <<< 8) ||| buf_local.getD 0 0) % 65536)
      let raw := raw.set 1 (((buf_local.getD 3 0 <<< 8) ||| buf_local.getD 2 0) % 65536)
      (0, raw, tr)

end D6t

/-! ## Session states of the specification -/

/-- Specification state `Ready`: a model of the table is set and both buffers are allocated
and sized for it. -/
def D6tFull.Ready (d : D6tFull.d6t_data) : Prop :=
  ∃ info b r, info ∈ D6tFull.d6t_info_tbl ∧ d.d6t_info = some info
    ∧ d.buf = KPtr.live b ∧ b.length = d.n_read
    ∧ d.raw = KPtr.live r ∧ r.length = d.n_raw_data
    ∧ d.n_read = 2 * (1 + info.row * info.col) + 1
    ∧ d.n_raw_data = 1 + info.row * info.col

/-- Specification state `Uninitialized`: no model, both buffers absent. -/
def D6tFull.Uninitialized (d : D6tFull.d6t_data) : Prop :=
  d.d6t_info = none ∧ d.buf = KPtr.null ∧ d.raw = KPtr.null

/-- The buffer invariant of the specification: both buffers allocated and sized for the model,
or both absent with no model set. -/
def D6tFull.buffer_invariant (d : D6tFull.d6t_data) : Prop :=
  D6tFull.Ready d ∨ D6tFull.Uninitialized d

/-- Contents of the byte buffer after `d6t_get_frame`: zeroed over `n_read` bytes, then
overwritten with what the adapter delivered. -/
def D6tFull.received_frame (cells : List Nat) (n_read : Nat) (x : Xfer) : List Nat :=
  store_at (store_at cells 0 (List.replicate n_read 0)) 0
    ((x.rx.take n_read).map fun b => b % 256)


/-- A session as a successful init("d6t32l01a") leaves it (2051 bytes, 1025 samples). -/
def D6tFull.d6t32l01a_session : D6tFull.d6t_data :=
  { d6t_info := some D6tFull.tbl_D6T_32L_01A, buf := KPtr.live (List.replicate 2051 0),
    raw := KPtr.live (List.replicate 1025 0), n_read := 2051, n_raw_data := 1025 }


/-- The callee of `d6t_read_data` read as the checksum routine the file does define,
`d6t_checkPEC`, applied to the client and the structure. -/
def D6tCore.checkPEC_of_file (c : i2c_client) (t : D6tCore.d6t_t) : Int :=
  (D6tCore.d6t_checkPEC c.addr t.n_read (t.buffer.deref.getD []) : Nat)

/-- A scripted adapter that completes every transfer and delivers the frame `10 01 20 01` with
its correct trailer `7A` (bus address 0x0A). -/
def xbus_good_frame : Nat → Xfer :=
  fun _ => ⟨2, [0x10, 0x01, 0x20, 0x01, 0x7A]⟩

/-- A scripted adapter that completes every transfer and delivers the frame `10 01 20 01` with
the wrong trailer `00`. -/
def xbus_bad_trailer : Nat → Xfer :=
  fun _ => ⟨2, [0x10, 0x01, 0x20, 0x01, 0x00]⟩

/-- The ready "d6t01a" session with the samples of an earlier frame still in `raw`. -/
def D6tFull.d6t01a_session_stale : D6tFull.d6t_data :=
  { d6t_info := some D6tFull.tbl_D6T_01A, buf := KPtr.live [0, 0, 0, 0, 0],
    raw := KPtr.live [0x1234, 0x5678], n_read := 5, n_raw_data := 2 }


/-- A scripted bus for `d6t_read_helper` of `d6t32l.c` on which every attempt succeeds and
the nine bulk reads deliver the bytes of `frame`, chunk by chunk. -/
def D6t32l.frame_bus (frame : List Nat) : Nat → D6t32l.Attempt :=
  fun _ =>
    ⟨0, fun j => ⟨(min 256 (2051 - 256 * j) : Nat),
                  (frame.drop (256 * j)).take (min 256 (2051 - 256 * j))⟩⟩


/-! ## Register write of `d6t_core.c` -/

namespace D6tCore

/-- Ways in which a C function leaves the behaviour of the program undefined. -/
inductive c_fault where
  | out_of_bounds (index size : Nat) : c_fault
  | no_return_value : c_fault
deriving DecidableEq, Repr

/-- The store `data[i] = v` into a local array of `data.length` cells. -/
def array_store (data : List Nat) (i v : Nat) : Except c_fault (List Nat) :=
  if i < data.length then Except.ok (data.set i v)
  else Except.error (c_fault.out_of_bounds i data.length)

/-- Lines 169-173 of `d6t_core.c`, the part of `d6t_write` after the two stores:
`int ret = i2c_master_send(client, data, 2); if (ret != 2) return 1;` and then the closing
brace of a function declared to return `u32`, reached without a `return`. -/
def d6t_write_send (client : i2c_client) (data : List Nat) (send_ret : Int) :
    Except c_fault (Nat × List Event) :=
  let ret := send_ret
  let tr := [Event.i2c_master_send client.addr (data.take 2)]
  if ret ≠ 2 then Except.ok (1, tr)
  else Except.error c_fault.no_return_value

/-- Source `d6t_write(client, d6t, reg, value)` of `d6t_core.c` (the `d6t` argument is not
used).  `uint8_t data[2]` starts with the indeterminate bytes `junk0`, `junk1`; the stores are
`data[0] = reg; data[2] = value;`. -/
def d6t_write (client : i2c_client) (reg value : Nat) (junk0 junk1 : Nat) (send_ret : Int) :
    Except c_fault (Nat × List Event) :=
  let data : List Nat := [junk0 % 256, junk1 % 256]
  match array_store data 0 (reg % 256) with
  | Except.error f => Except.error f
  | Except.ok data =>
    match array_store data 2 (value % 256) with
    | Except.error f => Except.error f
    | Except.ok data => d6t_write_send client data send_ret

end D6tCore

/-! ## Decoders with checked array accesses -/

/-- The loop of `d6t_convert_u8_to_s16` (`d6t_full.c`, `d6tioctl.c`) with every array access
checked against the size of its allocation, `k = n - i` passes left: `none` as soon as an
index falls outside.  Alongside the memory it returns the byte indices read from `buf` and
the sample indices written to `raw`, in program order. -/
def D6tFull.convert_loop_checked :
    Nat → Nat → D6tFull.frame_mem → List Nat → List Nat →
      Option (D6tFull.frame_mem × List Nat × List Nat)
  | 0, _, m, rd, wr => some (m, rd, wr)
  | k + 1, i, m, rd, wr =>
    match m.buf[2 * i + 1]?, m.buf[2 * i]? with
    | some hi, some lo =>
      if i < m.raw.length then
        D6tFull.convert_loop_checked k (i + 1)
          { m with raw := m.raw.set i (((hi <<< 8) ||| lo) % 65536) }
          (rd ++ [2 * i + 1, 2 * i]) (wr ++ [i])
      else none
    | _, _ => none

/-- Source `conv8us_s16_le(buf, n)` of `d6t_core.c` with its two reads `buf[n]`, `buf[n + 1]`
checked against the size of the buffer. -/
def D6tCore.conv8us_s16_le_checked (buf : List Nat) (n : Nat) : Option Int :=
  match buf[n]?, buf[n + 1]? with
  | some lo, some hi =>
    let ret := to_s16 lo
    some (to_s16 (ret + to_s16 hi * 256))
  | _, _ => none

/-- The decode loop of `d6t_read_data` (`d6t_core.c`) with checked accesses, `k = n - i`
passes left; returns the samples, the byte indices read and the sample indices written. -/
def D6tCore.decode_loop_checked (buffer : List Nat) :
    Nat → Nat → List Int → List Nat → List Nat → Option (List Int × List Nat × List Nat)
  | 0, _, raw_data, rd, wr => some (raw_data, rd, wr)
  | k + 1, i, raw_data, rd, wr =>
    match D6tCore.conv8us_s16_le_checked buffer (2 * i) with
    | some v =>
      if i < raw_data.length then
        D6tCore.decode_loop_checked buffer k (i + 1) (raw_data.set i v)
          (rd ++ [2 * i, 2 * i + 1]) (wr ++ [i])
      else none
    | none => none

/-! ## Read requests statement by statement (`d6t_full.c`, `d6tioctl.c`) -/

namespace D6tFull

/-- The statements of a read entry point, `d6t_read` of `d6t_full.c` or the `D6T_IOC_READ_RAW`
case of `d6t_ioctl` in `d6tioctl.c`, at which a request can stand:
* `check_init`: `if (!d6t_data || !d6t_data->d6t_info || !d6t_data->buf || !d6t_data->raw)`;
* `check_ppos`: `if (*ppos > 0) return 0;` (`d6t_read` only);
* `lock`: `mutex_lock(&d6t_data->lock);`
* `get_frame`: `if (d6t_get_frame(d6t_client, d6t_data) < 0)`;
* `check_pec`: `if (d6t_checkPEC(d6t_client, d6t_data))`;
* `unlock_fail`: `mutex_unlock(&d6t_data->lock); return -EIO;` of either error branch;
* `convert`: `d6t_convert_u8_to_s16(d6t_data);`
* `copy_out`: `ret = copy_to_user(..., d6t_data->raw, d6t_data->n_raw_data * sizeof(u16));`
* `unlock_copy`: the `mutex_unlock(&d6t_data->lock);` after the copy;
* `tail`: `if (ret) return -EFAULT;` and the statements up to the final `return`;
* `returned`: the function has returned. -/
inductive read_pc where
  | check_init : read_pc
  | check_ppos : read_pc
  | lock : read_pc
  | get_frame : read_pc
  | check_pec : read_pc
  | unlock_fail : read_pc
  | convert : read_pc
  | copy_out : read_pc
  | unlock_copy : read_pc
  | tail : read_pc
  | returned : read_pc
deriving DecidableEq, Repr

/-- What belongs to one read request: the entry point it came through, where it stands, the
file position the kernel passed (`*ppos`), the local `ret` of the copy, the bytes stored into
the caller's buffer and the value returned; `x` and `uncopied` script the adapter's answer to
the request's `i2c_transfer` and the return value of its `copy_to_user`. -/
structure read_req where
  via_ioctl : Bool
  pc : read_pc
  ppos : Int
  x : Xfer
  uncopied : Nat
  copy_ret : Nat
  user : List Nat
  retval : Int
deriving DecidableEq, Repr

/-- What read requests share: the global pointer `d6t_data` with the session it points to, and
the state of the mutex `d6t_data->lock`. -/
structure read_shared where
  g : Option d6t_data
  locked : Bool
deriving DecidableEq, Repr

/-- Why a request cannot take a step: it waits in `mutex_lock` for a held mutex, it has
returned, or its next statement has undefined behaviour. -/
inductive read_halt where
  | blocked : read_halt
  | finished : read_halt
  | undefined : read_halt
deriving DecidableEq, Repr

/-- A request as it enters `d6t_read` (`via_ioctl = false`) or the `D6T_IOC_READ_RAW` case
(`via_ioctl = true`). -/
def read_entry (via_ioctl : Bool) (ppos : Int) (x : Xfer) (uncopied : Nat) : read_req :=
  { via_ioctl := via_ioctl, pc := read_pc.check_init, ppos := ppos, x := x,
    uncopied := uncopied, copy_ret := 0, user := [], retval := 0 }

/-- One statement of a read request, executed atomically on the shared state.  `mutex_lock`
can only be passed while the mutex is free.  The result carries the kernel calls made. -/
def read_step (client : Option i2c_client) (sh : read_shared) (t : read_req) :
    Except read_halt (read_shared × read_req × List Event) :=
  match t.pc with
  | read_pc.check_init =>
    match sh.g with
    | none => Except.ok (sh, { t with pc := read_pc.returned, retval := -EINVAL }, [])
    | some d =>
      if d.d6t_info.isNone || d.buf.isNull || d.raw.isNull then
        Except.ok (sh, { t with pc := read_pc.returned, retval := -EINVAL }, [])
      else if t.via_ioctl then Except.ok (sh, { t with pc := read_pc.lock }, [])
      else Except.ok (sh, { t with pc := read_pc.check_ppos }, [])
  | read_pc.check_ppos =>
    if t.ppos > 0 then Except.ok (sh, { t with pc := read_pc.returned, retval := 0 }, [])
    else Except.ok (sh, { t with pc := read_pc.lock }, [])
  | read_pc.lock =>
    if sh.locked then Except.error read_halt.blocked
    else Except.ok ({ sh with locked := true }, { t with pc := read_pc.get_frame },
      [Event.mutex_lock])
  | read_pc.get_frame =>
    match sh.g with
    | none => Except.error read_halt.undefined
    | some d =>
      match d6t_get_frame client d t.x with
      | none => Except.error read_halt.undefined
      | some (r, d1, ev) =>
        if r < 0 then Except.ok ({ sh with g := some d1 }, { t with pc := read_pc.unlock_fail }, ev)
        else Except.ok ({ sh with g := some d1 }, { t with pc := read_pc.check_pec }, ev)
  | read_pc.check_pec =>
    match sh.g, client with
    | some d, some c =>
      match d.buf.deref with
      | none => Except.error read_halt.undefined
      | some b =>
        if d6t_checkPEC c.addr d.n_read b then
          Except.ok (sh, { t with pc := read_pc.unlock_fail }, [])
        else Except.ok (sh, { t with pc := read_pc.convert }, [])
    | _, _ => Except.error read_halt.undefined
  | read_pc.unlock_fail =>
    Except.ok ({ sh with locked := false },
      { t with pc := read_pc.returned, retval := -EIO_code }, [Event.mutex_unlock])
  | read_pc.convert =>
    match sh.g with
    | none => Except.error read_halt.undefined
    | some d =>
      match d.buf.deref, d.raw.deref with
      | some b, some samples =>
        let m := d6t_convert_u8_to_s16 d.n_raw_data ⟨b, samples⟩
        Except.ok ({ sh with g := some { d with buf := KPtr.live m.buf, raw := KPtr.live m.raw } },
          { t with pc := read_pc.copy_out }, [])
      | _, _ => Except.error read_halt.undefined
  | read_pc.copy_out =>
    match sh.g with
    | none => Except.error read_halt.undefined
    | some d =>
      match d.raw.deref with
      | none => Except.error read_halt.undefined
      | some samples =>
        let total := d.n_raw_data * 2
        let copied := (le_bytes (samples.take d.n_raw_data)).take (total - t.uncopied)
        Except.ok (sh, { t with pc := read_pc.unlock_copy, copy_ret := t.uncopied,
                                user := copied }, [Event.copy_to_user copied])
  | read_pc.unlock_copy =>
    Except.ok ({ sh with locked := false }, { t with pc := read_pc.tail }, [Event.mutex_unlock])
  | read_pc.tail =>
    if t.copy_ret ≠ 0 then Except.ok (sh, { t with pc := read_pc.returned, retval := -EFAULT }, [])
    else if t.via_ioctl then Except.ok (sh, { t with pc := read_pc.returned, retval := 0 }, [])
    else
      match sh.g with
      | none => Except.error read_halt.undefined
      | some d =>
        let total := d.n_raw_data * 2
        Except.ok (sh, { t with pc := read_pc.returned, ppos := t.ppos + (total : Int),
                                retval := (total : Int) }, [])
  | read_pc.returned => Except.error read_halt.finished

/-- What a run leaves behind: the shared state, the request, the statements executed and the
kernel calls made, both in program order. -/
structure read_run where
  shared : read_shared
  req : read_req
  labels : List read_pc
  trace : List Event
deriving DecidableEq, Repr

/-- A request running with no other request around, for at most `n` statements. -/
def read_alone (client : Option i2c_client) : Nat → read_run → read_run
  | 0, r => r
  | n + 1, r =>
    match read_step client r.shared r.req with
    | Except.ok (sh, t, ev) =>
      read_alone client n ⟨sh, t, r.labels ++ [r.req.pc], r.trace ++ ev⟩
    | Except.error _ => r

/-- Two read requests `a` (`false`) and `b` (`true`) on the same session, with the log of who
executed which statement. -/
structure read_sys where
  shared : read_shared
  a : read_req
  b : read_req
  log : List (Bool × read_pc)
deriving DecidableEq, Repr

/-- A scheduler choice.  `request w` lets read request `a` (`false`) or `b` (`true`) execute
its next statement.  `init name alloc_buf alloc_raw` lets another caller run the session
initialisation, which takes no lock: `d6t_open` of `d6tioctl.c`, which calls
`d6t_init(d6t_data, "d6t32l01a")` on every `open()`, or the `D6T_IOC_INIT` case of `d6t_ioctl`
in `d6t_full.c`; the two `kmalloc` calls are scripted.  `clear` lets another caller release
the session, which takes no lock either: `d6t_release` of `d6tioctl.c`, which calls
`d6t_clear(d6t_data)` on every `close()`, or the `D6T_IOC_CLEAR` case of `d6t_full.c`. -/
inductive sys_choice where
  | request (w : Bool) : sys_choice
  | init (name : String) (alloc_buf alloc_raw : Option (Nat → Nat)) : sys_choice
  | clear : sys_choice

/-- One scheduler choice.  A request that waits for the mutex or has returned does nothing.
The initialisation is `ioctl_d6t_init` on the session, followed on its success path by
`mutex_init(&d6t_data->lock)`, which leaves the mutex unlocked whoever held it; it is run here
without interruption, which is one of the ways the scheduler can run it.  The release is
`ioctl_d6t_clear` on the session, run without interruption as well; it leaves the mutex as it
is. -/
def sys_step (client : Option i2c_client) (ch : sys_choice) (s : read_sys) : read_sys :=
  match ch with
  | sys_choice.request w =>
    match read_step client s.shared (if w then s.b else s.a) with
    | Except.ok (sh, t, _) =>
      { shared := sh, a := if w then s.a else t, b := if w then t else s.b,
        log := s.log ++ [(w, (if w then s.b else s.a).pc)] }
    | Except.error _ => s
  | sys_choice.init name alloc_buf alloc_raw =>
    match s.shared.g with
    | none => s
    | some d =>
      let r := ioctl_d6t_init d name alloc_buf alloc_raw
      { s with shared := ⟨some r.2, if r.1 = 0 then false else s.shared.locked⟩ }
  | sys_choice.clear =>
    match s.shared.g with
    | none => s
    | some d =>
      match ioctl_d6t_clear d with
      | some r => { s with shared := ⟨some r.2.1, s.shared.locked⟩ }
      | none => s

/-- Run the system under a schedule, one scheduler choice after the other. -/
def sys_run (client : Option i2c_client) : List sys_choice → read_sys → read_sys
  | [], s => s
  | ch :: rest, s => sys_run client rest (sys_step client ch s)

end D6tFull

/-! ## Lock discipline and serialisation: what is to be shown -/

namespace D6tFull

/-- The statements executed with the session mutex held: from after `mutex_lock` up to and
including the `mutex_unlock`. -/
def read_pc.holds : read_pc → Bool
  | read_pc.get_frame => true
  | read_pc.check_pec => true
  | read_pc.unlock_fail => true
  | read_pc.convert => true
  | read_pc.copy_out => true
  | read_pc.unlock_copy => true
  | _ => false

/-- Position of a statement in program order. -/
def read_pc.rank : read_pc → Nat
  | read_pc.check_init => 0
  | read_pc.check_ppos => 1
  | read_pc.lock => 2
  | read_pc.get_frame => 3
  | read_pc.check_pec => 4
  | read_pc.convert => 5
  | read_pc.copy_out => 6
  | read_pc.unlock_fail => 7
  | read_pc.unlock_copy => 7
  | read_pc.tail => 8
  | read_pc.returned => 9

/-- Number of `mutex_lock` statements among the statements executed. -/
def count_lock (labels : List read_pc) : Nat := labels.count read_pc.lock

/-- Number of `mutex_unlock` statements among the statements executed. -/
def count_unlock (labels : List read_pc) : Nat :=
  labels.count read_pc.unlock_fail + labels.count read_pc.unlock_copy

/-- Effect of one statement on whether its request holds the mutex: `none` when it locks
while holding, unlocks while not holding, or acquires, verifies, decodes or copies out while
not holding. -/
def lock_step (held : Bool) : read_pc → Option Bool
  | read_pc.lock => if held then none else some true
  | read_pc.unlock_fail => if held then some false else none
  | read_pc.unlock_copy => if held then some false else none
  | read_pc.get_frame => if held then some held else none
  | read_pc.check_pec => if held then some held else none
  | read_pc.convert => if held then some held else none
  | read_pc.copy_out => if held then some held else none
  | _ => some held

/-- Replay of the statements one request executed: `none` when a statement breaks the lock
discipline, otherwise whether the mutex is held at the end. -/
def lock_scan : Bool → List read_pc → Option Bool
  | held, [] => some held
  | held, l :: rest =>
    match lock_step held l with
    | none => none
    | some h => lock_scan h rest

/-- Effect of one statement of request `w` on who holds the mutex: `none` when `w` locks
while the mutex is held (two hold intervals would overlap), unlocks a mutex it does not hold,
or acquires, verifies, decodes or copies out outside its own hold interval. -/
def hold_step (owner : Option Bool) (w : Bool) : read_pc → Option (Option Bool)
  | read_pc.lock => if owner = none then some (some w) else none
  | read_pc.unlock_fail => if owner = some w then some none else none
  | read_pc.unlock_copy => if owner = some w then some none else none
  | read_pc.get_frame => if owner = some w then some owner else none
  | read_pc.check_pec => if owner = some w then some owner else none
  | read_pc.convert => if owner = some w then some owner else none
  | read_pc.copy_out => if owner = some w then some owner else none
  | _ => some owner

/-- Replay of the log of two requests: `none` when a statement breaks the discipline of
`hold_step`, otherwise the holder at the end. -/
def hold_scan : Option Bool → List (Bool × read_pc) → Option (Option Bool)
  | owner, [] => some owner
  | owner, (w, l) :: rest =>
    match hold_step owner w l with
    | none => none
    | some o => hold_scan o rest

/-- The frame a request acquires on a session with `n_read` frame bytes: zeroes overwritten
with what the adapter delivered to this request. -/
def own_frame (d : d6t_data) (x : Xfer) : List Nat :=
  received_frame (List.replicate d.n_read 0) d.n_read x

/-- The samples decoded from the frame a request acquired. -/
def own_samples (d : d6t_data) (x : Xfer) : List Nat :=
  (d6t_convert_u8_to_s16 d.n_raw_data ⟨own_frame d x, List.replicate d.n_raw_data 0⟩).raw

/-- The bytes `copy_to_user` stores for a request, given how many it leaves uncopied. -/
def own_bytes (d : d6t_data) (x : Xfer) (uncopied : Nat) : List Nat :=
  (le_bytes ((own_samples d x).take d.n_raw_data)).take (d.n_raw_data * 2 - uncopied)

/-- What a read request on a ready session is to return, store into the caller's buffer and
leave as file position, as a function of its own inputs only. -/
def read_expected (c : i2c_client) (d : d6t_data) (t0 : read_req) : Int × List Nat × Int :=
  if t0.via_ioctl = false ∧ t0.ppos > 0 then (0, [], t0.ppos)
  else if t0.x.ret ≠ 2 ∨ d6t_checkPEC c.addr d.n_read (own_frame d t0.x) = true then
    (-EIO_code, [], t0.ppos)
  else if t0.uncopied ≠ 0 then (-EFAULT, own_bytes d t0.x t0.uncopied, t0.ppos)
  else if t0.via_ioctl then (0, own_bytes d t0.x t0.uncopied, t0.ppos)
  else ((d.n_raw_data * 2 : Nat), own_bytes d t0.x t0.uncopied,
        t0.ppos + ((d.n_raw_data * 2 : Nat) : Int))

/-- The session keeps the model and sizes of `d`; only the contents of its two buffers vary. -/
def same_shape (d : d6t_data) (g : Option d6t_data) : Prop :=
  ∃ cells samples, g = some { d with buf := KPtr.live cells, raw := KPtr.live samples }
    ∧ cells.length = d.n_read ∧ samples.length = d.n_raw_data

/-- What is known of a request `t` that entered as `t0`, statement by statement, in terms of
its own inputs. -/
def read_inv (c : i2c_client) (d : d6t_data) (t0 : read_req) (g : Option d6t_data)
    (t : read_req) : Prop :=
  t.via_ioctl = t0.via_ioctl ∧ t.x = t0.x ∧ t.uncopied = t0.uncopied
  ∧ match t.pc with
    | read_pc.check_init => t.ppos = t0.ppos ∧ t.user = []
    | read_pc.check_ppos => t0.via_ioctl = false ∧ t.ppos = t0.ppos ∧ t.user = []
    | read_pc.lock => (t0.via_ioctl = true ∨ t0.ppos ≤ 0) ∧ t.ppos = t0.ppos ∧ t.user = []
    | read_pc.get_frame => (t0.via_ioctl = true ∨ t0.ppos ≤ 0) ∧ t.ppos = t0.ppos ∧ t.user = []
    | read_pc.check_pec =>
      (t0.via_ioctl = true ∨ t0.ppos ≤ 0) ∧ t.ppos = t0.ppos ∧ t.user = [] ∧ t0.x.ret = 2
      ∧ ∀ d1, g = some d1 → d1.buf = KPtr.live (own_frame d t0.x)
    | read_pc.unlock_fail =>
      (t0.via_ioctl = true ∨ t0.ppos ≤ 0) ∧ t.ppos = t0.ppos ∧ t.user = []
      ∧ (t0.x.ret ≠ 2 ∨ d6t_checkPEC c.addr d.n_read (own_frame d t0.x) = true)
    | read_pc.convert =>
      (t0.via_ioctl = true ∨ t0.ppos ≤ 0) ∧ t.ppos = t0.ppos ∧ t.user = [] ∧ t0.x.ret = 2
      ∧ d6t_checkPEC c.addr d.n_read (own_frame d t0.x) = false
      ∧ ∀ d1, g = some d1 → d1.buf = KPtr.live (own_frame d t0.x)
    | read_pc.copy_out =>
      (t0.via_ioctl = true ∨ t0.ppos ≤ 0) ∧ t.ppos = t0.ppos ∧ t0.x.ret = 2
      ∧ d6t_checkPEC c.addr d.n_read (own_frame d t0.x) = false
      ∧ ∀ d1, g = some d1 → d1.raw = KPtr.live (own_samples d t0.x)
    | read_pc.unlock_copy =>
      (t0.via_ioctl = true ∨ t0.ppos ≤ 0) ∧ t.ppos = t0.ppos ∧ t0.x.ret = 2
      ∧ d6t_checkPEC c.addr d.n_read (own_frame d t0.x) = false
      ∧ t.user = own_bytes d t0.x t0.uncopied ∧ t.copy_ret = t0.uncopied
    | read_pc.tail =>
      (t0.via_ioctl = true ∨ t0.ppos ≤ 0) ∧ t.ppos = t0.ppos ∧ t0.x.ret = 2
      ∧ d6t_checkPEC c.addr d.n_read (own_frame d t0.x) = false
      ∧ t.user = own_bytes d t0.x t0.uncopied ∧ t.copy_ret = t0.uncopied
    | read_pc.returned => (t.retval, t.user, t.ppos) = read_expected c d t0

/-- The request that holds the mutex, if any. -/
def read_sys.owner (s : read_sys) : Option Bool :=
  if s.a.pc.holds then some false else if s.b.pc.holds then some true else none

/-- The invariant of two read requests running on a session shaped like `d`. -/
def sys_inv (c : i2c_client) (d : d6t_data) (a0 b0 : read_req) (s : read_sys) : Prop :=
  same_shape d s.shared.g
  ∧ read_inv c d a0 s.shared.g s.a ∧ read_inv c d b0 s.shared.g s.b
  ∧ s.shared.locked = (s.a.pc.holds || s.b.pc.holds)
  ∧ ¬ (s.a.pc.holds = true ∧ s.b.pc.holds = true)
  ∧ hold_scan none s.log = some s.owner
  ∧ s.log.length ≤ s.a.pc.rank + s.b.pc.rank

end D6tFull

/-- A read request on the session `g`, run to its end with no other request around (a request
executes at most nine statements). -/
def D6tFull.read_request (client : Option i2c_client) (g : Option D6tFull.d6t_data)
    (via_ioctl : Bool) (ppos : Int) (x : Xfer) (uncopied : Nat) : D6tFull.read_run :=
  D6tFull.read_alone client 9
    ⟨⟨g, false⟩, D6tFull.read_entry via_ioctl ppos x uncopied, [], []⟩

/-- Two read requests about to enter their entry points on the session `d`, the mutex free. -/
def D6tFull.sys_entry (d : D6tFull.d6t_data) (a b : D6tFull.read_req) : D6tFull.read_sys :=
  { shared := ⟨some d, false⟩, a := a, b := b, log := [] }

/-- Where two read requests `a` and `b` on the session `d` stand after the scheduler choices
`sched`. -/
def D6tFull.concurrent_reads (c : i2c_client) (d : D6tFull.d6t_data)
    (a b : D6tFull.read_req) (sched : List D6tFull.sys_choice) : D6tFull.read_sys :=
  D6tFull.sys_run (some c) sched (D6tFull.sys_entry d a b)

/-- A schedule of the two requests alone: no other caller initialises the session meanwhile. -/
def D6tFull.requests_only (sched : List Bool) : List D6tFull.sys_choice :=
  sched.map D6tFull.sys_choice.request

/-- The entry point a request came through, run on its own: `d6t_ioctl_READ_RAW` or
`d6t_read`, with the request's file position, adapter answer and copy result. -/
def D6tFull.sequential_read (c : i2c_client) (d : D6tFull.d6t_data) (t0 : D6tFull.read_req) :
    Option D6tFull.read_result :=
  if t0.via_ioctl then D6tFull.d6t_ioctl_READ_RAW (some d) (some c) (fun _ => t0.x) t0.uncopied
  else D6tFull.d6t_read (some d) (some c) t0.ppos (fun _ => t0.x) t0.uncopied

/-- A request through `d6t_read` at file position 0 whose transfer delivers the frame
`10 01 20 01` with its trailer `7A` (bus address 0x0A) and whose copy-out is complete. -/
def D6tFull.request_a : D6tFull.read_req :=
  D6tFull.read_entry false 0 ⟨2, [0x10, 0x01, 0x20, 0x01, 0x7A]⟩ 0

/-- A request through `D6T_IOC_READ_RAW` whose transfer delivers the frame `34 12 78 56` with
its trailer `F5` (bus address 0x0A) and whose copy-out is complete. -/
def D6tFull.request_b : D6tFull.read_req :=
  D6tFull.read_entry true 0 ⟨2, [0x34, 0x12, 0x78, 0x56, 0xF5]⟩ 0

/-- A schedule in which `b` reaches `mutex_lock` while `a` holds the mutex, waits, and runs
its own cycle once `a` has released it. -/
def D6tFull.schedule_b_waits : List Bool :=
  [false, false, false, false, true, true, false, false, false, false, true, true, true, false,
   true, true, true, true]

/-- A request through `D6T_IOC_READ_RAW` on the device of `d6tioctl.c`. -/
def D6tFull.request_raw : D6tFull.read_req :=
  D6tFull.read_entry true 0 ⟨2, []⟩ 0

/-- A schedule on the device of `d6tioctl.c`: `a` passes the initialisation test and
`mutex_lock`; the second caller opens the device, which runs `d6t_init(d6t_data, "d6t32l01a")`;
then `b` passes the initialisation test and reaches `mutex_lock`. -/
def D6tFull.schedule_reopen : List D6tFull.sys_choice :=
  [D6tFull.sys_choice.request false, D6tFull.sys_choice.request false,
   D6tFull.sys_choice.init "d6t32l01a" (some fun _ => 0) (some fun _ => 0),
   D6tFull.sys_choice.request true, D6tFull.sys_choice.request true]

/-- A schedule in which `a` runs `d6t_read` up to and including its `d6t_get_frame` and
another caller then releases the session. -/
def D6tFull.schedule_release : List D6tFull.sys_choice :=
  [D6tFull.sys_choice.request false, D6tFull.sys_choice.request false,
   D6tFull.sys_choice.request false, D6tFull.sys_choice.request false,
   D6tFull.sys_choice.clear]

/-- The same schedule without the second `open()`. -/
def D6tFull.schedule_no_reopen : List D6tFull.sys_choice :=
  [D6tFull.sys_choice.request false, D6tFull.sys_choice.request false,
   D6tFull.sys_choice.request true, D6tFull.sys_choice.request true]

/-- Index of the first bulk read that fails among the reads `j`, `j + 1`, ... of an attempt
(`n` of them); `none` when none of them fails. -/
def D6t32l.first_failed_read (a : D6t32l.Attempt) : Nat → Nat → Option Nat
  | 0, _ => none
  | n + 1, j => if (a.recv j).ret < 0 then some j else D6t32l.first_failed_read a n (j + 1)

/-- The kernel calls of one attempt: the pacing delay and the command write; then nothing more
when the write fails; otherwise the nine bulk reads of a complete frame when none of them
fails, or the reads up to and including the first one that fails, followed by the short delay
that precedes the next attempt. -/
def D6t32l.attempt_events (a : D6t32l.Attempt) : List Event :=
  [Event.msleep 200, Event.i2c_smbus_write_byte 0x4D] ++
    (if a.write_ret < 0 then []
     else
      match D6t32l.first_failed_read a 9 0 with
      | none => D6t32l.full_read_events
      | some j0 => D6t32l.full_read_events.take (j0 + 1) ++ [Event.msleep 20])

/-- The kernel calls of `m` consecutive attempts, the first of them attempt number `retry`. -/
def D6t32l.attempts_events (bus : Nat → D6t32l.Attempt) : Nat → Nat → List Event
  | 0, _ => []
  | m + 1, retry => D6t32l.attempt_events (bus retry) ++ D6t32l.attempts_events bus m (retry + 1)

/-- A scripted bus for `d6t_read_helper`: attempt 0 fails at its second bulk read, attempt 1 at
the command write, attempt 2 at its ninth bulk read; later attempts succeed. -/
def D6t32l.bus_three_failures_then_ok : Nat → D6t32l.Attempt :=
  fun i =>
    if i = 0 then ⟨0, fun j => if j = 1 then ⟨-5, []⟩ else ⟨256, []⟩⟩
    else if i = 1 then ⟨-5, fun _ => ⟨256, []⟩⟩
    else if i = 2 then ⟨0, fun j => if j = 8 then ⟨-5, []⟩ else ⟨256, []⟩⟩
    else ⟨0, fun _ => ⟨256, []⟩⟩

/-- A request through `d6t_read` at file position 0 whose transfer delivers the frame
`34 12 78 56` with its trailer `F5` (bus address 0x0A) and whose copy-out is complete. -/
def D6tFull.request_c : D6tFull.read_req :=
  D6tFull.read_entry false 0 ⟨2, [0x34, 0x12, 0x78, 0x56, 0xF5]⟩ 0

/-- A schedule on the device of `d6t_full.c`: `a` runs `d6t_read` up to and including its
`d6t_get_frame`; another caller issues `D6T_IOC_INIT` with the name "d6t01a"; `b` runs
`d6t_read` up to and including its `d6t_get_frame`; then `a` runs to its return. -/
def D6tFull.schedule_reinit : List D6tFull.sys_choice :=
  [D6tFull.sys_choice.request false, D6tFull.sys_choice.request false,
   D6tFull.sys_choice.request false, D6tFull.sys_choice.request false,
   D6tFull.sys_choice.init "d6t01a" (some fun _ => 0) (some fun _ => 0),
   D6tFull.sys_choice.request true, D6tFull.sys_choice.request true,
   D6tFull.sys_choice.request true, D6tFull.sys_choice.request true,
   D6tFull.sys_choice.request false, D6tFull.sys_choice.request false,
   D6tFull.sys_choice.request false, D6tFull.sys_choice.request false,
   D6tFull.sys_choice.request false]

/-! ## Checksum engine: theorems -/

namespace D6tFull

theorem crc8_shift_lt (c : Nat) : crc8_shift c < 256 := by
  unfold crc8_shift
  split <;> omega

theorem crc8_loop_lt (n c : Nat) (hc : c < 256) : crc8_loop n c < 256 := by
  induction n generalizing c with
  | zero => simpa [crc8_loop] using hc
  | succ n ih => exact ih _ (crc8_shift_lt c)

theorem d6t_crc8_lt (crc data : Nat) : d6t_crc8 crc data < 256 :=
  crc8_loop_lt 8 _ (Nat.mod_lt _ (by norm_num))

set_option maxRecDepth 1000000 in
theorem crc8_loop_eq_reference : ∀ x < 256, crc8_loop 8 x = gf2_mod (x <<< 8) crc8_generator := by
  decide

set_option maxRecDepth 1000000 in
theorem crc8_loop_division : ∀ x < 256,
    gf2_mul (gf2_div (x <<< 8) crc8_generator) crc8_generator ^^^ crc8_loop 8 x = x <<< 8 := by
  decide

set_option maxRecDepth 1000000 in
theorem crc8_unloop_loop : ∀ x < 256, crc8_unloop 8 (crc8_loop 8 x) = x := by
  decide

theorem xor_lt_256 {a b : Nat} (ha : a < 256) (hb : b < 256) : a ^^^ b < 256 :=
  Nat.xor_lt_two_pow (n := 8) ha hb

theorem d6t_crc8_eq_loop {crc data : Nat} (hc : crc < 256) (hd : data < 256) :
    d6t_crc8 crc data = crc8_loop 8 (crc ^^^ data) := by
  unfold d6t_crc8
  rw [Nat.mod_eq_of_lt (xor_lt_256 hc hd)]

set_option maxRecDepth 1000000 in
theorem crc8_check_input_ascii : crc8_check_input = "123456789".toList.map Char.toNat := by
  decide

set_option maxRecDepth 1000000 in
theorem crc8_check_value : List.foldl d6t_crc8 0x00 crc8_check_input = 0xF4 := by
  decide

/-- C1: for 8-bit `crc` and `byte`, `d6t_crc8 crc byte` is the CRC-8 reference step for
polynomial 0x07 (MSB first, no reflection, no final XOR): it equals the remainder of
`(crc XOR byte) * x^8` modulo `x^8 + x^2 + x + 1` over GF(2), which is pinned down as a
polynomial of degree below 8 that differs from the dividend by a multiple of the generator;
and folding `d6t_crc8` from seed 0 over the ASCII bytes of "123456789" gives 0xF4. -/
theorem d6t_crc8_is_crc8_poly07 (crc byte : Nat) (hc : crc < 256) (hb : byte < 256) :
    d6t_crc8 crc byte = crc8_reference_step crc byte
    ∧ d6t_crc8 crc byte < 256
    ∧ (∃ q, gf2_mul q crc8_generator ^^^ d6t_crc8 crc byte = (crc ^^^ byte) <<< 8)
    ∧ crc8_check_input = "123456789".toList.map Char.toNat
    ∧ List.foldl d6t_crc8 0x00 crc8_check_input = 0xF4 := by
  have hx := xor_lt_256 hc hb
  refine ⟨?_, d6t_crc8_lt crc byte, ?_, crc8_check_input_ascii, crc8_check_value⟩
  · rw [d6t_crc8_eq_loop hc hb]
    exact crc8_loop_eq_reference _ hx
  · refine ⟨gf2_div ((crc ^^^ byte) <<< 8) crc8_generator, ?_⟩
    rw [d6t_crc8_eq_loop hc hb]
    exact crc8_loop_division _ hx

/-- Witness for C1 at `crc = 0x5A`, `byte = 0xC3`. -/
theorem d6t_crc8_is_crc8_poly07_witness :
    d6t_crc8 0x5A 0xC3 = crc8_reference_step 0x5A 0xC3
    ∧ d6t_crc8 0x5A 0xC3 < 256
    ∧ (∃ q, gf2_mul q crc8_generator ^^^ d6t_crc8 0x5A 0xC3 = (0x5A ^^^ 0xC3) <<< 8)
    ∧ crc8_check_input = "123456789".toList.map Char.toNat
    ∧ List.foldl d6t_crc8 0x00 crc8_check_input = 0xF4 :=
  d6t_crc8_is_crc8_poly07 0x5A 0xC3 (by decide) (by decide)

end D6tFull

/-! ## Frame verification: theorems -/

namespace D6tFull

theorem pec_loop_eq_foldl (buf : List Nat) (k i crc : Nat) (h : i + k ≤ buf.length) :
    pec_loop buf k i crc = List.foldl d6t_crc8 crc ((buf.drop i).take k) := by
  induction k generalizing i crc with
  | zero => simp [pec_loop]
  | succ k ih =>
    have hi : i < buf.length := by omega
    rw [pec_loop, ih (i + 1) _ (by omega), List.drop_eq_getElem_cons hi, List.take_succ_cons,
      List.foldl_cons, List.getD_eq_getElem?_getD, List.getElem?_eq_getElem hi, Option.getD_some]

theorem take_set_ge {α : Type} (l : List α) (n m : Nat) (a : α) (h : n ≤ m) :
    (l.set m a).take n = l.take n := by
  apply List.ext_getElem?
  intro i
  rw [List.getElem?_take, List.getElem?_take]
  split
  · rw [List.getElem?_set_ne (by omega)]
  · rfl

theorem n_read_pred_u32 {n_read : Nat} (h1 : 1 ≤ n_read) (hu : n_read < 65536) :
    (n_read + 2 ^ 32 - 1) % 2 ^ 32 = n_read - 1 := by
  omega

theorem d6t_checkPEC_eq (addr n_read : Nat) (buf : List Nat)
    (h1 : 1 ≤ n_read) (hu : n_read < 65536) (hlen : buf.length = n_read) :
    d6t_checkPEC addr n_read buf
      = (compute_pec (read_address_byte addr) (buf.take (n_read - 1)) != buf.getD (n_read - 1) 0) := by
  unfold d6t_checkPEC compute_pec read_address_byte
  simp only [n_read_pred_u32 h1 hu]
  rw [pec_loop_eq_foldl buf (n_read - 1) 0 _ (by omega)]
  simp

theorem d6t_checkPEC_false_iff (addr n_read : Nat) (buf : List Nat)
    (h1 : 1 ≤ n_read) (hu : n_read < 65536) (hlen : buf.length = n_read) :
    d6t_checkPEC addr n_read buf = false
      ↔ buf[n_read - 1]? = some (compute_pec (read_address_byte addr) (buf.take (n_read - 1))) := by
  have hlt : n_read - 1 < buf.length := by omega
  rw [d6t_checkPEC_eq addr n_read buf h1 hu hlen]
  simp only [List.getD_eq_getElem?_getD, List.getElem?_eq_getElem hlt, Option.getD_some,
    Option.some.injEq, bne_eq_false_iff_eq]
  exact eq_comm

/-- C2: for every bus address and every frame buffer of length `n_read >= 1` (a `u16`),
`d6t_checkPEC` returns `false` (success) exactly when the trailer byte `buf[n_read - 1]`
equals the PEC obtained by seeding with the read-address byte `((addr << 1) | 1) % 256`
(folded from 0) and folding `buf[0] .. buf[n_read - 2]` in order; the trailer is never folded:
whatever byte `t` stands in the trailer position, acceptance is `t = PEC` of the same data. -/
theorem d6t_checkPEC_accepts_iff_trailer_is_pec (addr n_read : Nat) (buf : List Nat)
    (h1 : 1 ≤ n_read) (hu : n_read < 65536) (hlen : buf.length = n_read) :
    (d6t_checkPEC addr n_read buf = false
      ↔ buf[n_read - 1]? = some (compute_pec (read_address_byte addr) (buf.take (n_read - 1))))
    ∧ (∀ t : Nat, d6t_checkPEC addr n_read (buf.set (n_read - 1) t) = false
      ↔ t = compute_pec (read_address_byte addr) (buf.take (n_read - 1))) := by
  refine ⟨d6t_checkPEC_false_iff addr n_read buf h1 hu hlen, fun t => ?_⟩
  have hlt : n_read - 1 < buf.length := by omega
  rw [d6t_checkPEC_false_iff addr n_read _ h1 hu (by simpa using hlen),
    List.getElem?_set_self hlt, take_set_ge buf _ _ t (Nat.le_refl _)]
  simp

end D6tFull

namespace D6tFull

/-- Witness for C2: bus address 0x0A, the 5-byte frame `10 01 20 01` with its trailer. -/
theorem d6t_checkPEC_accepts_iff_trailer_is_pec_witness :
    (d6t_checkPEC 0x0A 5 [0x10, 0x01, 0x20, 0x01, 0x7A] = false
      ↔ [0x10, 0x01, 0x20, 0x01, 0x7A][5 - 1]?
          = some (compute_pec (read_address_byte 0x0A) ([0x10, 0x01, 0x20, 0x01, 0x7A].take (5 - 1))))
    ∧ (∀ t : Nat, d6t_checkPEC 0x0A 5 ([0x10, 0x01, 0x20, 0x01, 0x7A].set (5 - 1) t) = false
      ↔ t = compute_pec (read_address_byte 0x0A) ([0x10, 0x01, 0x20, 0x01, 0x7A].take (5 - 1))) :=
  d6t_checkPEC_accepts_iff_trailer_is_pec 0x0A 5 [0x10, 0x01, 0x20, 0x01, 0x7A]
    (by decide) (by decide) rfl

theorem crc8_loop_inj {x y : Nat} (hx : x < 256) (hy : y < 256)
    (h : crc8_loop 8 x = crc8_loop 8 y) : x = y := by
  rw [← crc8_unloop_loop x hx, ← crc8_unloop_loop y hy, h]

theorem d6t_crc8_inj_data {c a b : Nat} (hc : c < 256) (ha : a < 256) (hb : b < 256)
    (h : d6t_crc8 c a = d6t_crc8 c b) : a = b := by
  rw [d6t_crc8_eq_loop hc ha, d6t_crc8_eq_loop hc hb] at h
  exact Nat.xor_right_inj.mp (crc8_loop_inj (xor_lt_256 hc ha) (xor_lt_256 hc hb) h)

theorem d6t_crc8_inj_crc {a b d : Nat} (ha : a < 256) (hb : b < 256) (hd : d < 256)
    (h : d6t_crc8 a d = d6t_crc8 b d) : a = b := by
  rw [d6t_crc8_eq_loop ha hd, d6t_crc8_eq_loop hb hd] at h
  exact Nat.xor_left_inj.mp (crc8_loop_inj (xor_lt_256 ha hd) (xor_lt_256 hb hd) h)

theorem foldl_crc8_inj (l : List Nat) (hl : ∀ x ∈ l, x < 256) {c1 c2 : Nat}
    (h1 : c1 < 256) (h2 : c2 < 256)
    (h : List.foldl d6t_crc8 c1 l = List.foldl d6t_crc8 c2 l) : c1 = c2 := by
  induction l generalizing c1 c2 with
  | nil => simpa using h
  | cons a t ih =>
    have ha : a < 256 := hl a (List.mem_cons_self a t)
    have ht : ∀ x ∈ t, x < 256 := fun x hx => hl x (List.mem_cons_of_mem a hx)
    rw [List.foldl_cons, List.foldl_cons] at h
    exact d6t_crc8_inj_crc h1 h2 ha (ih ht (d6t_crc8_lt _ _) (d6t_crc8_lt _ _) h)

theorem foldl_crc8_set_ne (l : List Nat) (hl : ∀ x ∈ l, x < 256) (j v c : Nat)
    (hj : j < l.length) (hv : v < 256) (hne : l[j]? ≠ some v) (hc : c < 256) :
    List.foldl d6t_crc8 c (l.set j v) ≠ List.foldl d6t_crc8 c l := by
  induction l generalizing j c with
  | nil => simp at hj
  | cons a t ih =>
    have ha : a < 256 := hl a (List.mem_cons_self a t)
    have ht : ∀ x ∈ t, x < 256 := fun x hx => hl x (List.mem_cons_of_mem a hx)
    cases j with
    | zero =>
      intro h
      rw [List.set_cons_zero, List.foldl_cons, List.foldl_cons] at h
      have h2 := foldl_crc8_inj t ht (d6t_crc8_lt _ _) (d6t_crc8_lt _ _) h
      have h3 := d6t_crc8_inj_data hc hv ha h2
      exact hne (by simp [h3])
    | succ j =>
      rw [List.set_cons_succ, List.foldl_cons, List.foldl_cons]
      exact ih ht j _ (by simpa using hj) (by simpa using hne) (d6t_crc8_lt _ _)

theorem one_shiftLeft_ne_zero (k : Nat) : 1 <<< k ≠ 0 := by
  rw [Nat.one_shiftLeft]
  exact Nat.pos_iff_ne_zero.mp (Nat.two_pow_pos k)

theorem flip_ne (b k : Nat) : b ^^^ (1 <<< k) ≠ b := by
  intro h
  have h0 : b ^^^ (1 <<< k) = b ^^^ 0 := by simpa using h
  exact one_shiftLeft_ne_zero k (Nat.xor_right_inj.mp h0)

theorem flip_lt {b k : Nat} (hb : b < 256) (hk : k < 8) : b ^^^ (1 <<< k) < 256 := by
  apply xor_lt_256 hb
  interval_cases k <;> decide

end D6tFull

namespace D6tFull

/-- C3: single-bit mutation detection.  For every bus address, every byte buffer of length
`n_read >= 1` (any `u16` length, so in particular 5 and 2051) that `d6t_checkPEC` accepts, and
every bit position of the buffer (data bytes and trailer alike), the buffer with that one bit
flipped is rejected by `d6t_checkPEC`. -/
theorem d6t_checkPEC_rejects_single_bit_flip (addr n_read : Nat) (buf : List Nat) (pos : Nat)
    (h1 : 1 ≤ n_read) (hu : n_read < 65536) (hlen : buf.length = n_read)
    (hbytes : ∀ x ∈ buf, x < 256) (hpos : pos < 8 * n_read)
    (hacc : d6t_checkPEC addr n_read buf = false) :
    d6t_checkPEC addr n_read (flip_bit buf pos) = true := by
  have hj : pos / 8 < buf.length := by omega
  have hk : pos % 8 < 8 := Nat.mod_lt _ (by norm_num)
  have hb : buf[pos / 8] < 256 := hbytes _ (List.getElem_mem hj)
  have hflip : flip_bit buf pos = buf.set (pos / 8) (buf[pos / 8] ^^^ (1 <<< (pos % 8))) := by
    simp [flip_bit, List.getD_eq_getElem?_getD, List.getElem?_eq_getElem hj]
  rw [hflip]
  generalize hv : buf[pos / 8] ^^^ (1 <<< (pos % 8)) = v
  have hvlt : v < 256 := hv ▸ flip_lt hb hk
  have hvne : v ≠ buf[pos / 8] := hv ▸ flip_ne _ _
  rw [d6t_checkPEC_false_iff addr n_read buf h1 hu hlen] at hacc
  by_contra hcon
  have hrej : d6t_checkPEC addr n_read (buf.set (pos / 8) v) = false := by
    simpa using hcon
  rw [d6t_checkPEC_false_iff addr n_read _ h1 hu (by simpa using hlen)] at hrej
  by_cases hcase : pos / 8 = n_read - 1
  · rw [hcase, List.getElem?_set_self (by omega), take_set_ge buf _ _ v (Nat.le_refl _),
      ← hacc, List.getElem?_eq_getElem (by omega)] at hrej
    apply hvne
    simpa [hcase] using hrej
  · have hlt : pos / 8 < n_read - 1 := by omega
    rw [List.getElem?_set_ne hcase, hacc, List.set_take] at hrej
    have hinj := Option.some.inj hrej
    unfold compute_pec at hinj
    refine foldl_crc8_set_ne (buf.take (n_read - 1)) ?_ (pos / 8) v _ ?_ hvlt ?_
      (d6t_crc8_lt _ _) hinj.symm
    · intro x hx
      exact hbytes x (List.mem_of_mem_take hx)
    · simp [List.length_take]; omega
    · rw [List.getElem?_take_of_lt hlt, List.getElem?_eq_getElem hj]
      intro h
      exact hvne (Option.some.inj h).symm

set_option maxRecDepth 1000000 in
theorem frame5_accepted : d6t_checkPEC 0x0A 5 [0x10, 0x01, 0x20, 0x01, 0x7A] = false := by
  decide

theorem frame5_bytes : ∀ x ∈ [0x10, 0x01, 0x20, 0x01, 0x7A], x < 256 := by
  intro x hx
  simp only [List.mem_cons, List.mem_singleton, List.not_mem_nil, or_false] at hx
  omega

/-- Witness for C3: the accepted 5-byte frame `10 01 20 01 7A` at address 0x0A, bit 17 flipped. -/
theorem d6t_checkPEC_rejects_single_bit_flip_witness :
    d6t_checkPEC 0x0A 5 [0x10, 0x01, 0x20, 0x01, 0x7A] = false
    ∧ d6t_checkPEC 0x0A 5 (flip_bit [0x10, 0x01, 0x20, 0x01, 0x7A] 17) = true :=
  ⟨frame5_accepted, d6t_checkPEC_rejects_single_bit_flip 0x0A 5 [0x10, 0x01, 0x20, 0x01, 0x7A] 17
    (by decide) (by decide) rfl frame5_bytes (by decide) frame5_accepted⟩

end D6tFull

/-! ## Frame decoder: theorems -/

namespace D6tFull

theorem convert_loop_spec (k i : Nat) (m : frame_mem) :
    (convert_loop k i m).buf = m.buf
    ∧ (convert_loop k i m).raw.length = m.raw.length
    ∧ ∀ j, (convert_loop k i m).raw[j]?
        = if i ≤ j ∧ j < i + k ∧ j < m.raw.length then
            some (((m.buf.getD (2 * j + 1) 0 <<< 8) ||| m.buf.getD (2 * j) 0) % 65536)
          else m.raw[j]? := by
  induction k generalizing i m with
  | zero =>
    refine ⟨rfl, rfl, fun j => ?_⟩
    have : ¬ (i ≤ j ∧ j < i + 0 ∧ j < m.raw.length) := by omega
    rw [if_neg this, convert_loop]
  | succ k ih =>
    obtain ⟨hb, hl, hget⟩ := ih (i + 1)
      { m with raw := m.raw.set i (((m.buf.getD (2 * i + 1) 0 <<< 8) ||| m.buf.getD (2 * i) 0) % 65536) }
    refine ⟨by rw [convert_loop, hb], by rw [convert_loop, hl]; simp, fun j => ?_⟩
    rw [convert_loop, hget j]
    simp only [List.length_set, List.getElem?_set]
    by_cases hij : i = j
    · subst hij
      by_cases hlen : i < m.raw.length
      · have h1 : ¬ (i + 1 ≤ i ∧ i < i + 1 + k ∧ i < m.raw.length) := by omega
        have h2 : i ≤ i ∧ i < i + (k + 1) ∧ i < m.raw.length := ⟨le_refl _, by omega, hlen⟩
        simp [h1, h2, hlen]
      · have h1 : ¬ (i + 1 ≤ i ∧ i < i + 1 + k ∧ i < m.raw.length) := by omega
        have h2 : ¬ (i ≤ i ∧ i < i + (k + 1) ∧ i < m.raw.length) := by omega
        have h3 : m.raw[i]? = none := List.getElem?_eq_none (by omega)
        simp [h1, h2, hlen, h3]
    · by_cases hc : i + 1 ≤ j ∧ j < i + 1 + k ∧ j < m.raw.length
      · have h2 : i ≤ j ∧ j < i + (k + 1) ∧ j < m.raw.length := by omega
        simp [hc, h2]
      · have h2 : ¬ (i ≤ j ∧ j < i + (k + 1) ∧ j < m.raw.length) := by omega
        simp [hc, h2, hij]

theorem le_pair_u16 {lo hi : Nat} (hlo : lo < 256) (hhi : hi < 256) :
    ((hi <<< 8) ||| lo) % 65536 = lo ||| (hi <<< 8) := by
  have h1 : hi <<< 8 < 2 ^ 16 := by rw [Nat.shiftLeft_eq]; omega
  have h2 : lo < 2 ^ 16 := by omega
  rw [Nat.mod_eq_of_lt (Nat.or_lt_two_pow h1 h2), Nat.lor_comm]

theorem le_pair_eq_add {lo hi : Nat} (hlo : lo < 256) : lo ||| (hi <<< 8) = 2 ^ 8 * hi + lo := by
  rw [Nat.lor_comm, Nat.shiftLeft_eq, Nat.mul_comm hi, ← Nat.mul_add_lt_is_or (by simpa using hlo)]

theorem le_pair_low {lo hi : Nat} (hlo : lo < 256) : (lo ||| (hi <<< 8)) &&& 0xFF = lo := by
  rw [le_pair_eq_add hlo]
  have h := Nat.and_pow_two_sub_one_eq_mod (2 ^ 8 * hi + lo) 8
  norm_num at h ⊢
  rw [h]
  omega

theorem le_pair_high {lo hi : Nat} (hlo : lo < 256) : (lo ||| (hi <<< 8)) >>> 8 = hi := by
  rw [le_pair_eq_add hlo, Nat.shiftRight_eq_div_pow]
  omega

/-- C4: for a session with `n_raw_data = n`, a byte buffer of length at least `2 n` and a sample
buffer holding `n` samples, after `d6t_convert_u8_to_s16` every sample index `i < n` satisfies
`raw[i] = buf[2 i] | (buf[2 i + 1] << 8)` (little-endian pair; the value fits 16 bits, so the
`u16` store loses nothing; sample 0 is PTAT), the byte buffer is unchanged, and the sample
buffer keeps its size. -/
theorem d6t_convert_u8_to_s16_little_endian (n : Nat) (m : frame_mem)
    (hbuf : 2 * n ≤ m.buf.length) (hraw : n ≤ m.raw.length) (hbytes : ∀ x ∈ m.buf, x < 256) :
    (∀ i, i < n → ∃ lo hi, m.buf[2 * i]? = some lo ∧ m.buf[2 * i + 1]? = some hi
        ∧ (d6t_convert_u8_to_s16 n m).raw[i]? = some (lo ||| (hi <<< 8))
        ∧ lo ||| (hi <<< 8) < 65536)
    ∧ (d6t_convert_u8_to_s16 n m).buf = m.buf
    ∧ (d6t_convert_u8_to_s16 n m).raw.length = m.raw.length := by
  obtain ⟨hb, hl, hget⟩ := convert_loop_spec n 0 m
  refine ⟨fun i hi => ?_, hb, hl⟩
  have h0 : 2 * i < m.buf.length := by omega
  have h1 : 2 * i + 1 < m.buf.length := by omega
  have hlo : m.buf[2 * i] < 256 := hbytes _ (List.getElem_mem h0)
  have hhi : m.buf[2 * i + 1] < 256 := hbytes _ (List.getElem_mem h1)
  refine ⟨m.buf[2 * i], m.buf[2 * i + 1], List.getElem?_eq_getElem h0,
    List.getElem?_eq_getElem h1, ?_, ?_⟩
  · have hc : 0 ≤ i ∧ i < 0 + n ∧ i < m.raw.length := by omega
    unfold d6t_convert_u8_to_s16
    rw [hget i, if_pos hc]
    simp only [List.getD_eq_getElem?_getD, List.getElem?_eq_getElem h0,
      List.getElem?_eq_getElem h1, Option.getD_some]
    rw [le_pair_u16 hlo hhi]
  · rw [← le_pair_u16 hlo hhi]
    exact Nat.mod_lt _ (by norm_num)

end D6tFull

namespace D6tFull

/-- Witness for C4: two samples decoded from the 5-byte frame `34 12 CD AB 06`. -/
theorem d6t_convert_u8_to_s16_little_endian_witness :
    (∀ i, i < 2 → ∃ lo hi,
        (frame_mem.mk [0x34, 0x12, 0xCD, 0xAB, 0x06] [0, 0]).buf[2 * i]? = some lo
        ∧ (frame_mem.mk [0x34, 0x12, 0xCD, 0xAB, 0x06] [0, 0]).buf[2 * i + 1]? = some hi
        ∧ (d6t_convert_u8_to_s16 2 (frame_mem.mk [0x34, 0x12, 0xCD, 0xAB, 0x06] [0, 0])).raw[i]?
            = some (lo ||| (hi <<< 8))
        ∧ lo ||| (hi <<< 8) < 65536)
    ∧ (d6t_convert_u8_to_s16 2 (frame_mem.mk [0x34, 0x12, 0xCD, 0xAB, 0x06] [0, 0])).buf
        = (frame_mem.mk [0x34, 0x12, 0xCD, 0xAB, 0x06] [0, 0]).buf
    ∧ (d6t_convert_u8_to_s16 2 (frame_mem.mk [0x34, 0x12, 0xCD, 0xAB, 0x06] [0, 0])).raw.length
        = (frame_mem.mk [0x34, 0x12, 0xCD, 0xAB, 0x06] [0, 0]).raw.length :=
  d6t_convert_u8_to_s16_little_endian 2 (frame_mem.mk [0x34, 0x12, 0xCD, 0xAB, 0x06] [0, 0])
    (by decide) (by decide) (by decide)

theorem decode_pairs_getElem? : ∀ (b : List Nat) (j : Nat),
    (decode_pairs b)[j]?
      = if 2 * j + 1 < b.length then some (b.getD (2 * j) 0 ||| (b.getD (2 * j + 1) 0 <<< 8))
        else none
  | [], j => by simp [decode_pairs]
  | [_], j => by simp [decode_pairs]
  | lo :: hi :: rest, 0 => by simp [decode_pairs]
  | lo :: hi :: rest, j + 1 => by
    have ih := decode_pairs_getElem? rest j
    have e1 : 2 * (j + 1) = 2 * j + 1 + 1 := by omega
    simp only [decode_pairs, List.getElem?_cons_succ, ih, List.length_cons, e1,
      List.getD_cons_succ]
    by_cases h : 2 * j + 1 < rest.length
    · have h' : 2 * j + 1 + 1 + 1 < rest.length + 1 + 1 := by omega
      simp [h, h']
    · have h' : ¬ (2 * j + 1 + 1 + 1 < rest.length + 1 + 1) := by omega
      simp [h, h']

theorem reencode_decode_pairs : ∀ (b : List Nat) (n : Nat), b.length = 2 * n →
    (∀ x ∈ b, x < 256) → reencode (decode_pairs b) = b
  | [], _, _, _ => by simp [decode_pairs, reencode]
  | [_], n, h, _ => by simp at h; omega
  | lo :: hi :: rest, n, h, hb => by
    have hlo : lo < 256 := hb lo (by simp)
    have hrest : ∀ x ∈ rest, x < 256 := fun x hx => hb x (by simp [hx])
    have hlen : rest.length = 2 * (n - 1) := by simp at h; omega
    simp only [decode_pairs, reencode, le_pair_low hlo, le_pair_high hlo,
      reencode_decode_pairs rest (n - 1) hlen hrest]

theorem convert_eq_decode_pairs (b raw0 : List Nat) (n : Nat)
    (hlen : b.length = 2 * n) (hraw : raw0.length = n) (hbytes : ∀ x ∈ b, x < 256) :
    (d6t_convert_u8_to_s16 n (frame_mem.mk b raw0)).raw = decode_pairs b := by
  obtain ⟨_, _, hget⟩ := convert_loop_spec n 0 (frame_mem.mk b raw0)
  apply List.ext_getElem?
  intro j
  unfold d6t_convert_u8_to_s16
  rw [hget j, decode_pairs_getElem?]
  by_cases hj : j < n
  · have hc : 0 ≤ j ∧ j < 0 + n ∧ j < raw0.length := by omega
    have h0 : 2 * j < b.length := by omega
    have h1 : 2 * j + 1 < b.length := by omega
    rw [if_pos hc, if_pos h1]
    simp only [List.getD_eq_getElem?_getD, List.getElem?_eq_getElem h0,
      List.getElem?_eq_getElem h1, Option.getD_some]
    rw [le_pair_u16 (hbytes _ (List.getElem_mem h0)) (hbytes _ (List.getElem_mem h1))]
  · have hc : ¬ (0 ≤ j ∧ j < 0 + n ∧ j < (frame_mem.mk b raw0).raw.length) := by
      simp only [hraw]; omega
    have h1 : ¬ (2 * j + 1 < b.length) := by omega
    rw [if_neg hc, if_neg h1]
    exact List.getElem?_eq_none (by simp only [hraw]; omega)

/-- C5: decode round trip.  For every byte sequence `b` of even length `2 n`, decoding it into
`n` 16-bit samples with `d6t_convert_u8_to_s16` and re-encoding each sample `s` as the pair
`(s & 0xFF, s >> 8)` (low byte, then high byte) reproduces `b` exactly. -/
theorem decode_reencode_roundtrip (b raw0 : List Nat) (n : Nat)
    (hlen : b.length = 2 * n) (hraw : raw0.length = n) (hbytes : ∀ x ∈ b, x < 256) :
    reencode (d6t_convert_u8_to_s16 n (frame_mem.mk b raw0)).raw = b := by
  rw [convert_eq_decode_pairs b raw0 n hlen hraw hbytes]
  exact reencode_decode_pairs b n hlen hbytes

/-- Witness for C5: the four bytes `34 12 CD AB` survive decode and re-encode. -/
theorem decode_reencode_roundtrip_witness :
    reencode (d6t_convert_u8_to_s16 2 (frame_mem.mk [0x34, 0x12, 0xCD, 0xAB] [7, 9])).raw
      = [0x34, 0x12, 0xCD, 0xAB] :=
  decode_reencode_roundtrip [0x34, 0x12, 0xCD, 0xAB] [7, 9] 2 rfl rfl (by decide)

end D6tFull

/-! ## Session initialisation: theorems -/

namespace D6tFull

theorem ioctl_d6t_init_ok_inv (d d' : d6t_data) (info : d6t_info)
    (hname : info = tbl_D6T_01A ∨ info = tbl_D6T_32L_01A)
    (alloc_buf alloc_raw : Option (Nat → Nat))
    (h : ioctl_d6t_init d info.model_name alloc_buf alloc_raw = (0, d')) :
    d'.d6t_info = some info
    ∧ d'.n_read = N_READ info.row info.col % 65536
    ∧ d'.n_raw_data = (N_PIXELS info.row info.col + 1) % 65536
    ∧ (∃ b r, d'.buf = KPtr.live b ∧ b.length = d'.n_read
        ∧ d'.raw = KPtr.live r ∧ r.length = d'.n_raw_data) := by
  rcases hname with rfl | rfl
  · cases alloc_buf <;> cases alloc_raw <;>
      simp [ioctl_d6t_init, tbl_D6T_01A, kmalloc, KPtr.isNull, EINVAL, ENOMEM] at h
    subst h
    simp [tbl_D6T_01A]
  · cases alloc_buf <;> cases alloc_raw <;>
      simp [ioctl_d6t_init, tbl_D6T_32L_01A, kmalloc, KPtr.isNull, EINVAL, ENOMEM] at h
    subst h
    simp [tbl_D6T_32L_01A]

end D6tFull

theorem D6tCore.d6t_init_geometry (name : String) (alloc_d6t : Bool)
    (alloc_buffer : Option (Nat → Nat)) (alloc_raw : Option (Nat → Int)) (t : D6tCore.d6t_t)
    (h : D6tCore.d6t_init name alloc_d6t alloc_buffer alloc_raw = some t) :
    t.name = name
    ∧ t.n_read = 2 * (1 + t.row * t.col) + 1
    ∧ t.n_raw_data = 1 + t.row * t.col
    ∧ (name = "d6t01a" → t.row = 1 ∧ t.col = 1)
    ∧ (name = "d6t32l01a" → t.row = 32 ∧ t.col = 32) := by
  unfold D6tCore.d6t_init at h
  cases alloc_d6t
  · simp at h
  · by_cases h1 : name = "d6t01a"
    · subst h1
      simp at h
      subst h
      simp
    · by_cases h2 : name = "d6t32l01a"
      · subst h2
        simp at h
        subst h
        simp
      · simp [h1, h2] at h

namespace D6tFull

/-- C6: for every model of the registry table, a successful init sets
`n_read = 2 * (1 + row * col) + 1` and `n_raw_data = 1 + row * col` exactly (the `u16` stores
lose nothing) and leaves both buffers allocated with exactly these sizes; with allocations that
succeed the init does succeed; for "d6t32l01a" the sizes are 2051 bytes and 1025 samples.
The same sizes result from `d6t_init` of `d6t_core.c` whenever it returns a structure. -/
theorem init_sets_frame_geometry (info : d6t_info) (hmem : info ∈ d6t_info_tbl)
    (d d' : d6t_data) (alloc_buf alloc_raw : Option (Nat → Nat))
    (h : ioctl_d6t_init d info.model_name alloc_buf alloc_raw = (0, d')) :
    (d'.d6t_info = some info
      ∧ d'.n_read = 2 * (1 + info.row * info.col) + 1
      ∧ d'.n_raw_data = 1 + info.row * info.col
      ∧ (∃ b r, d'.buf = KPtr.live b ∧ b.length = 2 * (1 + info.row * info.col) + 1
          ∧ d'.raw = KPtr.live r ∧ r.length = 1 + info.row * info.col)
      ∧ (info.model_name = "d6t32l01a" → d'.n_read = 2051 ∧ d'.n_raw_data = 1025))
    ∧ (∀ f1 f2 : Nat → Nat, (ioctl_d6t_init d info.model_name (some f1) (some f2)).1 = 0)
    ∧ (∀ (alloc_d6t : Bool) (a1 : Option (Nat → Nat)) (a2 : Option (Nat → Int))
        (t : D6tCore.d6t_t),
        D6tCore.d6t_init info.model_name alloc_d6t a1 a2 = some t →
          t.row = info.row ∧ t.col = info.col
          ∧ t.n_read = 2 * (1 + info.row * info.col) + 1
          ∧ t.n_raw_data = 1 + info.row * info.col
          ∧ (info.model_name = "d6t32l01a" → t.n_read = 2051 ∧ t.n_raw_data = 1025)) := by
  have hname : info = tbl_D6T_01A ∨ info = tbl_D6T_32L_01A := by
    simpa [d6t_info_tbl] using hmem
  obtain ⟨hi, hn, hr, b, r, hb, hbl, hrw, hrl⟩ :=
    ioctl_d6t_init_ok_inv d d' info hname alloc_buf alloc_raw h
  refine ⟨?_, ?_, ?_⟩
  · rcases hname with rfl | rfl
    · refine ⟨hi, ?_, ?_, ⟨b, r, hb, ?_, hrw, ?_⟩, ?_⟩
      · rw [hn]; decide
      · rw [hr]; decide
      · rw [hbl, hn]; decide
      · rw [hrl, hr]; decide
      · intro hc; exact absurd hc (by decide)
    · refine ⟨hi, ?_, ?_, ⟨b, r, hb, ?_, hrw, ?_⟩, ?_⟩
      · rw [hn]; decide
      · rw [hr]; decide
      · rw [hbl, hn]; decide
      · rw [hrl, hr]; decide
      · intro _; rw [hn, hr]; exact ⟨by decide, by decide⟩
  · intro f1 f2
    rcases hname with rfl | rfl <;>
      simp [ioctl_d6t_init, tbl_D6T_01A, tbl_D6T_32L_01A, kmalloc, KPtr.isNull]
  · intro alloc_d6t a1 a2 t ht
    obtain ⟨_, h1, h2, h3, h4⟩ := D6tCore.d6t_init_geometry _ _ _ _ t ht
    rcases hname with rfl | rfl
    · obtain ⟨hrow, hcol⟩ := h3 rfl
      rw [h1, h2, hrow, hcol]
      refine ⟨rfl, rfl, rfl, rfl, ?_⟩
      intro hc; exact absurd hc (by decide)
    · obtain ⟨hrow, hcol⟩ := h4 rfl
      rw [h1, h2, hrow, hcol]
      exact ⟨rfl, rfl, rfl, rfl, fun _ => ⟨rfl, rfl⟩⟩

end D6tFull

namespace D6tFull

theorem init_d6t32l01a_ret :
    (ioctl_d6t_init d6t_data_zero tbl_D6T_32L_01A.model_name
      (some fun _ => 0) (some fun _ => 0)).1 = 0 := by
  simp [ioctl_d6t_init, tbl_D6T_32L_01A, kmalloc, KPtr.isNull]

theorem init_d6t01a_ret :
    (ioctl_d6t_init d6t_data_zero "d6t01a" (some fun _ => 0) (some fun _ => 0)).1 = 0 := by
  simp [ioctl_d6t_init, kmalloc, KPtr.isNull]

/-- Witness for C6: init of "d6t32l01a" on a fresh session with both allocations succeeding. -/
theorem init_sets_frame_geometry_witness :
    tbl_D6T_32L_01A ∈ d6t_info_tbl
    ∧ (ioctl_d6t_init d6t_data_zero tbl_D6T_32L_01A.model_name
        (some fun _ => 0) (some fun _ => 0)).1 = 0
    ∧ (ioctl_d6t_init d6t_data_zero tbl_D6T_32L_01A.model_name
        (some fun _ => 0) (some fun _ => 0)).2.n_read = 2051
    ∧ (ioctl_d6t_init d6t_data_zero tbl_D6T_32L_01A.model_name
        (some fun _ => 0) (some fun _ => 0)).2.n_raw_data = 1025 :=
  have hmem : tbl_D6T_32L_01A ∈ d6t_info_tbl := by simp [d6t_info_tbl]
  have hsz := (init_sets_frame_geometry tbl_D6T_32L_01A hmem d6t_data_zero
    (ioctl_d6t_init d6t_data_zero tbl_D6T_32L_01A.model_name
      (some fun _ => 0) (some fun _ => 0)).2
    (some fun _ => 0) (some fun _ => 0) (Prod.ext init_d6t32l01a_ret rfl)).1.2.2.2.2 rfl
  ⟨hmem, init_d6t32l01a_ret, hsz.1, hsz.2⟩

/-- C7 as stated fails: after a successful init("d6t01a") the sample count `n_raw_data` is not 1
(it is 2: PTAT and one pixel), while the frame length `n_read` is 5. -/
theorem init_d6t01a_sample_count_is_not_one :
    (ioctl_d6t_init d6t_data_zero "d6t01a" (some fun _ => 0) (some fun _ => 0)).1 = 0
    ∧ ¬ ((ioctl_d6t_init d6t_data_zero "d6t01a" (some fun _ => 0) (some fun _ => 0)).2.n_raw_data = 1
        ∧ (ioctl_d6t_init d6t_data_zero "d6t01a" (some fun _ => 0) (some fun _ => 0)).2.n_read = 5) := by
  refine ⟨init_d6t01a_ret, ?_⟩
  simp [ioctl_d6t_init, kmalloc, KPtr.isNull, tbl_D6T_01A, N_PIXELS]

/-- C7 amended: a successful init("d6t01a") allocates a 2-sample buffer (PTAT and one pixel)
and a 5-byte raw buffer: afterwards `n_raw_data = 2`, `n_read = 5`, and the two buffers are
live with exactly 5 bytes and 2 samples; `d6t_init` of `d6t_core.c` records the same counts. -/
theorem init_d6t01a_two_samples_five_bytes (d d' : d6t_data)
    (alloc_buf alloc_raw : Option (Nat → Nat))
    (h : ioctl_d6t_init d "d6t01a" alloc_buf alloc_raw = (0, d')) :
    d'.n_raw_data = 2 ∧ d'.n_read = 5
    ∧ (∃ b r, d'.buf = KPtr.live b ∧ b.length = 5 ∧ d'.raw = KPtr.live r ∧ r.length = 2)
    ∧ (∀ (alloc_d6t : Bool) (a1 : Option (Nat → Nat)) (a2 : Option (Nat → Int))
        (t : D6tCore.d6t_t), D6tCore.d6t_init "d6t01a" alloc_d6t a1 a2 = some t →
          t.n_raw_data = 2 ∧ t.n_read = 5) := by
  obtain ⟨_, hn, hr, b, r, hb, hbl, hrw, hrl⟩ :=
    ioctl_d6t_init_ok_inv d d' tbl_D6T_01A (Or.inl rfl) alloc_buf alloc_raw h
  have hn5 : d'.n_read = 5 := by rw [hn]; decide
  have hr2 : d'.n_raw_data = 2 := by rw [hr]; decide
  refine ⟨hr2, hn5, ⟨b, r, hb, by rw [hbl, hn5], hrw, by rw [hrl, hr2]⟩, ?_⟩
  intro alloc_d6t a1 a2 t ht
  obtain ⟨_, h1, h2, h3, _⟩ := D6tCore.d6t_init_geometry _ _ _ _ t ht
  obtain ⟨hrow, hcol⟩ := h3 rfl
  rw [h1, h2, hrow, hcol]
  exact ⟨rfl, rfl⟩

/-- Witness for amended C7: init("d6t01a") on a fresh session, both allocations succeeding. -/
theorem init_d6t01a_two_samples_five_bytes_witness :
    (ioctl_d6t_init d6t_data_zero "d6t01a" (some fun _ => 0) (some fun _ => 0)).1 = 0
    ∧ (ioctl_d6t_init d6t_data_zero "d6t01a" (some fun _ => 0) (some fun _ => 0)).2.n_raw_data = 2
    ∧ (ioctl_d6t_init d6t_data_zero "d6t01a" (some fun _ => 0) (some fun _ => 0)).2.n_read = 5 :=
  have hsz := init_d6t01a_two_samples_five_bytes d6t_data_zero
    (ioctl_d6t_init d6t_data_zero "d6t01a" (some fun _ => 0) (some fun _ => 0)).2
    (some fun _ => 0) (some fun _ => 0) (Prod.ext init_d6t01a_ret rfl)
  ⟨init_d6t01a_ret, hsz.1, hsz.2.1⟩

end D6tFull

/-! ## Bounded retry: theorems -/

theorem count_writes_append (xs ys : List Event) :
    count_writes (xs ++ ys) = count_writes xs + count_writes ys := by
  induction xs with
  | nil => simp [count_writes]
  | cons e rest ih =>
    cases e <;> simp [count_writes, ih]
    omega

theorem count_transfers_append (xs ys : List Event) :
    count_transfers (xs ++ ys) = count_transfers xs + count_transfers ys := by
  induction xs with
  | nil => simp [count_transfers]
  | cons e rest ih =>
    cases e <;> simp [count_transfers, ih]
    omega

theorem recv_chunks_append (xs ys : List Event) :
    recv_chunks (xs ++ ys) = recv_chunks xs ++ recv_chunks ys := by
  induction xs with
  | nil => simp [recv_chunks]
  | cons e rest ih => cases e <;> simp [recv_chunks, ih]

namespace D6t32l

theorem chunk_loop_spec (a : Attempt) (fuel : Nat) : ∀ (j offset : Nat) (buf : List Nat)
    (tr : List Event), offset ≤ 2051 → 2051 + 256 ≤ offset + 256 * fuel →
    ∃ e buf1 tr1, chunk_loop a fuel j offset buf tr = some (e, buf1, tr1)
      ∧ count_writes tr1 = count_writes tr
      ∧ (e = false ↔ ∀ i, offset + 256 * i < 2051 → 0 ≤ (a.recv (j + i)).ret) := by
  induction fuel with
  | zero => intro j offset buf tr hle h; omega
  | succ fuel ih =>
    intro j offset buf tr hle h
    by_cases hoff : offset < 2051
    · by_cases hret : (a.recv j).ret < 0
      · refine ⟨true, _, _, by simp only [chunk_loop, hoff, hret, if_true]; rfl, ?_, ?_⟩
        · simp [count_writes_append, count_writes]
        · constructor
          · intro hc; cases hc
          · intro hall
            have := hall 0 (by omega)
            simp at this
            omega
      · obtain ⟨e, buf1, tr1, heq, hcnt, hiff⟩ :=
          ih (j + 1) (offset + min 256 (2051 - offset))
            (store_at buf offset (((a.recv j).rx.take (min 256 (2051 - offset))).map
              fun b => b % 256))
            (tr ++ [Event.i2c_master_recv offset (min 256 (2051 - offset))])
            (by omega) (by omega)
        refine ⟨e, buf1, tr1, by simp only [chunk_loop, hoff, hret, if_true, if_false, heq],
          ?_, ?_⟩
        · rw [hcnt]; simp [count_writes_append, count_writes]
        · rw [hiff]
          constructor
          · intro hall i hi
            cases i with
            | zero => simpa using Int.not_lt.mp hret
            | succ i =>
              have := hall i (by omega)
              rwa [show j + 1 + i = j + (i + 1) by omega] at this
          · intro hall i hi
            have := hall (i + 1) (by omega)
            rwa [show j + (i + 1) = j + 1 + i by omega] at this
    · refine ⟨false, buf, tr, by simp only [chunk_loop, hoff, if_false], rfl, ?_⟩
      simp only [true_iff]
      intro i hi
      omega

end D6t32l

namespace D6t32l

theorem attempt_ok_iff (a : Attempt) :
    attempt_ok a ↔ 0 ≤ a.write_ret ∧ ∀ i, 0 + 256 * i < 2051 → 0 ≤ (a.recv (0 + i)).ret := by
  unfold attempt_ok
  constructor
  · rintro ⟨hw, hr⟩
    refine ⟨hw, fun i hi => ?_⟩
    rw [Nat.zero_add]
    exact hr i (by omega)
  · rintro ⟨hw, hr⟩
    refine ⟨hw, fun j hj => ?_⟩
    have := hr j (by omega)
    rwa [Nat.zero_add] at this

theorem retry_pass_fail (bus : Nat → Attempt) (k retry : Nat) (buf raw : List Nat)
    (tr : List Event) (hfail : ¬ attempt_ok (bus retry)) :
    ∃ buf1 tr1, retry_loop bus (k + 1) retry buf raw tr = retry_loop bus k (retry + 1) buf1 raw tr1
      ∧ count_writes tr1 = count_writes tr + 1 := by
  by_cases hw : (bus retry).write_ret < 0
  · refine ⟨buf, tr ++ [Event.msleep 200, Event.i2c_smbus_write_byte 0x4D], ?_, ?_⟩
    · simp only [retry_loop, hw, if_true]
    · simp [count_writes_append, count_writes]
  · obtain ⟨e, buf1, tr1, heq, hcnt, hiff⟩ :=
      chunk_loop_spec (bus retry) 2051 0 0 buf
        (tr ++ [Event.msleep 200, Event.i2c_smbus_write_byte 0x4D]) (by omega) (by omega)
    have he : e = true := by
      cases e with
      | true => rfl
      | false =>
        exact absurd ((attempt_ok_iff _).mpr ⟨Int.not_lt.mp hw, hiff.mp rfl⟩) hfail
    subst he
    refine ⟨buf1, tr1 ++ [Event.msleep 20], ?_, ?_⟩
    · simp only [retry_loop, hw, if_false, heq]
      rfl
    · rw [count_writes_append, hcnt]
      simp [count_writes_append, count_writes]

theorem retry_pass_ok (bus : Nat → Attempt) (k retry : Nat) (buf raw : List Nat)
    (tr : List Event) (hok : attempt_ok (bus retry)) :
    ∃ raw1 tr1, retry_loop bus (k + 1) retry buf raw tr = some (0, raw1, tr1)
      ∧ count_writes tr1 = count_writes tr + 1 := by
  have hw : ¬ (bus retry).write_ret < 0 := Int.not_lt.mpr hok.1
  obtain ⟨e, buf1, tr1, heq, hcnt, hiff⟩ :=
    chunk_loop_spec (bus retry) 2051 0 0 buf
      (tr ++ [Event.msleep 200, Event.i2c_smbus_write_byte 0x4D]) (by omega) (by omega)
  have he : e = false := hiff.mpr ((attempt_ok_iff _).mp hok).2
  subst he
  refine ⟨unpack_loop buf1 2050 0 raw, tr1, ?_, ?_⟩
  · simp only [retry_loop, hw, if_false, heq]
    rfl
  · rw [hcnt]
    simp [count_writes_append, count_writes]

theorem retry_fail_prefix (bus : Nat → Attempt) (m : Nat) : ∀ (k retry : Nat)
    (buf raw : List Nat) (tr : List Event),
    (∀ i, i < m → ¬ attempt_ok (bus (retry + i))) →
    ∃ buf1 tr1, retry_loop bus (k + m) retry buf raw tr = retry_loop bus k (retry + m) buf1 raw tr1
      ∧ count_writes tr1 = count_writes tr + m := by
  induction m with
  | zero => intro k retry buf raw tr _; exact ⟨buf, tr, rfl, rfl⟩
  | succ m ih =>
    intro k retry buf raw tr hfail
    obtain ⟨buf1, tr1, h1, c1⟩ :=
      retry_pass_fail bus (k + m) retry buf raw tr (by simpa using hfail 0 (by omega))
    obtain ⟨buf2, tr2, h2, c2⟩ := ih k (retry + 1) buf1 raw tr1 (fun i hi => by
      have := hfail (i + 1) (by omega)
      rwa [show retry + (i + 1) = retry + 1 + i by omega] at this)
    refine ⟨buf2, tr2, ?_, by omega⟩
    rw [show k + (m + 1) = k + m + 1 by omega, h1, h2,
      show retry + 1 + m = retry + (m + 1) by omega]

theorem retry_loop_bounded (bus : Nat → Attempt) (k : Nat) : ∀ (retry : Nat)
    (buf raw : List Nat) (tr : List Event),
    ∃ ret raw1 tr1, retry_loop bus k retry buf raw tr = some (ret, raw1, tr1)
      ∧ count_writes tr1 ≤ count_writes tr + k := by
  induction k with
  | zero => intro retry buf raw tr; exact ⟨-EIO_code, raw, tr, rfl, by omega⟩
  | succ k ih =>
    intro retry buf raw tr
    by_cases hok : attempt_ok (bus retry)
    · obtain ⟨raw1, tr1, h1, c1⟩ := retry_pass_ok bus k retry buf raw tr hok
      exact ⟨0, raw1, tr1, h1, by omega⟩
    · obtain ⟨buf1, tr1, h1, c1⟩ := retry_pass_fail bus k retry buf raw tr hok
      obtain ⟨ret, raw2, tr2, h2, c2⟩ := ih (retry + 1) buf1 raw tr1
      exact ⟨ret, raw2, tr2, by rw [h1, h2], by omega⟩

end D6t32l

namespace D6tCore

theorem transfer_pass_fail (bus : Nat → Xfer) (addr command len k i : Nat) (buffer : List Nat)
    (tr : List Event) (hret : (bus i).ret ≠ 2) (hi : i ≠ 9) :
    ∃ buffer1 tr1, transfer_loop bus addr command len (k + 1) i buffer tr
        = transfer_loop bus addr command len k (i + 1) buffer1 tr1
      ∧ count_transfers tr1 = count_transfers tr + 1 := by
  refine ⟨store_at buffer 0 (((bus i).rx.take len).map fun b => b % 256),
    tr ++ [Event.i2c_transfer addr command len] ++ [Event.msleep 100], ?_, ?_⟩
  · simp only [transfer_loop, hret, hi, ne_eq, not_false_eq_true, if_true, if_false]
  · simp [count_transfers_append, count_transfers]

theorem transfer_pass_last (bus : Nat → Xfer) (addr command len k : Nat) (buffer : List Nat)
    (tr : List Event) (hret : (bus 9).ret ≠ 2) :
    ∃ buffer1 tr1, transfer_loop bus addr command len (k + 1) 9 buffer tr
        = (loop_exit.returned 3, buffer1, tr1)
      ∧ count_transfers tr1 = count_transfers tr + 1 := by
  refine ⟨store_at buffer 0 (((bus 9).rx.take len).map fun b => b % 256),
    tr ++ [Event.i2c_transfer addr command len], ?_, ?_⟩
  · simp only [transfer_loop, hret, ne_eq, not_false_eq_true, if_true]
  · simp [count_transfers_append, count_transfers]

theorem transfer_pass_ok (bus : Nat → Xfer) (addr command len k i : Nat) (buffer : List Nat)
    (tr : List Event) (hret : (bus i).ret = 2) :
    ∃ buffer1 tr1, transfer_loop bus addr command len (k + 1) i buffer tr
        = (loop_exit.left, buffer1, tr1)
      ∧ count_transfers tr1 = count_transfers tr + 1 := by
  refine ⟨store_at buffer 0 (((bus i).rx.take len).map fun b => b % 256),
    tr ++ [Event.i2c_transfer addr command len], ?_, ?_⟩
  · simp only [transfer_loop, hret, ne_eq, not_true_eq_false, if_false]
  · simp [count_transfers_append, count_transfers]

theorem transfer_fail_prefix (bus : Nat → Xfer) (addr command len m : Nat) : ∀ (k i : Nat)
    (buffer : List Nat) (tr : List Event),
    (∀ x, x < m → (bus (i + x)).ret ≠ 2) → i + m ≤ 9 →
    ∃ buffer1 tr1, transfer_loop bus addr command len (k + m) i buffer tr
        = transfer_loop bus addr command len k (i + m) buffer1 tr1
      ∧ count_transfers tr1 = count_transfers tr + m := by
  induction m with
  | zero => intro k i buffer tr _ _; exact ⟨buffer, tr, rfl, rfl⟩
  | succ m ih =>
    intro k i buffer tr hfail hle
    obtain ⟨b1, tr1, h1, c1⟩ := transfer_pass_fail bus addr command len (k + m) i buffer tr
      (by simpa using hfail 0 (by omega)) (by omega)
    obtain ⟨b2, tr2, h2, c2⟩ := ih k (i + 1) b1 tr1 (fun x hx => by
      have := hfail (x + 1) (by omega)
      rwa [show i + (x + 1) = i + 1 + x by omega] at this) (by omega)
    refine ⟨b2, tr2, ?_, by omega⟩
    rw [show k + (m + 1) = k + m + 1 by omega, h1, h2, show i + 1 + m = i + (m + 1) by omega]

theorem transfer_loop_first_success (bus : Nat → Xfer) (addr command len k : Nat)
    (buffer : List Nat) (h1 : 1 ≤ k) (h10 : k ≤ 10)
    (hfail : ∀ i, i < k - 1 → (bus i).ret ≠ 2) (hok : (bus (k - 1)).ret = 2) :
    ∃ buffer1 tr1, transfer_loop bus addr command len 10 0 buffer []
        = (loop_exit.left, buffer1, tr1) ∧ count_transfers tr1 = k := by
  obtain ⟨b1, tr1, e1, c1⟩ := transfer_fail_prefix bus addr command len (k - 1) (10 - (k - 1)) 0
    buffer [] (fun x hx => by simpa using hfail x hx) (by omega)
  obtain ⟨b2, tr2, e2, c2⟩ := transfer_pass_ok bus addr command len (10 - k) (k - 1) b1 tr1 hok
  refine ⟨b2, tr2, ?_, ?_⟩
  · rw [show 10 - (k - 1) + (k - 1) = 10 by omega, Nat.zero_add,
      show 10 - (k - 1) = 10 - k + 1 by omega] at e1
    rw [e1, e2]
  · rw [c2, c1]
    simp [count_transfers]
    omega

theorem transfer_loop_exhausted (bus : Nat → Xfer) (addr command len : Nat)
    (buffer : List Nat) (hfail : ∀ i, i < 10 → (bus i).ret ≠ 2) :
    ∃ buffer1 tr1, transfer_loop bus addr command len 10 0 buffer []
        = (loop_exit.returned 3, buffer1, tr1) ∧ count_transfers tr1 = 10 := by
  obtain ⟨b1, tr1, e1, c1⟩ := transfer_fail_prefix bus addr command len 9 1 0
    buffer [] (fun x hx => by simpa using hfail x (by omega)) (by omega)
  obtain ⟨b2, tr2, e2, c2⟩ := transfer_pass_last bus addr command len 0 b1 tr1
    (hfail 9 (by omega))
  refine ⟨b2, tr2, ?_, ?_⟩
  · rw [show (1 : Nat) + 9 = 10 by rfl, Nat.zero_add] at e1
    rw [e1, e2]
  · rw [c2, c1]
    simp [count_transfers]

end D6tCore

namespace D6tCore

theorem transfer_loop_bounded (bus : Nat → Xfer) (addr command len k : Nat) : ∀ (i : Nat)
    (buffer : List Nat) (tr : List Event),
    count_transfers (transfer_loop bus addr command len k i buffer tr).2.2
      ≤ count_transfers tr + k := by
  induction k with
  | zero => intro i buffer tr; simp [transfer_loop]
  | succ k ih =>
    intro i buffer tr
    by_cases hret : (bus i).ret = 2
    · obtain ⟨b1, tr1, e1, c1⟩ := transfer_pass_ok bus addr command len k i buffer tr hret
      rw [e1]
      simp only
      omega
    · by_cases hi : i = 9
      · subst hi
        obtain ⟨b1, tr1, e1, c1⟩ := transfer_pass_last bus addr command len k buffer tr hret
        rw [e1]
        simp only
        omega
      · obtain ⟨b1, tr1, e1, c1⟩ := transfer_pass_fail bus addr command len k i buffer tr hret hi
        rw [e1]
        have := ih (i + 1) b1 tr1
        omega

theorem d6t_read_data_bounded (D6T_checkPEC : i2c_client → d6t_t → Int) (c : i2c_client)
    (t : d6t_t) (bus : Nat → Xfer) (r : Nat × Option d6t_t × List Event)
    (hr : d6t_read_data D6T_checkPEC (some c) (some t) bus = some r) :
    count_transfers r.2.2 ≤ 10 := by
  cases hb : t.buffer with
  | null => simp [d6t_read_data, hb, KPtr.deref] at hr
  | freed => simp [d6t_read_data, hb, KPtr.deref] at hr
  | live cells =>
    by_cases hl : cells.length < t.n_read
    · simp [d6t_read_data, hb, KPtr.deref, hl] at hr
    · have hbound := transfer_loop_bounded bus c.addr t.command t.n_read 10 0
        (store_at cells 0 (List.replicate t.n_read 0)) []
      simp only [d6t_read_data, hb, KPtr.deref, hl, if_false] at hr
      rcases hloop : transfer_loop bus c.addr t.command t.n_read 10 0
        (store_at cells 0 (List.replicate t.n_read 0)) [] with ⟨ex, b1, tr1⟩
      rw [hloop] at hr hbound
      simp only [count_transfers, Nat.zero_add] at hbound
      cases ex with
      | returned code =>
        simp only [Option.some.injEq] at hr
        subst hr
        exact hbound
      | left =>
        simp only at hr
        by_cases hpec : D6T_checkPEC c { t with buffer := KPtr.live b1 } ≠ 1
        · simp only [hpec, ne_eq, not_false_eq_true, if_true, Option.some.injEq] at hr
          subst hr
          exact hbound
        · simp only [hpec, if_false] at hr
          cases hraw : t.raw_data with
          | null => simp [hraw, KPtr.deref] at hr
          | freed => simp [hraw, KPtr.deref] at hr
          | live samples =>
            simp only [hraw, KPtr.deref, Option.some.injEq] at hr
            subst hr
            exact hbound

theorem d6t_read_data_after_success (D6T_checkPEC : i2c_client → d6t_t → Int) (c : i2c_client)
    (t : d6t_t) (cells : List Nat) (hbuf : t.buffer = KPtr.live cells)
    (hlen : t.n_read ≤ cells.length) (bus : Nat → Xfer) (k : Nat) (h1 : 1 ≤ k) (h10 : k ≤ 10)
    (hfail : ∀ i, i < k - 1 → (bus i).ret ≠ 2) (hok : (bus (k - 1)).ret = 2)
    (r : Nat × Option d6t_t × List Event)
    (hr : d6t_read_data D6T_checkPEC (some c) (some t) bus = some r) :
    r.1 ≠ 3 ∧ count_transfers r.2.2 = k := by
  obtain ⟨b1, tr1, e1, c1⟩ := transfer_loop_first_success bus c.addr t.command t.n_read k
    (store_at cells 0 (List.replicate t.n_read 0)) h1 h10 hfail hok
  have hl : ¬ cells.length < t.n_read := by omega
  simp only [d6t_read_data, hbuf, KPtr.deref, hl, if_false, e1] at hr
  by_cases hpec : D6T_checkPEC c { t with buffer := KPtr.live b1 } ≠ 1
  · simp only [hpec, ne_eq, not_false_eq_true, if_true, Option.some.injEq] at hr
    subst hr
    exact ⟨by simp, c1⟩
  · simp only [hpec, if_false] at hr
    cases hraw : t.raw_data with
    | null => simp [hraw, KPtr.deref] at hr
    | freed => simp [hraw, KPtr.deref] at hr
    | live samples =>
      simp only [hraw, KPtr.deref, Option.some.injEq] at hr
      subst hr
      exact ⟨by simp, c1⟩

theorem d6t_read_data_exhausted (D6T_checkPEC : i2c_client → d6t_t → Int) (c : i2c_client)
    (t : d6t_t) (cells : List Nat) (hbuf : t.buffer = KPtr.live cells)
    (hlen : t.n_read ≤ cells.length) (bus : Nat → Xfer)
    (hfail : ∀ i, i < 10 → (bus i).ret ≠ 2) :
    ∃ t1 tr, d6t_read_data D6T_checkPEC (some c) (some t) bus = some (3, t1, tr)
      ∧ count_transfers tr = 10 := by
  obtain ⟨b1, tr1, e1, c1⟩ := transfer_loop_exhausted bus c.addr t.command t.n_read
    (store_at cells 0 (List.replicate t.n_read 0)) hfail
  have hl : ¬ cells.length < t.n_read := by omega
  refine ⟨some { t with buffer := KPtr.live b1 }, tr1, ?_, c1⟩
  simp only [d6t_read_data, hbuf, KPtr.deref, hl, if_false, e1]

end D6tCore

/-- C8: bounded whole-frame retry over a transport scripted per attempt.
`d6t_read_helper` (`d6t32l.c`): if the first `k - 1` attempts fail and attempt `k <= 10`
succeeds end-to-end, it returns 0 after exactly `k` command writes (so exactly 4 when the first
3 fail); if all ten attempts fail it returns `-EIO` after exactly 10; it never makes an 11th.
`d6t_read_data` (`d6t_core.c`): its `i2c_transfer` loop leaves at the first transfer that
returns 2, after exactly `k` transfers, and the function then does not report code 3; if all
ten transfers fail it returns 3 after exactly 10 transfers; it never makes an 11th. -/
theorem bounded_whole_frame_retry (fill : Nat → Nat) (raw : List Nat)
    (bus : Nat → D6t32l.Attempt) (D6T_checkPEC : i2c_client → D6tCore.d6t_t → Int)
    (c : i2c_client) (t : D6tCore.d6t_t) (cells : List Nat)
    (hbuf : t.buffer = KPtr.live cells) (hlen : t.n_read ≤ cells.length) (xbus : Nat → Xfer) :
    (∀ k, 1 ≤ k → k ≤ 10 → (∀ i, i < k - 1 → ¬ D6t32l.attempt_ok (bus i)) →
        D6t32l.attempt_ok (bus (k - 1)) →
        ∃ raw1 tr, D6t32l.d6t_read_helper (some fill) raw bus = some (0, raw1, tr)
          ∧ count_writes tr = k)
    ∧ ((∀ i, i < 10 → ¬ D6t32l.attempt_ok (bus i)) →
        ∃ tr, D6t32l.d6t_read_helper (some fill) raw bus = some (-EIO_code, raw, tr)
          ∧ count_writes tr = 10)
    ∧ (∃ ret raw1 tr, D6t32l.d6t_read_helper (some fill) raw bus = some (ret, raw1, tr)
          ∧ count_writes tr ≤ 10)
    ∧ (∀ k, 1 ≤ k → k ≤ 10 → (∀ i, i < k - 1 → (xbus i).ret ≠ 2) → (xbus (k - 1)).ret = 2 →
        (∃ buffer tr, D6tCore.transfer_loop xbus c.addr t.command t.n_read 10 0
            (store_at cells 0 (List.replicate t.n_read 0)) []
              = (D6tCore.loop_exit.left, buffer, tr) ∧ count_transfers tr = k)
        ∧ ∀ r, D6tCore.d6t_read_data D6T_checkPEC (some c) (some t) xbus = some r →
            r.1 ≠ 3 ∧ count_transfers r.2.2 = k)
    ∧ ((∀ i, i < 10 → (xbus i).ret ≠ 2) →
        ∃ t1 tr, D6tCore.d6t_read_data D6T_checkPEC (some c) (some t) xbus = some (3, t1, tr)
          ∧ count_transfers tr = 10)
    ∧ (∀ r, D6tCore.d6t_read_data D6T_checkPEC (some c) (some t) xbus = some r →
        count_transfers r.2.2 ≤ 10) := by
  refine ⟨?_, ?_, ?_, ?_, ?_, D6tCore.d6t_read_data_bounded D6T_checkPEC c t xbus⟩
  · intro k h1 h10 hfail hok
    obtain ⟨b1, tr1, e1, c1⟩ := D6t32l.retry_fail_prefix bus (k - 1) (10 - (k - 1)) 0
      ((List.range 2051).map fill) raw [] (fun i hi => by simpa using hfail i hi)
    obtain ⟨raw2, tr2, e2, c2⟩ := D6t32l.retry_pass_ok bus (10 - k) (k - 1) b1 raw tr1 hok
    refine ⟨raw2, tr2, ?_, ?_⟩
    · rw [show 10 - (k - 1) + (k - 1) = 10 by omega, Nat.zero_add,
        show 10 - (k - 1) = 10 - k + 1 by omega] at e1
      simp only [D6t32l.d6t_read_helper, kmalloc, KPtr.deref, e1, e2]
    · rw [c2, c1]
      simp [count_writes]
      omega
  · intro hfail
    obtain ⟨b1, tr1, e1, c1⟩ := D6t32l.retry_fail_prefix bus 10 0 0
      ((List.range 2051).map fill) raw [] (fun i hi => by simpa using hfail i hi)
    refine ⟨tr1, ?_, ?_⟩
    · rw [show (0 : Nat) + 10 = 10 by rfl] at e1
      simp only [D6t32l.d6t_read_helper, kmalloc, KPtr.deref, e1]
      rfl
    · rw [c1]
      simp [count_writes]
  · obtain ⟨ret, raw1, tr1, e1, c1⟩ := D6t32l.retry_loop_bounded bus 10 0
      ((List.range 2051).map fill) raw []
    refine ⟨ret, raw1, tr1, by simp only [D6t32l.d6t_read_helper, kmalloc, KPtr.deref, e1], ?_⟩
    simpa [count_writes] using c1
  · intro k h1 h10 hfail hok
    exact ⟨D6tCore.transfer_loop_first_success xbus c.addr t.command t.n_read k _ h1 h10 hfail hok,
      fun r hr => D6tCore.d6t_read_data_after_success D6T_checkPEC c t cells hbuf hlen xbus k
        h1 h10 hfail hok r hr⟩
  · intro hfail
    exact D6tCore.d6t_read_data_exhausted D6T_checkPEC c t cells hbuf hlen xbus hfail

theorem D6t32l.bus_fail3_first_three (i : Nat) (hi : i < 4 - 1) :
    ¬ D6t32l.attempt_ok (D6t32l.bus_fail3_then_ok i) := by
  intro h
  have hw := h.1
  have h3 : i < 3 := hi
  simp [D6t32l.bus_fail3_then_ok, h3] at hw

theorem D6t32l.bus_fail3_fourth : D6t32l.attempt_ok (D6t32l.bus_fail3_then_ok (4 - 1)) := by
  refine ⟨?_, fun j _ => ?_⟩ <;> simp [D6t32l.bus_fail3_then_ok]

theorem xbus_fail3_first_three (i : Nat) (hi : i < 4 - 1) : (xbus_fail3_then_ok i).ret ≠ 2 := by
  have h3 : i < 3 := hi
  simp [xbus_fail3_then_ok, h3]

theorem xbus_fail3_fourth : (xbus_fail3_then_ok (4 - 1)).ret = 2 := by
  simp [xbus_fail3_then_ok]

/-- Witness for C8: three failing attempts, then success: exactly 4 attempts in both drivers. -/
theorem bounded_whole_frame_retry_witness :
    (∃ raw1 tr, D6t32l.d6t_read_helper (some fun _ => 0) (List.replicate 1025 0)
        D6t32l.bus_fail3_then_ok = some (0, raw1, tr) ∧ count_writes tr = 4)
    ∧ (∃ buffer tr, D6tCore.transfer_loop xbus_fail3_then_ok
        (i2c_client.mk 0x0A).addr D6tCore.d6t01a_ready.command D6tCore.d6t01a_ready.n_read 10 0
        (store_at [0, 0, 0, 0, 0] 0 (List.replicate D6tCore.d6t01a_ready.n_read 0)) []
          = (D6tCore.loop_exit.left, buffer, tr) ∧ count_transfers tr = 4) :=
  have hall := bounded_whole_frame_retry (fun _ => 0) (List.replicate 1025 0)
    D6t32l.bus_fail3_then_ok (fun _ _ => 1) (i2c_client.mk 0x0A) D6tCore.d6t01a_ready
    [0, 0, 0, 0, 0] rfl (by decide) xbus_fail3_then_ok
  ⟨hall.1 4 (by decide) (by decide) D6t32l.bus_fail3_first_three D6t32l.bus_fail3_fourth,
    (hall.2.2.2.1 4 (by decide) (by decide) xbus_fail3_first_three xbus_fail3_fourth).1⟩

/-! ## Chunked bulk read: theorems -/

namespace D6t32l

theorem full_read_events_drop (j : Nat) (hj : j < 9) :
    full_read_events.drop j
      = Event.i2c_master_recv (256 * j) (min 256 (2051 - 256 * j)) :: full_read_events.drop (j + 1) := by
  interval_cases j <;> rfl

theorem chunk_loop_all_ok (a : Attempt) (n : Nat) : ∀ (fuel j : Nat) (buf : List Nat)
    (tr : List Event), j + n = 9 → n + 1 ≤ fuel →
    (∀ i, j ≤ i → i < 9 → 0 ≤ (a.recv i).ret) →
    ∃ buf1, chunk_loop a fuel j (min (256 * j) 2051) buf tr
      = some (false, buf1, tr ++ full_read_events.drop j) := by
  induction n with
  | zero =>
    intro fuel j buf tr hj hfuel _
    obtain ⟨f, rfl⟩ : ∃ f, fuel = f + 1 := ⟨fuel - 1, by omega⟩
    have hj9 : j = 9 := by omega
    subst hj9
    exact ⟨buf, by simp [chunk_loop, full_read_events, full_read_chunks]⟩
  | succ n ih =>
    intro fuel j buf tr hj hfuel hok
    obtain ⟨f, rfl⟩ : ∃ f, fuel = f + 1 := ⟨fuel - 1, by omega⟩
    have hoff : min (256 * j) 2051 = 256 * j := by omega
    have hlt : 256 * j < 2051 := by omega
    have hret : ¬ (a.recv j).ret < 0 := Int.not_lt.mpr (hok j (le_refl _) (by omega))
    have hnext : 256 * j + min 256 (2051 - 256 * j) = min (256 * (j + 1)) 2051 := by omega
    obtain ⟨buf1, h1⟩ := ih f (j + 1)
      (store_at buf (256 * j) (((a.recv j).rx.take (min 256 (2051 - 256 * j))).map
        fun b => b % 256))
      (tr ++ [Event.i2c_master_recv (256 * j) (min 256 (2051 - 256 * j))])
      (by omega) (by omega) (fun i hi h9 => hok i (by omega) h9)
    refine ⟨buf1, ?_⟩
    rw [hoff]
    simp only [chunk_loop, hlt, hret, if_true, if_false, hnext, h1]
    rw [full_read_events_drop j (by omega), List.append_assoc, List.singleton_append]

theorem chunk_loop_fail_at (a : Attempt) (m : Nat) : ∀ (fuel j : Nat) (buf : List Nat)
    (tr : List Event), j + m < 9 → m + 1 ≤ fuel →
    (∀ i, j ≤ i → i < j + m → 0 ≤ (a.recv i).ret) → (a.recv (j + m)).ret < 0 →
    ∃ buf1, chunk_loop a fuel j (256 * j) buf tr
      = some (true, buf1, tr ++ (full_read_events.drop j).take (m + 1)) := by
  induction m with
  | zero =>
    intro fuel j buf tr hj hfuel _ hbad
    obtain ⟨f, rfl⟩ : ∃ f, fuel = f + 1 := ⟨fuel - 1, by omega⟩
    have hlt : 256 * j < 2051 := by omega
    refine ⟨store_at buf (256 * j) (((a.recv j).rx.take (min 256 (2051 - 256 * j))).map
      fun b => b % 256), ?_⟩
    simp only [chunk_loop, hlt, if_true, show (a.recv j).ret < 0 from hbad]
    rw [full_read_events_drop j (by omega)]
    rfl
  | succ m ih =>
    intro fuel j buf tr hj hfuel hok hbad
    obtain ⟨f, rfl⟩ : ∃ f, fuel = f + 1 := ⟨fuel - 1, by omega⟩
    have hlt : 256 * j < 2051 := by omega
    have hret : ¬ (a.recv j).ret < 0 := Int.not_lt.mpr (hok j (le_refl _) (by omega))
    have hnext : 256 * j + min 256 (2051 - 256 * j) = 256 * (j + 1) := by omega
    obtain ⟨buf1, h1⟩ := ih f (j + 1)
      (store_at buf (256 * j) (((a.recv j).rx.take (min 256 (2051 - 256 * j))).map
        fun b => b % 256))
      (tr ++ [Event.i2c_master_recv (256 * j) (min 256 (2051 - 256 * j))])
      (by omega) (by omega) (fun i hi h9 => hok i (by omega) (by omega))
      (by rwa [show j + 1 + m = j + (m + 1) by omega])
    refine ⟨buf1, ?_⟩
    simp only [chunk_loop, hlt, hret, if_true, if_false, hnext, h1]
    rw [full_read_events_drop j (by omega), List.take_succ_cons, List.append_assoc,
      List.singleton_append]

end D6t32l

namespace D6t32l

theorem retry_pass_ok_trace (bus : Nat → Attempt) (k retry : Nat) (buf raw : List Nat)
    (tr : List Event) (hok : attempt_ok (bus retry)) :
    ∃ raw1, retry_loop bus (k + 1) retry buf raw tr
      = some (0, raw1,
          tr ++ [Event.msleep 200, Event.i2c_smbus_write_byte 0x4D] ++ full_read_events) := by
  have hw : ¬ (bus retry).write_ret < 0 := Int.not_lt.mpr hok.1
  obtain ⟨buf1, h1⟩ := chunk_loop_all_ok (bus retry) 9 2051 0 buf
    (tr ++ [Event.msleep 200, Event.i2c_smbus_write_byte 0x4D]) (by omega) (by omega)
    (fun i _ h9 => hok.2 i h9)
  rw [show min (256 * 0) 2051 = 0 by decide, List.drop_zero] at h1
  refine ⟨unpack_loop buf1 2050 0 raw, ?_⟩
  simp only [retry_loop, hw, if_false, h1]
  rfl

theorem retry_pass_fail_trace (bus : Nat → Attempt) (k retry : Nat) (buf raw : List Nat)
    (tr : List Event) (j0 : Nat) (hj0 : j0 < 9) (hw : 0 ≤ (bus retry).write_ret)
    (hok : ∀ i, i < j0 → 0 ≤ ((bus retry).recv i).ret) (hbad : ((bus retry).recv j0).ret < 0) :
    ∃ buf1, retry_loop bus (k + 1) retry buf raw tr
      = retry_loop bus k (retry + 1) buf1 raw
          (tr ++ [Event.msleep 200, Event.i2c_smbus_write_byte 0x4D]
            ++ full_read_events.take (j0 + 1) ++ [Event.msleep 20]) := by
  have hw2 : ¬ (bus retry).write_ret < 0 := Int.not_lt.mpr hw
  obtain ⟨buf1, h1⟩ := chunk_loop_fail_at (bus retry) j0 2051 0 buf
    (tr ++ [Event.msleep 200, Event.i2c_smbus_write_byte 0x4D]) (by omega) (by omega)
    (fun i _ hi => hok i (by omega)) (by rwa [Nat.zero_add])
  rw [show 256 * 0 = 0 by decide, List.drop_zero] at h1
  refine ⟨buf1, ?_⟩
  simp only [retry_loop, hw2, if_false, h1]
  rfl

theorem chunk_loop_terminates (a : Attempt) (buf : List Nat) (tr : List Event) :
    ∃ r, chunk_loop a 2051 0 0 buf tr = some r := by
  obtain ⟨e, buf1, tr1, h, _, _⟩ := chunk_loop_spec a 2051 0 0 buf tr (by omega) (by omega)
  exact ⟨_, h⟩

end D6t32l

namespace D6t32l

theorem first_failed_read_none (a : Attempt) (n : Nat) : ∀ j,
    first_failed_read a n j = none ↔ ∀ i, j ≤ i → i < j + n → 0 ≤ (a.recv i).ret := by
  induction n with
  | zero =>
    intro j
    simp only [first_failed_read, true_iff]
    intro i h1 h2
    omega
  | succ n ih =>
    intro j
    rw [first_failed_read]
    by_cases hj : (a.recv j).ret < 0
    · rw [if_pos hj]
      constructor
      · intro h
        exact absurd h (by simp)
      · intro h
        have := h j (le_refl j) (by omega)
        omega
    · rw [if_neg hj, ih (j + 1)]
      constructor
      · intro h i h1 h2
        by_cases hij : i = j
        · subst hij
          omega
        · exact h i (by omega) (by omega)
      · intro h i h1 h2
        exact h i (by omega) (by omega)

theorem first_failed_read_some (a : Attempt) (n : Nat) : ∀ j j0,
    first_failed_read a n j = some j0 →
      j ≤ j0 ∧ j0 < j + n ∧ (a.recv j0).ret < 0 ∧ ∀ i, j ≤ i → i < j0 → 0 ≤ (a.recv i).ret := by
  induction n with
  | zero =>
    intro j j0 h
    simp [first_failed_read] at h
  | succ n ih =>
    intro j j0 h
    rw [first_failed_read] at h
    by_cases hj : (a.recv j).ret < 0
    · rw [if_pos hj] at h
      simp only [Option.some.injEq] at h
      subst h
      exact ⟨le_refl _, by omega, hj, fun i h1 h2 => by omega⟩
    · rw [if_neg hj] at h
      obtain ⟨h1, h2, h3, h4⟩ := ih (j + 1) j0 h
      refine ⟨by omega, by omega, h3, ?_⟩
      intro i hi1 hi2
      by_cases hij : i = j
      · subst hij
        omega
      · exact h4 i (by omega) hi2

theorem attempt_events_ok (a : Attempt) (h : attempt_ok a) :
    attempt_events a
      = [Event.msleep 200, Event.i2c_smbus_write_byte 0x4D] ++ full_read_events := by
  have hw : ¬ a.write_ret < 0 := by
    have := h.1
    omega
  have hn : first_failed_read a 9 0 = none :=
    (first_failed_read_none a 9 0).mpr fun i _ hi => h.2 i (by omega)
  simp only [attempt_events, hw, if_false, hn]

theorem attempt_events_write_failed (a : Attempt) (h : a.write_ret < 0) :
    attempt_events a = [Event.msleep 200, Event.i2c_smbus_write_byte 0x4D] := by
  simp only [attempt_events, h, if_true, List.append_nil]

theorem attempt_events_read_failed (a : Attempt) (j0 : Nat) (hj0 : j0 < 9)
    (hw : 0 ≤ a.write_ret) (hok : ∀ i, i < j0 → 0 ≤ (a.recv i).ret)
    (hbad : (a.recv j0).ret < 0) :
    attempt_events a
      = [Event.msleep 200, Event.i2c_smbus_write_byte 0x4D]
          ++ full_read_events.take (j0 + 1) ++ [Event.msleep 20] := by
  have hw2 : ¬ a.write_ret < 0 := by omega
  have hs : first_failed_read a 9 0 = some j0 := by
    cases hf : first_failed_read a 9 0 with
    | none =>
      have := (first_failed_read_none a 9 0).mp hf j0 (Nat.zero_le _) (by omega)
      omega
    | some j1 =>
      obtain ⟨_, _, h3, h4⟩ := first_failed_read_some a 9 0 j1 hf
      have : j1 = j0 := by
        rcases Nat.lt_trichotomy j1 j0 with hlt | heq | hgt
        · have := hok j1 hlt
          omega
        · exact heq
        · have := h4 j0 (Nat.zero_le _) hgt
          omega
      rw [this]
  simp only [attempt_events, hw2, if_false, hs, List.append_assoc]

theorem attempt_abandoned_cases (a : Attempt) (h : ¬ attempt_ok a) :
    a.write_ret < 0
    ∨ ∃ j0, j0 < 9 ∧ 0 ≤ a.write_ret ∧ (∀ i, i < j0 → 0 ≤ (a.recv i).ret)
        ∧ (a.recv j0).ret < 0 := by
  by_cases hw : a.write_ret < 0
  · exact Or.inl hw
  · right
    cases hf : first_failed_read a 9 0 with
    | none =>
      exfalso
      apply h
      exact ⟨by omega, fun j hj =>
        (first_failed_read_none a 9 0).mp hf j (Nat.zero_le _) (by omega)⟩
    | some j0 =>
      obtain ⟨_, h2, h3, h4⟩ := first_failed_read_some a 9 0 j0 hf
      exact ⟨j0, by omega, by omega, fun i hi => h4 i (Nat.zero_le _) hi, h3⟩

theorem retry_pass_abandoned (bus : Nat → Attempt) (k retry : Nat) (buf raw : List Nat)
    (tr : List Event) (hfail : ¬ attempt_ok (bus retry)) :
    ∃ buf1, retry_loop bus (k + 1) retry buf raw tr
      = retry_loop bus k (retry + 1) buf1 raw (tr ++ attempt_events (bus retry)) := by
  rcases attempt_abandoned_cases (bus retry) hfail with hw | ⟨j0, hj0, hw, hok, hbad⟩
  · refine ⟨buf, ?_⟩
    rw [attempt_events_write_failed _ hw]
    simp only [retry_loop, hw, if_true]
  · obtain ⟨buf1, h⟩ := retry_pass_fail_trace bus k retry buf raw tr j0 hj0 hw hok hbad
    refine ⟨buf1, ?_⟩
    rw [h, attempt_events_read_failed _ j0 hj0 hw hok hbad]
    simp only [List.append_assoc]

theorem retry_abandoned_prefix (bus : Nat → Attempt) (m : Nat) : ∀ (k retry : Nat)
    (buf raw : List Nat) (tr : List Event),
    (∀ i, i < m → ¬ attempt_ok (bus (retry + i))) →
    ∃ buf1, retry_loop bus (k + m) retry buf raw tr
      = retry_loop bus k (retry + m) buf1 raw (tr ++ attempts_events bus m retry) := by
  induction m with
  | zero =>
    intro k retry buf raw tr _
    exact ⟨buf, by simp [attempts_events]⟩
  | succ m ih =>
    intro k retry buf raw tr h
    obtain ⟨buf1, h1⟩ := retry_pass_abandoned bus (k + m) retry buf raw tr
      (by simpa using h 0 (by omega))
    obtain ⟨buf2, h2⟩ := ih k (retry + 1) buf1 raw (tr ++ attempt_events (bus retry))
      (fun i hi => by
        have := h (i + 1) (by omega)
        rwa [show retry + (i + 1) = retry + 1 + i by omega] at this)
    refine ⟨buf2, ?_⟩
    rw [show k + (m + 1) = k + m + 1 by omega, h1, h2,
      show retry + 1 + m = retry + (m + 1) by omega, attempts_events, List.append_assoc]

end D6t32l

namespace D6t32l

/-- C9: chunked bulk read in `d6t_read_helper`, for every behaviour of the bus and for every
attempt of the ten.  An attempt in which the command write and every bus read succeed issues
exactly eight reads of 256 bytes followed by one of 3: every length is between 1 and 256,
offsets are contiguous from 0, lengths sum to 2051.  An attempt whose command write fails
issues no read; an attempt in which a read fails issues the reads up to and including that
one and is abandoned; every abandoned attempt is one of these two.  Whatever number `m < 10`
of attempts is abandoned before the first successful one, the helper returns 0 and its kernel
calls are those of the `m` abandoned attempts, one after the other, followed by the command
write and the nine reads from offset 0 of attempt `m`; when all ten attempts are abandoned it
returns `-EIO` after exactly their calls.  The chunk loop terminates for every behaviour of
the bus. -/
theorem chunked_bulk_read (fill : Nat → Nat) (raw : List Nat) (bus : Nat → Attempt) :
    (∀ m, m < 10 → (∀ i, i < m → ¬ attempt_ok (bus i)) → attempt_ok (bus m) →
      ∃ raw1, d6t_read_helper (some fill) raw bus
        = some (0, raw1,
            attempts_events bus m 0
              ++ [Event.msleep 200, Event.i2c_smbus_write_byte 0x4D] ++ full_read_events))
    ∧ ((∀ i, i < 10 → ¬ attempt_ok (bus i)) →
        d6t_read_helper (some fill) raw bus
          = some (-EIO_code, raw, attempts_events bus 10 0))
    ∧ (∀ m retry, attempts_events bus (m + 1) retry
        = attempt_events (bus retry) ++ attempts_events bus m (retry + 1))
    ∧ (∀ a, attempt_ok a →
        attempt_events a
          = [Event.msleep 200, Event.i2c_smbus_write_byte 0x4D] ++ full_read_events)
    ∧ (∀ a : Attempt, a.write_ret < 0 →
        attempt_events a = [Event.msleep 200, Event.i2c_smbus_write_byte 0x4D])
    ∧ (∀ (a : Attempt) (j0 : Nat), j0 < 9 → 0 ≤ a.write_ret →
        (∀ i, i < j0 → 0 ≤ (a.recv i).ret) → (a.recv j0).ret < 0 →
        attempt_events a
          = [Event.msleep 200, Event.i2c_smbus_write_byte 0x4D]
              ++ full_read_events.take (j0 + 1) ++ [Event.msleep 20])
    ∧ (∀ a, ¬ attempt_ok a →
        a.write_ret < 0
        ∨ ∃ j0, j0 < 9 ∧ 0 ≤ a.write_ret ∧ (∀ i, i < j0 → 0 ≤ (a.recv i).ret)
            ∧ (a.recv j0).ret < 0)
    ∧ recv_chunks full_read_events = full_read_chunks
    ∧ (∀ c ∈ full_read_chunks, 1 ≤ c.2 ∧ c.2 ≤ 256)
    ∧ chunks_contiguous 0 full_read_chunks
    ∧ (full_read_chunks.map Prod.snd).sum = 2051
    ∧ (∀ (a : Attempt) (buf : List Nat) (tr : List Event),
        ∃ r, chunk_loop a 2051 0 0 buf tr = some r) := by
  refine ⟨?_, ?_, fun _ _ => rfl, attempt_events_ok, attempt_events_write_failed,
    attempt_events_read_failed, attempt_abandoned_cases, by decide, by decide, ?_, by decide,
    chunk_loop_terminates⟩
  · intro m hm hfail hok
    obtain ⟨buf1, h1⟩ := retry_abandoned_prefix bus m (10 - m) 0
      ((List.range 2051).map fill) raw [] (fun i hi => by simpa using hfail i hi)
    obtain ⟨raw1, h2⟩ := retry_pass_ok_trace bus (10 - m - 1) (0 + m) buf1 raw
      ([] ++ attempts_events bus m 0) (by simpa using hok)
    refine ⟨raw1, ?_⟩
    rw [show 10 - m + m = 10 by omega, show 10 - m = 10 - m - 1 + 1 by omega, h2] at h1
    simp only [d6t_read_helper, kmalloc, KPtr.deref, h1, List.nil_append]
  · intro hfail
    obtain ⟨buf1, h1⟩ := retry_abandoned_prefix bus 10 0 0
      ((List.range 2051).map fill) raw [] (fun i hi => by simpa using hfail i hi)
    rw [show (0 : Nat) + 10 = 10 by rfl] at h1
    simp only [d6t_read_helper, kmalloc, KPtr.deref]
    rw [h1]
    simp only [retry_loop, List.nil_append]
  · simp [chunks_contiguous, full_read_chunks]

theorem bus_three_failures_then_ok_script :
    (∀ i, i < 3 → ¬ attempt_ok (bus_three_failures_then_ok i))
    ∧ attempt_ok (bus_three_failures_then_ok 3) := by
  constructor
  · intro i hi h
    have h0 := h.1
    have h1 := h.2 1 (by decide)
    have h8 := h.2 8 (by decide)
    interval_cases i
    · simp [bus_three_failures_then_ok] at h1
    · simp [bus_three_failures_then_ok] at h0
    · simp [bus_three_failures_then_ok] at h8
  · refine ⟨?_, fun j _ => ?_⟩ <;> simp [bus_three_failures_then_ok]

set_option maxRecDepth 1000000 in
theorem bus_three_failures_then_ok_events :
    attempts_events bus_three_failures_then_ok 3 0
      = [Event.msleep 200, Event.i2c_smbus_write_byte 0x4D,
         Event.i2c_master_recv 0 256, Event.i2c_master_recv 256 256, Event.msleep 20,
         Event.msleep 200, Event.i2c_smbus_write_byte 0x4D,
         Event.msleep 200, Event.i2c_smbus_write_byte 0x4D,
         Event.i2c_master_recv 0 256, Event.i2c_master_recv 256 256,
         Event.i2c_master_recv 512 256, Event.i2c_master_recv 768 256,
         Event.i2c_master_recv 1024 256, Event.i2c_master_recv 1280 256,
         Event.i2c_master_recv 1536 256, Event.i2c_master_recv 1792 256,
         Event.i2c_master_recv 2048 3, Event.msleep 20] := by
  decide

/-- Witness for C9: the first attempt is abandoned at its second bulk read, the second at the
command write, the third at its last bulk read; the fourth attempt re-issues the command and
reads the nine chunks from offset 0. -/
theorem chunked_bulk_read_witness :
    (∃ raw1, d6t_read_helper (some fun _ => 0) (List.replicate 1025 0)
        bus_three_failures_then_ok
      = some (0, raw1,
          attempts_events bus_three_failures_then_ok 3 0
            ++ [Event.msleep 200, Event.i2c_smbus_write_byte 0x4D] ++ full_read_events))
    ∧ attempts_events bus_three_failures_then_ok 3 0
      = [Event.msleep 200, Event.i2c_smbus_write_byte 0x4D,
         Event.i2c_master_recv 0 256, Event.i2c_master_recv 256 256, Event.msleep 20,
         Event.msleep 200, Event.i2c_smbus_write_byte 0x4D,
         Event.msleep 200, Event.i2c_smbus_write_byte 0x4D,
         Event.i2c_master_recv 0 256, Event.i2c_master_recv 256 256,
         Event.i2c_master_recv 512 256, Event.i2c_master_recv 768 256,
         Event.i2c_master_recv 1024 256, Event.i2c_master_recv 1280 256,
         Event.i2c_master_recv 1536 256, Event.i2c_master_recv 1792 256,
         Event.i2c_master_recv 2048 3, Event.msleep 20] :=
  ⟨(chunked_bulk_read (fun _ => 0) (List.replicate 1025 0) bus_three_failures_then_ok).1
      3 (by decide) bus_three_failures_then_ok_script.1 bus_three_failures_then_ok_script.2,
    bus_three_failures_then_ok_events⟩

end D6t32l

/-! ## Read path of `d6t_full.c` / `d6tioctl.c`: transport errors -/

namespace D6tFull

set_option maxRecDepth 1000000 in
theorem read_second_transfer_would_succeed :
    d6t_read (some d6t01a_session) (some (i2c_client.mk 0x0A)) 0
        (fun n => xbus_fail1_then_good (n + 1)) 0
      = some ⟨4, some { d6t01a_session with
                  buf := KPtr.live [0x10, 0x01, 0x20, 0x01, 0x7A],
                  raw := KPtr.live [0x0110, 0x0120] }, 4,
          [0x10, 0x01, 0x20, 0x01],
          [Event.mutex_lock, Event.i2c_transfer 0x0A 0x4C 5,
           Event.copy_to_user [0x10, 0x01, 0x20, 0x01], Event.mutex_unlock]⟩ := by
  decide

set_option maxRecDepth 1000000 in
theorem read_first_transfer_fails :
    d6t_read (some d6t01a_session) (some (i2c_client.mk 0x0A)) 0 xbus_fail1_then_good 0
      = some ⟨-EIO_code, some d6t01a_session, 0, [],
          [Event.mutex_lock, Event.i2c_transfer 0x0A 0x4C 5, Event.mutex_unlock]⟩ := by
  decide

set_option maxRecDepth 1000000 in
theorem ioctl_read_first_transfer_fails :
    d6t_ioctl_READ_RAW (some d6t01a_session) (some (i2c_client.mk 0x0A)) xbus_fail1_then_good 0
      = some ⟨-EIO_code, some d6t01a_session, 0, [],
          [Event.mutex_lock, Event.i2c_transfer 0x0A 0x4C 5, Event.mutex_unlock]⟩ := by
  decide

end D6tFull

namespace D6tFull

theorem d6t_get_frame_fail (d : d6t_data) (info : d6t_info) (cells : List Nat)
    (c : i2c_client) (x : Xfer) (hinfo : d.d6t_info = some info)
    (hbuf : d.buf = KPtr.live cells) (hlen : d.n_read ≤ cells.length) (hfail : x.ret ≠ 2) :
    ∃ r d1, d6t_get_frame (some c) d x
        = some (r, d1, [Event.i2c_transfer c.addr info.command d.n_read]) ∧ r < 0 := by
  have hl : ¬ cells.length < d.n_read := by omega
  by_cases hneg : x.ret < 0
  · refine ⟨x.ret, { d with buf := KPtr.live (store_at (store_at cells 0
      (List.replicate d.n_read 0)) 0 ((x.rx.take d.n_read).map fun b => b % 256)) }, ?_, hneg⟩
    simp only [d6t_get_frame, hinfo, hbuf, KPtr.isNull, KPtr.deref, hl, hneg, if_true, if_false,
      Bool.false_eq_true]
  · refine ⟨-EIO_code, { d with buf := KPtr.live (store_at (store_at cells 0
      (List.replicate d.n_read 0)) 0 ((x.rx.take d.n_read).map fun b => b % 256)) }, ?_,
      by decide⟩
    simp only [d6t_get_frame, hinfo, hbuf, KPtr.isNull, KPtr.deref, hl, hneg, hfail, ne_eq,
      not_false_eq_true, if_true, if_false, Bool.false_eq_true]

/-- C10 as stated fails: on a ready "d6t01a" session, with a transport whose first transaction
fails and whose second would deliver a frame with a correct trailer (a read that starts at the
second transaction does succeed with that frame), `d6t_read` and the `D6T_IOC_READ_RAW` case
return `-EIO` after a single `i2c_transfer`, with nothing copied out. -/
theorem read_path_does_not_retry :
    (xbus_fail1_then_good 0).ret < 0
    ∧ d6t_read (some d6t01a_session) (some (i2c_client.mk 0x0A)) 0
          (fun n => xbus_fail1_then_good (n + 1)) 0
        = some ⟨4, some { d6t01a_session with
                    buf := KPtr.live [0x10, 0x01, 0x20, 0x01, 0x7A],
                    raw := KPtr.live [0x0110, 0x0120] }, 4,
            [0x10, 0x01, 0x20, 0x01],
            [Event.mutex_lock, Event.i2c_transfer 0x0A 0x4C 5,
             Event.copy_to_user [0x10, 0x01, 0x20, 0x01], Event.mutex_unlock]⟩
    ∧ d6t_read (some d6t01a_session) (some (i2c_client.mk 0x0A)) 0 xbus_fail1_then_good 0
        = some ⟨-EIO_code, some d6t01a_session, 0, [],
            [Event.mutex_lock, Event.i2c_transfer 0x0A 0x4C 5, Event.mutex_unlock]⟩
    ∧ d6t_ioctl_READ_RAW (some d6t01a_session) (some (i2c_client.mk 0x0A))
          xbus_fail1_then_good 0
        = some ⟨-EIO_code, some d6t01a_session, 0, [],
            [Event.mutex_lock, Event.i2c_transfer 0x0A 0x4C 5, Event.mutex_unlock]⟩ :=
  ⟨by decide, read_second_transfer_would_succeed, read_first_transfer_fails,
    ioctl_read_first_transfer_fails⟩

/-- C10 amended: in the read path of `d6t_full.c` and `d6tioctl.c` a transport error is not
retried.  On an initialised session, if the single `i2c_transfer` of `d6t_get_frame` does not
report both messages done, `d6t_read` and the `D6T_IOC_READ_RAW` case return `-EIO` at once:
exactly one bus transaction between lock and unlock, nothing copied to the caller, file position
unchanged. -/
theorem transport_error_surfaced_without_retry (d : d6t_data) (info : d6t_info)
    (cells : List Nat) (c : i2c_client) (ppos : Int) (bus : Nat → Xfer) (uncopied : Nat)
    (hinfo : d.d6t_info = some info) (hbuf : d.buf = KPtr.live cells)
    (hlen : d.n_read ≤ cells.length) (hraw : d.raw.isNull = false) (hpos : ppos ≤ 0)
    (hfail : (bus 0).ret ≠ 2) :
    ∃ d1,
      d6t_read (some d) (some c) ppos bus uncopied
        = some ⟨-EIO_code, some d1, ppos, [],
            [Event.mutex_lock, Event.i2c_transfer c.addr info.command d.n_read,
             Event.mutex_unlock]⟩
      ∧ d6t_ioctl_READ_RAW (some d) (some c) bus uncopied
        = some ⟨-EIO_code, some d1, 0, [],
            [Event.mutex_lock, Event.i2c_transfer c.addr info.command d.n_read,
             Event.mutex_unlock]⟩
      ∧ count_transfers
          [Event.mutex_lock, Event.i2c_transfer c.addr info.command d.n_read,
           Event.mutex_unlock] = 1 := by
  obtain ⟨r, d1, hgf, hneg⟩ := d6t_get_frame_fail d info cells c (bus 0) hinfo hbuf hlen hfail
  have hp : ¬ ppos > 0 := by omega
  have hbn : d.buf.isNull = false := by rw [hbuf]; rfl
  refine ⟨d1, ?_, ?_, rfl⟩
  · simp only [d6t_read, hinfo, hbn, hraw, Option.isNone, Bool.or_self,
      Bool.false_eq_true, if_false, hp, hgf, hneg, if_true]
    rfl
  · simp only [d6t_ioctl_READ_RAW, hinfo, hbn, hraw, Option.isNone, Bool.or_self,
      Bool.false_eq_true, if_false, hgf, hneg, if_true]
    rfl

/-- Witness for amended C10: the ready "d6t01a" session on the transport whose first transfer
fails. -/
theorem transport_error_surfaced_without_retry_witness :
    ∃ d1,
      d6t_read (some d6t01a_session) (some (i2c_client.mk 0x0A)) 0 xbus_fail1_then_good 0
        = some ⟨-EIO_code, some d1, 0, [],
            [Event.mutex_lock,
             Event.i2c_transfer (i2c_client.mk 0x0A).addr tbl_D6T_01A.command
               d6t01a_session.n_read,
             Event.mutex_unlock]⟩
      ∧ d6t_ioctl_READ_RAW (some d6t01a_session) (some (i2c_client.mk 0x0A))
          xbus_fail1_then_good 0
        = some ⟨-EIO_code, some d1, 0, [],
            [Event.mutex_lock,
             Event.i2c_transfer (i2c_client.mk 0x0A).addr tbl_D6T_01A.command
               d6t01a_session.n_read,
             Event.mutex_unlock]⟩
      ∧ count_transfers
          [Event.mutex_lock,
           Event.i2c_transfer (i2c_client.mk 0x0A).addr tbl_D6T_01A.command
             d6t01a_session.n_read,
           Event.mutex_unlock] = 1 :=
  transport_error_surfaced_without_retry d6t01a_session tbl_D6T_01A [0, 0, 0, 0, 0]
    (i2c_client.mk 0x0A) 0 xbus_fail1_then_good 0 rfl rfl (by decide) rfl (by decide)
    (by decide)

end D6tFull

/-! ## Session state machine: theorems -/

namespace D6tFull

theorem read_rejects_absent (d : d6t_data) (client : Option i2c_client) (ppos : Int)
    (bus : Nat → Xfer) (uncopied : Nat)
    (h : d.d6t_info = none ∨ d.buf = KPtr.null ∨ d.raw = KPtr.null) :
    d6t_read (some d) client ppos bus uncopied = some ⟨-EINVAL, some d, ppos, [], []⟩
    ∧ d6t_ioctl_READ_RAW (some d) client bus uncopied = some ⟨-EINVAL, some d, 0, [], []⟩ := by
  have hg : (d.d6t_info.isNone || d.buf.isNull || d.raw.isNull) = true := by
    rcases h with h | h | h <;> simp [h, KPtr.isNull]
  constructor
  · simp only [d6t_read, hg, if_true]
  · simp only [d6t_ioctl_READ_RAW, hg, if_true]

theorem ioctl_d6t_clear_of_live (d : d6t_data) (info : d6t_info) (b r : List Nat)
    (hi : d.d6t_info = some info) (hb : d.buf = KPtr.live b) (hr : d.raw = KPtr.live r) :
    ioctl_d6t_clear d = some (0, d6t_data_zero, [KPtr.live b, KPtr.live r]) := by
  simp [ioctl_d6t_clear, hi, hb, hr, d6t_data_zero]

/-- C11: a successful init("d6t01a") followed by clear followed by a read request makes the
read fail with `-EINVAL` with an empty trace (the lock is not acquired, no bus transaction is
issued), in `d6t_read` and in the `D6T_IOC_READ_RAW` case alike; more generally the read is
rejected this way whenever the session's model, byte buffer or sample buffer is absent (or the
session itself is). -/
theorem read_after_clear_is_rejected (d0 d1 : d6t_data) (alloc_buf alloc_raw : Option (Nat → Nat))
    (hinit : ioctl_d6t_init d0 "d6t01a" alloc_buf alloc_raw = (0, d1)) :
    (∃ d2 released, ioctl_d6t_clear d1 = some (0, d2, released)
      ∧ ∀ (client : Option i2c_client) (ppos : Int) (bus : Nat → Xfer) (uncopied : Nat),
          d6t_read (some d2) client ppos bus uncopied = some ⟨-EINVAL, some d2, ppos, [], []⟩
          ∧ d6t_ioctl_READ_RAW (some d2) client bus uncopied
              = some ⟨-EINVAL, some d2, 0, [], []⟩)
    ∧ (∀ (d : d6t_data) (client : Option i2c_client) (ppos : Int) (bus : Nat → Xfer)
        (uncopied : Nat), (d.d6t_info = none ∨ d.buf = KPtr.null ∨ d.raw = KPtr.null) →
          d6t_read (some d) client ppos bus uncopied = some ⟨-EINVAL, some d, ppos, [], []⟩
          ∧ d6t_ioctl_READ_RAW (some d) client bus uncopied
              = some ⟨-EINVAL, some d, 0, [], []⟩)
    ∧ (∀ (client : Option i2c_client) (ppos : Int) (bus : Nat → Xfer) (uncopied : Nat),
          d6t_read none client ppos bus uncopied = some ⟨-EINVAL, none, ppos, [], []⟩
          ∧ d6t_ioctl_READ_RAW none client bus uncopied = some ⟨-EINVAL, none, 0, [], []⟩) := by
  obtain ⟨hi, _, _, b, r, hb, _, hr, _⟩ :=
    ioctl_d6t_init_ok_inv d0 d1 tbl_D6T_01A (Or.inl rfl) alloc_buf alloc_raw hinit
  refine ⟨⟨d6t_data_zero, [KPtr.live b, KPtr.live r],
    ioctl_d6t_clear_of_live d1 tbl_D6T_01A b r hi hb hr, ?_⟩, ?_, ?_⟩
  · intro client ppos bus uncopied
    exact read_rejects_absent d6t_data_zero client ppos bus uncopied (Or.inl rfl)
  · intro d client ppos bus uncopied h
    exact read_rejects_absent d client ppos bus uncopied h
  · intro client ppos bus uncopied
    exact ⟨rfl, rfl⟩

/-- Witness for C11: init("d6t01a") on the zeroed session with both allocations succeeding. -/
theorem read_after_clear_is_rejected_witness :
    ∃ d2 released,
      ioctl_d6t_clear
          (ioctl_d6t_init d6t_data_zero "d6t01a" (some fun _ => 0) (some fun _ => 0)).2
        = some (0, d2, released)
      ∧ ∀ (client : Option i2c_client) (ppos : Int) (bus : Nat → Xfer) (uncopied : Nat),
          d6t_read (some d2) client ppos bus uncopied = some ⟨-EINVAL, some d2, ppos, [], []⟩
          ∧ d6t_ioctl_READ_RAW (some d2) client bus uncopied
              = some ⟨-EINVAL, some d2, 0, [], []⟩ :=
  (read_after_clear_is_rejected d6t_data_zero
    (ioctl_d6t_init d6t_data_zero "d6t01a" (some fun _ => 0) (some fun _ => 0)).2
    (some fun _ => 0) (some fun _ => 0) (Prod.ext init_d6t01a_ret rfl)).1

end D6tFull

namespace D6tFull

theorem ioctl_d6t_init_success (d : d6t_data) (info : d6t_info)
    (hname : info = tbl_D6T_01A ∨ info = tbl_D6T_32L_01A) (f1 f2 : Nat → Nat) :
    ioctl_d6t_init d info.model_name (some f1) (some f2)
      = (0, { d6t_info := some info,
              buf := KPtr.live ((List.range (2 * (1 + info.row * info.col) + 1)).map f1),
              raw := KPtr.live ((List.range (1 + info.row * info.col)).map f2),
              n_read := 2 * (1 + info.row * info.col) + 1,
              n_raw_data := 1 + info.row * info.col }) := by
  rcases hname with rfl | rfl <;>
    simp [ioctl_d6t_init, tbl_D6T_01A, tbl_D6T_32L_01A, kmalloc, KPtr.isNull, N_READ, N_PIXELS]

/-- C12 as stated fails: init("d6t01a") followed by init("d6t32l01a") without a clear in
between is not rejected; the second init returns 0 and the session changes from 5 to 2051
frame bytes. -/
theorem init_on_ready_session_is_not_rejected :
    (ioctl_d6t_init d6t_data_zero "d6t01a" (some fun _ => 0) (some fun _ => 0)).1 = 0
    ∧ (ioctl_d6t_init d6t_data_zero "d6t01a" (some fun _ => 0) (some fun _ => 0)).2.n_read = 5
    ∧ (ioctl_d6t_init
        (ioctl_d6t_init d6t_data_zero "d6t01a" (some fun _ => 0) (some fun _ => 0)).2
        "d6t32l01a" (some fun _ => 0) (some fun _ => 0)).1 = 0
    ∧ (ioctl_d6t_init
        (ioctl_d6t_init d6t_data_zero "d6t01a" (some fun _ => 0) (some fun _ => 0)).2
        "d6t32l01a" (some fun _ => 0) (some fun _ => 0)).2.n_read = 2051 := by
  have h1 := ioctl_d6t_init_success d6t_data_zero tbl_D6T_01A (Or.inl rfl)
    (fun _ => 0) (fun _ => 0)
  have h2 := ioctl_d6t_init_success
    (ioctl_d6t_init d6t_data_zero "d6t01a" (some fun _ => 0) (some fun _ => 0)).2
    tbl_D6T_32L_01A (Or.inr rfl) (fun _ => 0) (fun _ => 0)
  have e1 : tbl_D6T_01A.model_name = "d6t01a" := rfl
  have e2 : tbl_D6T_32L_01A.model_name = "d6t32l01a" := rfl
  rw [e1] at h1
  rw [e2] at h2
  rw [h2, h1]
  exact ⟨rfl, rfl, rfl, rfl⟩

/-- C12 amended: `ioctl_d6t_init` (and `d6t_init` of `d6tioctl.c`) has no already-initialised
check.  On every session, a Ready one included, init with a model of the table and both
allocations succeeding behaves exactly as on a zeroed session: it returns 0 and leaves a Ready
session for the newly named model, whatever model was set before. -/
theorem init_on_ready_session_reinitialises (d : d6t_data)
    (info : d6t_info) (hmem : info ∈ d6t_info_tbl) (f1 f2 : Nat → Nat) :
    ioctl_d6t_init d info.model_name (some f1) (some f2)
      = ioctl_d6t_init d6t_data_zero info.model_name (some f1) (some f2)
    ∧ (ioctl_d6t_init d info.model_name (some f1) (some f2)).1 = 0
    ∧ (ioctl_d6t_init d info.model_name (some f1) (some f2)).2.d6t_info = some info
    ∧ Ready (ioctl_d6t_init d info.model_name (some f1) (some f2)).2 := by
  have hname : info = tbl_D6T_01A ∨ info = tbl_D6T_32L_01A := by
    simpa [d6t_info_tbl] using hmem
  rw [ioctl_d6t_init_success d info hname f1 f2,
    ioctl_d6t_init_success d6t_data_zero info hname f1 f2]
  refine ⟨rfl, rfl, rfl, ?_⟩
  exact ⟨info, _, _, hmem, rfl, rfl, by simp, rfl, by simp, rfl, rfl⟩

theorem d6t01a_session_ready : Ready d6t01a_session :=
  ⟨tbl_D6T_01A, [0, 0, 0, 0, 0], [0, 0], by simp [d6t_info_tbl], rfl, rfl, rfl, rfl, rfl,
    rfl, rfl⟩

/-- Witness for amended C12: init("d6t32l01a") on the ready "d6t01a" session. -/
theorem init_on_ready_session_reinitialises_witness :
    Ready d6t01a_session
    ∧ ioctl_d6t_init d6t01a_session tbl_D6T_32L_01A.model_name (some fun _ => 0) (some fun _ => 0)
      = ioctl_d6t_init d6t_data_zero tbl_D6T_32L_01A.model_name
          (some fun _ => 0) (some fun _ => 0)
    ∧ (ioctl_d6t_init d6t01a_session tbl_D6T_32L_01A.model_name
        (some fun _ => 0) (some fun _ => 0)).1 = 0
    ∧ (ioctl_d6t_init d6t01a_session tbl_D6T_32L_01A.model_name
        (some fun _ => 0) (some fun _ => 0)).2.d6t_info = some tbl_D6T_32L_01A
    ∧ Ready (ioctl_d6t_init d6t01a_session tbl_D6T_32L_01A.model_name
        (some fun _ => 0) (some fun _ => 0)).2 :=
  ⟨d6t01a_session_ready,
    init_on_ready_session_reinitialises d6t01a_session tbl_D6T_32L_01A
      (by simp [d6t_info_tbl]) (fun _ => 0) (fun _ => 0)⟩

end D6tFull

namespace D6tFull

/-- C13 as stated fails: on an already-clear session (the zeroed session, which is also what a
clear leaves behind) `ioctl_d6t_clear` returns `-EINVAL`, not the success code, and
`d6t_clear` of `d6t_core.c` returns 1 on a `NULL` session. -/
theorem clear_on_clear_session_reports_error :
    ioctl_d6t_clear d6t01a_session
      = some (0, d6t_data_zero, [KPtr.live [0, 0, 0, 0, 0], KPtr.live [0, 0]])
    ∧ ioctl_d6t_clear d6t_data_zero = some (-EINVAL, d6t_data_zero, [])
    ∧ (-EINVAL : Int) ≠ 0
    ∧ D6tCore.d6t_clear (some none) = some ⟨1, some none, [], [], false⟩ := by
  refine ⟨by decide, by decide, by decide, rfl⟩

/-- C13 amended: on a Ready session clear hands both buffers to `kfree`, returns 0 and resets
the session to Uninitialized (model absent, both buffer pointers `NULL`,
`n_read = n_raw_data = 0`).  On an already-clear session it leaves the state unchanged and
releases nothing, but reports an error: `-EINVAL` from `ioctl_d6t_clear` (and `d6t_clear` of
`d6tioctl.c`), 1 from `d6t_clear` of `d6t_core.c`, which on a live session frees both buffers
and the structure, resets the caller's pointer and returns 0. -/
theorem clear_resets_ready_and_errors_when_clear (d : d6t_data) (hready : Ready d) :
    (∃ b r, d.buf = KPtr.live b ∧ d.raw = KPtr.live r
      ∧ ioctl_d6t_clear d = some (0, d6t_data_zero, [KPtr.live b, KPtr.live r]))
    ∧ (Uninitialized d6t_data_zero ∧ d6t_data_zero.n_read = 0 ∧ d6t_data_zero.n_raw_data = 0)
    ∧ (∀ d0 : d6t_data, d0.d6t_info = none → ioctl_d6t_clear d0 = some (-EINVAL, d0, []))
    ∧ (∀ (t : D6tCore.d6t_t) (bl : List Nat) (rl : List Int),
        t.buffer = KPtr.live bl → t.raw_data = KPtr.live rl →
        D6tCore.d6t_clear (some (some t))
          = some ⟨0, some none, [KPtr.live bl], [KPtr.live rl], true⟩)
    ∧ D6tCore.d6t_clear (some none) = some ⟨1, some none, [], [], false⟩
    ∧ D6tCore.d6t_clear none = some ⟨1, none, [], [], false⟩ := by
  obtain ⟨info, b, r, _, hi, hb, _, hr, _, _, _⟩ := hready
  refine ⟨⟨b, r, hb, hr, ioctl_d6t_clear_of_live d info b r hi hb hr⟩,
    ⟨⟨rfl, rfl, rfl⟩, rfl, rfl⟩, ?_, ?_, rfl, rfl⟩
  · intro d0 h0
    simp [ioctl_d6t_clear, h0]
  · intro t bl rl hbl hrl
    simp [D6tCore.d6t_clear, hbl, hrl, KPtr.isNull]

/-- Witness for amended C13: clear on the ready "d6t01a" session. -/
theorem clear_resets_ready_and_errors_when_clear_witness :
    Ready d6t01a_session
    ∧ ∃ b r, d6t01a_session.buf = KPtr.live b ∧ d6t01a_session.raw = KPtr.live r
      ∧ ioctl_d6t_clear d6t01a_session = some (0, d6t_data_zero, [KPtr.live b, KPtr.live r]) :=
  ⟨d6t01a_session_ready,
    (clear_resets_ready_and_errors_when_clear d6t01a_session d6t01a_session_ready).1⟩

end D6tFull

/-! ## Model registry: theorems -/

namespace D6tFull

theorem ioctl_d6t_init_unknown (d : d6t_data) (name : String)
    (alloc_buf alloc_raw : Option (Nat → Nat)) (h1 : name ≠ "d6t01a") (h2 : name ≠ "d6t32l01a") :
    ioctl_d6t_init d name alloc_buf alloc_raw = (-EINVAL, d) := by
  simp [ioctl_d6t_init, h1, h2]

theorem ioctl_d6t_init_known (d : d6t_data) (info : d6t_info)
    (hname : info = tbl_D6T_01A ∨ info = tbl_D6T_32L_01A)
    (alloc_buf alloc_raw : Option (Nat → Nat)) :
    (ioctl_d6t_init d info.model_name alloc_buf alloc_raw).2.d6t_info = some info
    ∧ ((ioctl_d6t_init d info.model_name alloc_buf alloc_raw).1 = 0
        ∨ (ioctl_d6t_init d info.model_name alloc_buf alloc_raw).1 = -ENOMEM) := by
  rcases hname with rfl | rfl <;> cases alloc_buf <;> cases alloc_raw <;>
    simp [ioctl_d6t_init, tbl_D6T_01A, tbl_D6T_32L_01A, kmalloc, KPtr.isNull]

end D6tFull

theorem D6tCore.d6t_init_unknown (name : String) (alloc_d6t : Bool)
    (alloc_buffer : Option (Nat → Nat)) (alloc_raw : Option (Nat → Int))
    (h1 : name ≠ "d6t01a") (h2 : name ≠ "d6t32l01a") :
    D6tCore.d6t_init name alloc_d6t alloc_buffer alloc_raw = none := by
  cases alloc_d6t <;> simp [D6tCore.d6t_init, h1, h2]

theorem D6tCore.d6t_init_known (name : String)
    (alloc_buffer : Option (Nat → Nat)) (alloc_raw : Option (Nat → Int))
    (h : name = "d6t01a" ∨ name = "d6t32l01a") :
    ∃ t, D6tCore.d6t_init name true alloc_buffer alloc_raw = some t
      ∧ (name = "d6t01a" → t.command = 0x4C ∧ t.row = 1 ∧ t.col = 1)
      ∧ (name = "d6t32l01a" → t.command = 0x4D ∧ t.row = 32 ∧ t.col = 32) := by
  rcases h with rfl | rfl
  · simp [D6tCore.d6t_init, D6tCore.D6T_01A_COMMAND]
  · simp [D6tCore.d6t_init, D6tCore.D6T_32L_01A_COMMAND]

namespace D6tFull

/-- C14: the model lookup inside init succeeds exactly for the names "d6t01a" and "d6t32l01a"
(string equality: case-sensitive, whole string), selecting command 0x4C with 1x1 geometry,
resp. 0x4D with 32x32 geometry.  For every other name `ioctl_d6t_init` returns `-EINVAL` and
leaves the whole session unchanged, and `d6t_init` of `d6t_core.c` returns `NULL`. -/
theorem model_lookup_exact_names (d : d6t_data) (name : String)
    (alloc_buf alloc_raw : Option (Nat → Nat))
    (alloc_buffer : Option (Nat → Nat)) (alloc_raw_data : Option (Nat → Int)) :
    ((ioctl_d6t_init d name alloc_buf alloc_raw).1 ≠ -EINVAL
        ↔ name = "d6t01a" ∨ name = "d6t32l01a")
    ∧ (name = "d6t01a" → ∃ info,
        (ioctl_d6t_init d name alloc_buf alloc_raw).2.d6t_info = some info
        ∧ info.command = 0x4C ∧ info.row = 1 ∧ info.col = 1)
    ∧ (name = "d6t32l01a" → ∃ info,
        (ioctl_d6t_init d name alloc_buf alloc_raw).2.d6t_info = some info
        ∧ info.command = 0x4D ∧ info.row = 32 ∧ info.col = 32)
    ∧ (name ≠ "d6t01a" → name ≠ "d6t32l01a" →
        ioctl_d6t_init d name alloc_buf alloc_raw = (-EINVAL, d))
    ∧ ((∃ t, D6tCore.d6t_init name true alloc_buffer alloc_raw_data = some t)
        ↔ name = "d6t01a" ∨ name = "d6t32l01a")
    ∧ (∀ t, D6tCore.d6t_init name true alloc_buffer alloc_raw_data = some t →
        (name = "d6t01a" → t.command = 0x4C ∧ t.row = 1 ∧ t.col = 1)
        ∧ (name = "d6t32l01a" → t.command = 0x4D ∧ t.row = 32 ∧ t.col = 32))
    ∧ (name ≠ "d6t01a" → name ≠ "d6t32l01a" → ∀ alloc_d6t : Bool,
        D6tCore.d6t_init name alloc_d6t alloc_buffer alloc_raw_data = none)
    ∧ ioctl_d6t_init d "D6T01A" alloc_buf alloc_raw = (-EINVAL, d)
    ∧ ioctl_d6t_init d "d6t01a " alloc_buf alloc_raw = (-EINVAL, d)
    ∧ ioctl_d6t_init d "d6t32l" alloc_buf alloc_raw = (-EINVAL, d) := by
  have hk1 := ioctl_d6t_init_known d tbl_D6T_01A (Or.inl rfl) alloc_buf alloc_raw
  have hk2 := ioctl_d6t_init_known d tbl_D6T_32L_01A (Or.inr rfl) alloc_buf alloc_raw
  have e1 : tbl_D6T_01A.model_name = "d6t01a" := rfl
  have e2 : tbl_D6T_32L_01A.model_name = "d6t32l01a" := rfl
  rw [e1] at hk1
  rw [e2] at hk2
  have hne0 : (0 : Int) ≠ -EINVAL := by decide
  have hne1 : -ENOMEM ≠ -EINVAL := by decide
  refine ⟨⟨?_, ?_⟩, ?_, ?_, ioctl_d6t_init_unknown d name alloc_buf alloc_raw, ⟨?_, ?_⟩, ?_,
    ?_, ?_, ?_, ?_⟩
  · intro hne
    by_contra hcon
    push_neg at hcon
    exact hne (by rw [ioctl_d6t_init_unknown d name alloc_buf alloc_raw hcon.1 hcon.2])
  · rintro (rfl | rfl)
    · rcases hk1.2 with h | h <;> rw [h]
      · exact hne0
      · exact hne1
    · rcases hk2.2 with h | h <;> rw [h]
      · exact hne0
      · exact hne1
  · rintro rfl
    exact ⟨tbl_D6T_01A, hk1.1, rfl, rfl, rfl⟩
  · rintro rfl
    exact ⟨tbl_D6T_32L_01A, hk2.1, rfl, rfl, rfl⟩
  · rintro ⟨t, ht⟩
    by_contra hcon
    push_neg at hcon
    rw [D6tCore.d6t_init_unknown name true alloc_buffer alloc_raw_data hcon.1 hcon.2] at ht
    exact absurd ht (by simp)
  · intro h
    obtain ⟨t, ht, _⟩ := D6tCore.d6t_init_known name alloc_buffer alloc_raw_data h
    exact ⟨t, ht⟩
  · intro t ht
    obtain ⟨_, _, _, h3, h4⟩ := D6tCore.d6t_init_geometry _ _ _ _ t ht
    constructor
    · rintro rfl
      obtain ⟨t1, ht1, hc, _⟩ := D6tCore.d6t_init_known "d6t01a" alloc_buffer alloc_raw_data
        (Or.inl rfl)
      rw [ht] at ht1
      cases ht1
      exact hc rfl
    · rintro rfl
      obtain ⟨t1, ht1, _, hc⟩ := D6tCore.d6t_init_known "d6t32l01a" alloc_buffer alloc_raw_data
        (Or.inr rfl)
      rw [ht] at ht1
      cases ht1
      exact hc rfl
  · intro h1 h2 alloc_d6t
    exact D6tCore.d6t_init_unknown name alloc_d6t alloc_buffer alloc_raw_data h1 h2
  · exact ioctl_d6t_init_unknown d _ alloc_buf alloc_raw (by decide) (by decide)
  · exact ioctl_d6t_init_unknown d _ alloc_buf alloc_raw (by decide) (by decide)
  · exact ioctl_d6t_init_unknown d _ alloc_buf alloc_raw (by decide) (by decide)

end D6tFull

/-! ## Buffer invariant under allocation failure -/

namespace D6tFull

/-- C15, the code at the failing inputs: on the zeroed session, init("d6t01a") whose second
allocation fails returns `-ENOMEM` having freed the byte buffer, but leaves the model set,
the sizes at 5 and 2, and `buf` still holding the address of the freed block; the buffer
invariant does not hold, and a following clear hands that block to `kfree` a second time.
When the first allocation fails the model and the sizes stay set as well, with both buffers
absent. -/
theorem init_alloc_failure_breaks_buffer_invariant :
    ioctl_d6t_init d6t_data_zero "d6t01a" (some fun _ => 0) none
      = (-ENOMEM, { d6t_info := some tbl_D6T_01A, buf := KPtr.freed, raw := KPtr.null,
                    n_read := 5, n_raw_data := 2 })
    ∧ ¬ buffer_invariant { d6t_info := some tbl_D6T_01A, buf := KPtr.freed, raw := KPtr.null,
                           n_read := 5, n_raw_data := 2 }
    ∧ ioctl_d6t_clear { d6t_info := some tbl_D6T_01A, buf := KPtr.freed, raw := KPtr.null,
                        n_read := 5, n_raw_data := 2 } = none
    ∧ ioctl_d6t_init d6t_data_zero "d6t01a" none (some fun _ => 0)
      = (-ENOMEM, { d6t_info := some tbl_D6T_01A, buf := KPtr.null, raw := KPtr.null,
                    n_read := 5, n_raw_data := 2 })
    ∧ ¬ buffer_invariant { d6t_info := some tbl_D6T_01A, buf := KPtr.null, raw := KPtr.null,
                           n_read := 5, n_raw_data := 2 } := by
  refine ⟨?_, ?_, ?_, ?_, ?_⟩
  · simp [ioctl_d6t_init, kmalloc, KPtr.isNull, d6t_data_zero, tbl_D6T_01A, N_READ, N_PIXELS]
  · simp [buffer_invariant, Ready, Uninitialized]
  · simp [ioctl_d6t_clear]
  · simp [ioctl_d6t_init, kmalloc, KPtr.isNull, d6t_data_zero, tbl_D6T_01A, N_READ, N_PIXELS]
  · simp [buffer_invariant, Ready, Uninitialized]

end D6tFull

/-! ## Register write validation -/

namespace D6tFull

theorem payload_split {msg : Nat} (hmsg : msg < 65536) :
    ((msg % 65536) >>> 8) % 256 = msg >>> 8
    ∧ ((msg % 65536) &&& 0xFF) % 256 = msg &&& 0xFF
    ∧ msg >>> 8 < 256 := by
  have h8 : msg >>> 8 < 256 := by
    rw [Nat.shiftRight_eq_div_pow]
    omega
  have hand : msg &&& 0xFF < 256 :=
    Nat.lt_of_le_of_lt Nat.and_le_right (by decide)
  rw [Nat.mod_eq_of_lt hmsg, Nat.mod_eq_of_lt h8, Nat.mod_eq_of_lt hand]
  exact ⟨rfl, rfl, h8⟩

theorem d6t_write_rejects (d : d6t_data) (info : d6t_info) (hinfo : d.d6t_info = some info)
    (client : Option i2c_client) (ppos : Int) (msg : Nat) (hmsg : msg < 65536)
    (xfer_ret : Int)
    (h1 : ((msg >>> 8 : Nat) : Int) ≠ info.iir_avg_reg)
    (h2 : ((msg >>> 8 : Nat) : Int) ≠ info.cycle_reg) :
    d6t_write (some d) client ppos 2 (some msg) xfer_ret
      = some ⟨if ppos > 0 then 0 else -EINVAL, []⟩ := by
  obtain ⟨e1, _, _⟩ := payload_split hmsg
  by_cases hp : ppos > 0
  · simp only [d6t_write, hinfo, hp, if_true]
  · simp only [d6t_write, hinfo, hp, if_false, ne_eq, not_true_eq_false, e1, h1, h2,
      not_false_eq_true, and_self, if_true]

theorem d6t_write_accepts (d : d6t_data) (info : d6t_info) (hinfo : d.d6t_info = some info)
    (c : i2c_client) (ppos : Int) (hpos : ppos ≤ 0) (msg : Nat) (hmsg : msg < 65536)
    (xfer_ret : Int)
    (h : ((msg >>> 8 : Nat) : Int) = info.iir_avg_reg
      ∨ ((msg >>> 8 : Nat) : Int) = info.cycle_reg) :
    ∃ ret, d6t_write (some d) (some c) ppos 2 (some msg) xfer_ret
        = some ⟨ret, [Event.i2c_transfer_write c.addr [msg >>> 8, msg &&& 0xFF]]⟩
      ∧ (xfer_ret = 1 → ret = 2) := by
  obtain ⟨e1, e2, _⟩ := payload_split hmsg
  have hp : ¬ ppos > 0 := by omega
  have hreg : ¬ (((msg >>> 8 : Nat) : Int) ≠ info.iir_avg_reg
      ∧ ((msg >>> 8 : Nat) : Int) ≠ info.cycle_reg) := by
    rcases h with h | h <;> simp [h]
  by_cases hneg : xfer_ret < 0
  · refine ⟨xfer_ret, ?_, fun h1 => by omega⟩
    simp only [d6t_write, hinfo, hp, if_false, ne_eq, not_true_eq_false, e1, e2, hreg, hneg,
      if_true]
  · by_cases hone : xfer_ret = 1
    · refine ⟨2, ?_, fun _ => rfl⟩
      simp only [d6t_write, hinfo, hp, if_false, ne_eq, not_true_eq_false, e1, e2, hreg, hneg,
        hone, if_true]
      rfl
    · refine ⟨-EIO_code, ?_, fun h1 => absurd h1 hone⟩
      simp only [d6t_write, hinfo, hp, if_false, ne_eq, not_true_eq_false, e1, e2, hreg, hneg,
        hone, not_false_eq_true, if_true]

end D6tFull

namespace D6tFull

theorem to_s8_not_support : to_s8 NOT_SUPPORT = -1 := by decide

theorem regs_d6t01a : tbl_D6T_01A.iir_avg_reg = -1 ∧ tbl_D6T_01A.cycle_reg = -1 :=
  ⟨to_s8_not_support, to_s8_not_support⟩

theorem regs_d6t32l01a : tbl_D6T_32L_01A.iir_avg_reg = 1 ∧ tbl_D6T_32L_01A.cycle_reg = 2 := by
  constructor <;> decide

set_option maxRecDepth 1000000 in
/-- C16 as stated fails at a positive file position.  A successful `d6t_read` on a "d6t01a"
session advances `*ppos` to 4; at `*ppos = 4` `d6t_write` returns 0 before it looks at the
payload: on a "d6t32l01a" session the unsupported register 0x03 is not rejected with
`-EINVAL`, the supported register 0x01 is not written to the bus, and on a "d6t01a" session
register 0xFF is not rejected either. -/
theorem write_at_positive_position_is_not_validated :
    (d6t_read (some d6t01a_session) (some (i2c_client.mk 0x0A)) 0 xbus_good_frame 0).map
        (fun r => (r.ret, r.ppos)) = some (4, 4)
    ∧ d6t_write (some d6t32l01a_session) (some (i2c_client.mk 0x0A)) 4 2 (some 0x0305) 1
        = some ⟨0, []⟩
    ∧ d6t_write (some d6t32l01a_session) (some (i2c_client.mk 0x0A)) 4 2 (some 0x0105) 1
        = some ⟨0, []⟩
    ∧ d6t_write (some d6t01a_session) (some (i2c_client.mk 0x0A)) 4 2 (some 0xFF05) 1
        = some ⟨0, []⟩ := by
  decide

theorem d6t_write_at_positive_position (d : d6t_data) (info : d6t_info)
    (hinfo : d.d6t_info = some info) (client : Option i2c_client) (ppos : Int)
    (hpos : 0 < ppos) (count : Nat) (payload : Option Nat) (xfer_ret : Int) :
    d6t_write (some d) client ppos count payload xfer_ret = some ⟨0, []⟩ := by
  have hp : ppos > 0 := hpos
  simp only [d6t_write, hinfo, hp, if_true]

/-- C16, amended: register-write validation in `d6t_write` (`d6t_full.c`) on an initialised
session with a 2-byte payload depends on the file position.  At `*ppos <= 0`: unless the
register byte (high byte of the payload) equals the model's `iir_avg_reg` or `cycle_reg`, the
write returns `-EINVAL` and issues no bus transaction; when it does equal one of them the
two-byte register write goes to the bus.  At `*ppos > 0` every write, whatever its register
byte, returns 0 and issues no bus transaction.  For "d6t32l01a" the supported register bytes
are exactly 0x01 and 0x02; for "d6t01a", whose registers are `NOT_SUPPORT` (stored as -1 in
the `s8` fields), no register byte, 0xFF included, is supported. -/
theorem register_write_validation_by_position (d : d6t_data) (info : d6t_info)
    (hinfo : d.d6t_info = some info) (client : Option i2c_client) (ppos : Int)
    (msg : Nat) (hmsg : msg < 65536) (xfer_ret : Int) :
    ((((msg >>> 8 : Nat) : Int) ≠ info.iir_avg_reg ∧ ((msg >>> 8 : Nat) : Int) ≠ info.cycle_reg) →
        d6t_write (some d) client ppos 2 (some msg) xfer_ret
          = some ⟨if ppos > 0 then 0 else -EINVAL, []⟩)
    ∧ ((((msg >>> 8 : Nat) : Int) = info.iir_avg_reg ∨ ((msg >>> 8 : Nat) : Int) = info.cycle_reg) →
        ∀ c, client = some c →
          (ppos ≤ 0 →
            ∃ ret, d6t_write (some d) client ppos 2 (some msg) xfer_ret
                = some ⟨ret, [Event.i2c_transfer_write c.addr [msg >>> 8, msg &&& 0xFF]]⟩
              ∧ (xfer_ret = 1 → ret = 2))
          ∧ (0 < ppos →
            d6t_write (some d) client ppos 2 (some msg) xfer_ret = some ⟨0, []⟩))
    ∧ (0 < ppos → ∀ (count : Nat) (payload : Option Nat),
        d6t_write (some d) client ppos count payload xfer_ret = some ⟨0, []⟩)
    ∧ (info = tbl_D6T_32L_01A →
        ((((msg >>> 8 : Nat) : Int) = info.iir_avg_reg
            ∨ ((msg >>> 8 : Nat) : Int) = info.cycle_reg)
          ↔ (msg >>> 8 = 0x01 ∨ msg >>> 8 = 0x02)))
    ∧ (info = tbl_D6T_01A →
        ((msg >>> 8 : Nat) : Int) ≠ info.iir_avg_reg
        ∧ ((msg >>> 8 : Nat) : Int) ≠ info.cycle_reg) := by
  refine ⟨?_, ?_, ?_, ?_, ?_⟩
  · rintro ⟨h1, h2⟩
    exact d6t_write_rejects d info hinfo client ppos msg hmsg xfer_ret h1 h2
  · intro h c hc
    subst hc
    exact ⟨fun hpos => d6t_write_accepts d info hinfo c ppos hpos msg hmsg xfer_ret h,
      fun hpos => d6t_write_at_positive_position d info hinfo _ ppos hpos 2 _ xfer_ret⟩
  · intro hpos count payload
    exact d6t_write_at_positive_position d info hinfo client ppos hpos count payload xfer_ret
  · rintro rfl
    rw [regs_d6t32l01a.1, regs_d6t32l01a.2]
    constructor
    · rintro (h | h)
      · left; exact_mod_cast h
      · right; exact_mod_cast h
    · rintro (h | h)
      · left; exact_mod_cast h
      · right; exact_mod_cast h
  · rintro rfl
    rw [regs_d6t01a.1, regs_d6t01a.2]
    constructor <;> omega

end D6tFull

namespace D6tFull

/-- Witness for the amended C16 on a "d6t32l01a" session: at position 0 the payload 0x0105
(register 0x01, value 0x05) goes to the bus and the payload 0x0305 (register 0x03) is
rejected with `-EINVAL`; at position 4 the payload 0x0305 returns 0. -/
theorem register_write_validation_by_position_witness :
    (∃ ret, d6t_write (some d6t32l01a_session) (some (i2c_client.mk 0x0A)) 0 2 (some 0x0105) 1
        = some ⟨ret, [Event.i2c_transfer_write (i2c_client.mk 0x0A).addr
            [0x0105 >>> 8, 0x0105 &&& 0xFF]]⟩
      ∧ ((1 : Int) = 1 → ret = 2))
    ∧ d6t_write (some d6t32l01a_session) (some (i2c_client.mk 0x0A)) 0 2 (some 0x0305) 1
        = some ⟨if (0 : Int) > 0 then 0 else -EINVAL, []⟩
    ∧ d6t_write (some d6t32l01a_session) (some (i2c_client.mk 0x0A)) 4 2 (some 0x0305) 1
        = some ⟨if (4 : Int) > 0 then 0 else -EINVAL, []⟩ :=
  ⟨((register_write_validation_by_position d6t32l01a_session tbl_D6T_32L_01A rfl
      (some (i2c_client.mk 0x0A)) 0 0x0105 (by decide) 1).2.1 (Or.inl (by decide))
        (i2c_client.mk 0x0A) rfl).1 (by decide),
    (register_write_validation_by_position d6t32l01a_session tbl_D6T_32L_01A rfl
      (some (i2c_client.mk 0x0A)) 0 0x0305 (by decide) 1).1 ⟨by decide, by decide⟩,
    (register_write_validation_by_position d6t32l01a_session tbl_D6T_32L_01A rfl
      (some (i2c_client.mk 0x0A)) 4 0x0305 (by decide) 1).1 ⟨by decide, by decide⟩⟩

end D6tFull

/-! ## Integrity gate of `d6t_read_data` -/

namespace D6tCore

set_option maxRecDepth 1000000 in
theorem d6t_read_data_good_frame :
    d6t_read_data checkPEC_of_file (some (i2c_client.mk 0x0A)) (some d6t01a_ready)
        xbus_good_frame
      = some (4, some { d6t01a_ready with buffer := KPtr.live [0x10, 0x01, 0x20, 0x01, 0x7A] },
          [Event.i2c_transfer 0x0A 0x4C 5]) := by
  decide

set_option maxRecDepth 1000000 in
theorem d6t_read_data_bad_trailer :
    d6t_read_data checkPEC_of_file (some (i2c_client.mk 0x0A)) (some d6t01a_ready)
        xbus_bad_trailer
      = some (0, some { d6t01a_ready with
                          buffer := KPtr.live [0x10, 0x01, 0x20, 0x01, 0x00],
                          raw_data := KPtr.live [0x0110, 0x0120] },
          [Event.i2c_transfer 0x0A 0x4C 5]) := by
  decide

set_option maxRecDepth 1000000 in
theorem d6t_checkPEC_good_frame : d6t_checkPEC 0x0A 5 [0x10, 0x01, 0x20, 0x01, 0x7A] = 0 := by
  decide

set_option maxRecDepth 1000000 in
theorem d6t_checkPEC_bad_trailer : d6t_checkPEC 0x0A 5 [0x10, 0x01, 0x20, 0x01, 0x00] = 1 := by
  decide

/-- C17, the code at the failing inputs (callee `D6T_checkPEC` read as the file's
`d6t_checkPEC`): with a transport that succeeds at the first attempt, a frame whose trailer
equals the computed PEC (`d6t_checkPEC` returns 0) makes `d6t_read_data` return 4 without
decoding, and a frame with a wrong trailer (`d6t_checkPEC` returns 1) makes it return 0 with
`raw_data` decoded from the unverified bytes. -/
theorem d6t_read_data_inverts_the_pec_test :
    d6t_checkPEC 0x0A 5 [0x10, 0x01, 0x20, 0x01, 0x7A] = 0
    ∧ d6t_read_data checkPEC_of_file (some (i2c_client.mk 0x0A)) (some d6t01a_ready)
          xbus_good_frame
        = some (4, some { d6t01a_ready with
                            buffer := KPtr.live [0x10, 0x01, 0x20, 0x01, 0x7A] },
            [Event.i2c_transfer 0x0A 0x4C 5])
    ∧ d6t_checkPEC 0x0A 5 [0x10, 0x01, 0x20, 0x01, 0x00] = 1
    ∧ d6t_read_data checkPEC_of_file (some (i2c_client.mk 0x0A)) (some d6t01a_ready)
          xbus_bad_trailer
        = some (0, some { d6t01a_ready with
                            buffer := KPtr.live [0x10, 0x01, 0x20, 0x01, 0x00],
                            raw_data := KPtr.live [0x0110, 0x0120] },
            [Event.i2c_transfer 0x0A 0x4C 5]) :=
  ⟨d6t_checkPEC_good_frame, d6t_read_data_good_frame, d6t_checkPEC_bad_trailer,
    d6t_read_data_bad_trailer⟩

end D6tCore

/-! ## Verified frame or error: the read path of `d6t_full.c` / `d6tioctl.c` -/

namespace D6tFull

theorem mem_store_at {dst src : List Nat} {offset x : Nat} (h : x ∈ store_at dst offset src) :
    x ∈ dst ∨ x ∈ src := by
  unfold store_at at h
  rcases List.mem_append.mp h with h | h
  · rcases List.mem_append.mp h with h | h
    · exact Or.inl (List.mem_of_mem_take h)
    · exact Or.inr (List.mem_of_mem_take h)
  · exact Or.inl (List.mem_of_mem_drop h)

theorem length_store_at (dst src : List Nat) (offset : Nat) :
    (store_at dst offset src).length = dst.length := by
  unfold store_at
  simp only [List.length_append, List.length_take, List.length_drop]
  omega

theorem store_at_replicate_all (cells : List Nat) (n : Nat) (h : cells.length = n) :
    store_at cells 0 (List.replicate n 0) = List.replicate n 0 := by
  unfold store_at
  simp [h]

theorem received_frame_bytes (cells : List Nat) (n_read : Nat) (x : Xfer)
    (hlen : cells.length = n_read) : ∀ b ∈ received_frame cells n_read x, b < 256 := by
  intro b hb
  unfold received_frame at hb
  rw [store_at_replicate_all cells n_read hlen] at hb
  rcases mem_store_at hb with h | h
  · rw [List.eq_of_mem_replicate h]
    decide
  · obtain ⟨a, _, rfl⟩ := List.mem_map.mp h
    exact Nat.mod_lt _ (by decide)

theorem received_frame_length (cells : List Nat) (n_read : Nat) (x : Xfer) :
    (received_frame cells n_read x).length = cells.length := by
  unfold received_frame
  rw [length_store_at, length_store_at]

theorem d6t_get_frame_eq (d : d6t_data) (info : d6t_info) (cells : List Nat) (c : i2c_client)
    (x : Xfer) (hinfo : d.d6t_info = some info) (hbuf : d.buf = KPtr.live cells)
    (hlen : d.n_read ≤ cells.length) :
    d6t_get_frame (some c) d x
      = some (if x.ret < 0 then x.ret else if x.ret ≠ 2 then -EIO_code else 0,
              { d with buf := KPtr.live (received_frame cells d.n_read x) },
              [Event.i2c_transfer c.addr info.command d.n_read]) := by
  have hl : ¬ cells.length < d.n_read := by omega
  simp only [d6t_get_frame, hinfo, hbuf, KPtr.isNull, KPtr.deref, hl, if_false,
    Bool.false_eq_true, received_frame]
  by_cases h1 : x.ret < 0
  · simp only [h1, if_true]
  · by_cases h2 : x.ret ≠ 2
    · simp only [h1, h2, if_false, if_true, ne_eq, not_false_eq_true]
    · simp only [h1, h2, if_false]

theorem d6t_get_frame_inv (client : Option i2c_client) (d : d6t_data) (x : Xfer) (r : Int)
    (d1 : d6t_data) (ev : List Event) (h : d6t_get_frame client d x = some (r, d1, ev))
    (hr : ¬ r < 0) :
    ∃ c info cells, client = some c ∧ d.d6t_info = some info ∧ d.buf = KPtr.live cells
      ∧ d.n_read ≤ cells.length ∧ x.ret = 2 ∧ r = 0
      ∧ d1 = { d with buf := KPtr.live (received_frame cells d.n_read x) }
      ∧ ev = [Event.i2c_transfer c.addr info.command d.n_read] := by
  cases hinfo : d.d6t_info with
  | none => simp [d6t_get_frame, hinfo] at h
  | some info =>
    cases client with
    | none =>
      simp only [d6t_get_frame, hinfo, Option.some.injEq, Prod.mk.injEq] at h
      exact absurd (h.1 ▸ (by decide : -EINVAL < 0)) hr
    | some c =>
      cases hbuf : d.buf with
      | null =>
        simp only [d6t_get_frame, hinfo, hbuf, KPtr.isNull, if_true, Option.some.injEq,
          Prod.mk.injEq] at h
        exact absurd (h.1 ▸ (by decide : -EINVAL < 0)) hr
      | freed => simp [d6t_get_frame, hinfo, hbuf, KPtr.isNull, KPtr.deref] at h
      | live cells =>
        by_cases hl : cells.length < d.n_read
        · simp [d6t_get_frame, hinfo, hbuf, KPtr.isNull, KPtr.deref, hl] at h
        · rw [d6t_get_frame_eq d info cells c x hinfo hbuf (by omega)] at h
          simp only [Option.some.injEq, Prod.mk.injEq] at h
          obtain ⟨h1, h2, h3⟩ := h
          by_cases hneg : x.ret < 0
          · rw [if_pos hneg] at h1
            exact absurd (h1 ▸ hneg) hr
          · by_cases h2' : x.ret ≠ 2
            · rw [if_neg hneg, if_pos h2'] at h1
              exact absurd (h1 ▸ (by decide : -EIO_code < 0)) hr
            · rw [if_neg hneg, if_neg h2'] at h1
              exact ⟨c, info, cells, rfl, rfl, rfl, by omega, by simpa using h2', h1.symm,
                by rw [← h2, hinfo], h3.symm⟩

end D6tFull

namespace D6tFull

theorem d6t_get_frame_ok (d : d6t_data) (info : d6t_info) (cells : List Nat) (c : i2c_client)
    (x : Xfer) (hinfo : d.d6t_info = some info) (hbuf : d.buf = KPtr.live cells)
    (hlen : d.n_read ≤ cells.length) (hret : x.ret = 2) :
    d6t_get_frame (some c) d x
      = some (0, { d with buf := KPtr.live (received_frame cells d.n_read x) },
              [Event.i2c_transfer c.addr info.command d.n_read]) := by
  rw [d6t_get_frame_eq d info cells c x hinfo hbuf hlen, hret]
  rfl

theorem read_pec_mismatch (d : d6t_data) (info : d6t_info) (cells samples : List Nat)
    (c : i2c_client) (ppos : Int) (bus : Nat → Xfer) (uncopied : Nat)
    (hinfo : d.d6t_info = some info) (hbuf : d.buf = KPtr.live cells)
    (hraw : d.raw = KPtr.live samples) (hlen : d.n_read ≤ cells.length) (hpos : ppos ≤ 0)
    (hret : (bus 0).ret = 2)
    (hpec : d6t_checkPEC c.addr d.n_read (received_frame cells d.n_read (bus 0)) = true) :
    d6t_read (some d) (some c) ppos bus uncopied
      = some ⟨-EIO_code, some { d with buf := KPtr.live (received_frame cells d.n_read (bus 0)) },
          ppos, [],
          [Event.mutex_lock, Event.i2c_transfer c.addr info.command d.n_read,
           Event.mutex_unlock]⟩
    ∧ d6t_ioctl_READ_RAW (some d) (some c) bus uncopied
      = some ⟨-EIO_code, some { d with buf := KPtr.live (received_frame cells d.n_read (bus 0)) },
          0, [],
          [Event.mutex_lock, Event.i2c_transfer c.addr info.command d.n_read,
           Event.mutex_unlock]⟩ := by
  have hp : ¬ ppos > 0 := by omega
  have hbn : d.buf.isNull = false := by rw [hbuf]; rfl
  have hrn : d.raw.isNull = false := by rw [hraw]; rfl
  have hgf := d6t_get_frame_ok d info cells c (bus 0) hinfo hbuf hlen hret
  have h0 : ¬ (0 : Int) < 0 := by decide
  constructor
  · simp only [d6t_read, hinfo, hbn, hrn, Option.isNone, Bool.or_self, Bool.false_eq_true,
      if_false, hp, hgf, h0, KPtr.deref, hraw, hpec, if_true]
    rfl
  · simp only [d6t_ioctl_READ_RAW, hinfo, hbn, hrn, Option.isNone, Bool.or_self,
      Bool.false_eq_true, if_false, hgf, h0, KPtr.deref, hraw, hpec, if_true]
    rfl

theorem read_pec_accepted (d : d6t_data) (info : d6t_info) (cells samples : List Nat)
    (c : i2c_client) (ppos : Int) (bus : Nat → Xfer) (uncopied : Nat)
    (hinfo : d.d6t_info = some info) (hbuf : d.buf = KPtr.live cells)
    (hraw : d.raw = KPtr.live samples) (hlen : d.n_read ≤ cells.length) (hpos : ppos ≤ 0)
    (hret : (bus 0).ret = 2)
    (hpec : d6t_checkPEC c.addr d.n_read (received_frame cells d.n_read (bus 0)) = false) :
    d6t_read (some d) (some c) ppos bus uncopied
      = some ⟨if uncopied ≠ 0 then -EFAULT else ((d.n_raw_data * 2 : Nat) : Int),
          some { d with
            buf := KPtr.live (received_frame cells d.n_read (bus 0)),
            raw := KPtr.live (d6t_convert_u8_to_s16 d.n_raw_data
              ⟨received_frame cells d.n_read (bus 0), samples⟩).raw },
          if uncopied ≠ 0 then ppos else ppos + ((d.n_raw_data * 2 : Nat) : Int),
          (le_bytes ((d6t_convert_u8_to_s16 d.n_raw_data
              ⟨received_frame cells d.n_read (bus 0), samples⟩).raw.take d.n_raw_data)).take
            (d.n_raw_data * 2 - uncopied),
          [Event.mutex_lock, Event.i2c_transfer c.addr info.command d.n_read,
           Event.copy_to_user
             ((le_bytes ((d6t_convert_u8_to_s16 d.n_raw_data
                ⟨received_frame cells d.n_read (bus 0), samples⟩).raw.take d.n_raw_data)).take
              (d.n_raw_data * 2 - uncopied)),
           Event.mutex_unlock]⟩
    ∧ d6t_ioctl_READ_RAW (some d) (some c) bus uncopied
      = some ⟨if uncopied ≠ 0 then -EFAULT else 0,
          some { d with
            buf := KPtr.live (received_frame cells d.n_read (bus 0)),
            raw := KPtr.live (d6t_convert_u8_to_s16 d.n_raw_data
              ⟨received_frame cells d.n_read (bus 0), samples⟩).raw },
          0,
          (le_bytes ((d6t_convert_u8_to_s16 d.n_raw_data
              ⟨received_frame cells d.n_read (bus 0), samples⟩).raw.take d.n_raw_data)).take
            (d.n_raw_data * 2 - uncopied),
          [Event.mutex_lock, Event.i2c_transfer c.addr info.command d.n_read,
           Event.copy_to_user
             ((le_bytes ((d6t_convert_u8_to_s16 d.n_raw_data
                ⟨received_frame cells d.n_read (bus 0), samples⟩).raw.take d.n_raw_data)).take
              (d.n_raw_data * 2 - uncopied)),
           Event.mutex_unlock]⟩ := by
  have hp : ¬ ppos > 0 := by omega
  have hbn : d.buf.isNull = false := by rw [hbuf]; rfl
  have hrn : d.raw.isNull = false := by rw [hraw]; rfl
  have hgf := d6t_get_frame_ok d info cells c (bus 0) hinfo hbuf hlen hret
  have h0 : ¬ (0 : Int) < 0 := by decide
  have hb : (d6t_convert_u8_to_s16 d.n_raw_data
      ⟨received_frame cells d.n_read (bus 0), samples⟩).buf
        = received_frame cells d.n_read (bus 0) := (convert_loop_spec _ 0 _).1
  constructor
  · simp only [d6t_read, hinfo, hbn, hrn, Option.isNone, Bool.or_self, Bool.false_eq_true,
      if_false, hp, hgf, h0, KPtr.deref, hraw, hpec, hb]
    by_cases hu : uncopied ≠ 0
    · simp only [hu, if_true, ne_eq, not_false_eq_true]
      rfl
    · simp only [hu, if_false]
      rfl
  · simp only [d6t_ioctl_READ_RAW, hinfo, hbn, hrn, Option.isNone, Bool.or_self,
      Bool.false_eq_true, if_false, hgf, h0, KPtr.deref, hraw, hpec, hb]
    by_cases hu : uncopied ≠ 0
    · simp only [hu, if_true, ne_eq, not_false_eq_true]
      rfl
    · simp only [hu, if_false]
      rfl

end D6tFull

namespace D6tFull

theorem read_copy_out_inv (g : Option d6t_data) (client : Option i2c_client) (ppos : Int)
    (bus : Nat → Xfer) (uncopied : Nat) (r : read_result)
    (h : d6t_read g client ppos bus uncopied = some r) (hcopy : r.user ≠ []) :
    ∃ d c cells, g = some d ∧ client = some c ∧ d.buf = KPtr.live cells ∧ (bus 0).ret = 2
      ∧ d6t_checkPEC c.addr d.n_read (received_frame cells d.n_read (bus 0)) = false := by
  cases g with
  | none =>
    simp only [d6t_read, Option.some.injEq] at h
    subst h
    exact absurd rfl hcopy
  | some d =>
    by_cases hg : (d.d6t_info.isNone || d.buf.isNull || d.raw.isNull) = true
    · simp only [d6t_read, hg, if_true, Option.some.injEq] at h
      subst h
      exact absurd rfl hcopy
    · by_cases hp : ppos > 0
      · simp only [d6t_read, hg, if_false, hp, if_true, Option.some.injEq,
          Bool.false_eq_true] at h
        subst h
        exact absurd rfl hcopy
      · cases hgf : d6t_get_frame client d (bus 0) with
        | none => simp [d6t_read, hg, hp, hgf] at h
        | some res =>
          obtain ⟨rr, d1, ev⟩ := res
          by_cases hneg : rr < 0
          · simp only [d6t_read, hg, if_false, hp, hgf, hneg, if_true, Option.some.injEq,
              Bool.false_eq_true] at h
            subst h
            exact absurd rfl hcopy
          · obtain ⟨c, info, cells, hc, hinfo, hbuf, hlen, hret, _, hd1, _⟩ :=
              d6t_get_frame_inv client d (bus 0) rr d1 ev hgf hneg
            subst hc
            refine ⟨d, c, cells, rfl, rfl, hbuf, hret, ?_⟩
            by_contra hpec
            have hpec' : d6t_checkPEC c.addr d.n_read
                (received_frame cells d.n_read (bus 0)) = true := by
              simpa using hpec
            cases hraw : d.raw with
            | null => simp [hraw, KPtr.isNull] at hg
            | freed =>
              simp [d6t_read, hg, hp, hgf, hneg, hd1, KPtr.deref, hraw] at h
              obtain ⟨_, h2⟩ := h
              subst h2
              exact absurd rfl hcopy
            | live samples =>
              have hp' : ppos ≤ 0 := by omega
              have := (read_pec_mismatch d info cells samples c ppos bus uncopied hinfo hbuf
                hraw hlen hp' hret hpec').1
              rw [this] at h
              simp only [Option.some.injEq] at h
              subst h
              exact absurd rfl hcopy

theorem ioctl_copy_out_inv (g : Option d6t_data) (client : Option i2c_client)
    (bus : Nat → Xfer) (uncopied : Nat) (r : read_result)
    (h : d6t_ioctl_READ_RAW g client bus uncopied = some r) (hcopy : r.user ≠ []) :
    ∃ d c cells, g = some d ∧ client = some c ∧ d.buf = KPtr.live cells ∧ (bus 0).ret = 2
      ∧ d6t_checkPEC c.addr d.n_read (received_frame cells d.n_read (bus 0)) = false := by
  cases g with
  | none =>
    simp only [d6t_ioctl_READ_RAW, Option.some.injEq] at h
    subst h
    exact absurd rfl hcopy
  | some d =>
    by_cases hg : (d.d6t_info.isNone || d.buf.isNull || d.raw.isNull) = true
    · simp only [d6t_ioctl_READ_RAW, hg, if_true, Option.some.injEq] at h
      subst h
      exact absurd rfl hcopy
    · cases hgf : d6t_get_frame client d (bus 0) with
      | none => simp [d6t_ioctl_READ_RAW, hg, hgf] at h
      | some res =>
        obtain ⟨rr, d1, ev⟩ := res
        by_cases hneg : rr < 0
        · simp only [d6t_ioctl_READ_RAW, hg, if_false, hgf, hneg, if_true, Option.some.injEq,
            Bool.false_eq_true] at h
          subst h
          exact absurd rfl hcopy
        · obtain ⟨c, info, cells, hc, hinfo, hbuf, hlen, hret, _, hd1, _⟩ :=
            d6t_get_frame_inv client d (bus 0) rr d1 ev hgf hneg
          subst hc
          refine ⟨d, c, cells, rfl, rfl, hbuf, hret, ?_⟩
          by_contra hpec
          have hpec' : d6t_checkPEC c.addr d.n_read
              (received_frame cells d.n_read (bus 0)) = true := by
            simpa using hpec
          cases hraw : d.raw with
          | null => simp [hraw, KPtr.isNull] at hg
          | freed =>
            simp [d6t_ioctl_READ_RAW, hg, hgf, hneg, hd1, KPtr.deref, hraw] at h
            obtain ⟨_, h2⟩ := h
            subst h2
            exact absurd rfl hcopy
          | live samples =>
            have := (read_pec_mismatch d info cells samples c 0 bus uncopied hinfo hbuf
              hraw hlen (le_refl _) hret hpec').2
            rw [this] at h
            simp only [Option.some.injEq] at h
            subst h
            exact absurd rfl hcopy

end D6tFull

theorem le_bytes_length (l : List Nat) : (le_bytes l).length = 2 * l.length := by
  induction l with
  | nil => rfl
  | cons s rest ih => simp [le_bytes, ih]; omega

namespace D6tFull

theorem read_transport_failure (d : d6t_data) (info : d6t_info) (cells : List Nat)
    (c : i2c_client) (ppos : Int) (bus : Nat → Xfer) (uncopied : Nat)
    (hinfo : d.d6t_info = some info) (hbuf : d.buf = KPtr.live cells)
    (hrn : d.raw.isNull = false) (hlen : d.n_read ≤ cells.length) (hpos : ppos ≤ 0)
    (hret : (bus 0).ret ≠ 2) :
    d6t_read (some d) (some c) ppos bus uncopied
      = some ⟨-EIO_code, some { d with buf := KPtr.live (received_frame cells d.n_read (bus 0)) },
          ppos, [],
          [Event.mutex_lock, Event.i2c_transfer c.addr info.command d.n_read,
           Event.mutex_unlock]⟩
    ∧ d6t_ioctl_READ_RAW (some d) (some c) bus uncopied
      = some ⟨-EIO_code, some { d with buf := KPtr.live (received_frame cells d.n_read (bus 0)) },
          0, [],
          [Event.mutex_lock, Event.i2c_transfer c.addr info.command d.n_read,
           Event.mutex_unlock]⟩ := by
  have hp : ¬ ppos > 0 := by omega
  have hbn : d.buf.isNull = false := by rw [hbuf]; rfl
  have hgf := d6t_get_frame_eq d info cells c (bus 0) hinfo hbuf hlen
  have hneg : (if (bus 0).ret < 0 then (bus 0).ret
      else if (bus 0).ret ≠ 2 then -EIO_code else 0) < 0 := by
    by_cases h1 : (bus 0).ret < 0
    · rw [if_pos h1]; exact h1
    · rw [if_neg h1, if_pos hret]; decide
  constructor
  · simp only [d6t_read, hinfo, hbn, hrn, Option.isNone, Bool.or_self, Bool.false_eq_true,
      if_false, hp, hgf, hneg, if_true]
    rfl
  · simp only [d6t_ioctl_READ_RAW, hinfo, hbn, hrn, Option.isNone, Bool.or_self,
      Bool.false_eq_true, if_false, hgf, hneg, if_true]
    rfl

theorem decoded_samples_spec (n : Nat) (frame samples : List Nat)
    (hframe : 2 * n ≤ frame.length) (hsamples : samples.length = n)
    (hbytes : ∀ b ∈ frame, b < 256) :
    (d6t_convert_u8_to_s16 n ⟨frame, samples⟩).raw.length = n
    ∧ (d6t_convert_u8_to_s16 n ⟨frame, samples⟩).raw.take n
        = (d6t_convert_u8_to_s16 n ⟨frame, samples⟩).raw
    ∧ ∀ i, i < n → ∃ lo hi, frame[2 * i]? = some lo ∧ frame[2 * i + 1]? = some hi
        ∧ (d6t_convert_u8_to_s16 n ⟨frame, samples⟩).raw[i]? = some (lo ||| (hi <<< 8)) := by
  obtain ⟨_, hl, hget⟩ := convert_loop_spec n 0 ⟨frame, samples⟩
  have hlen : (d6t_convert_u8_to_s16 n ⟨frame, samples⟩).raw.length = n := by
    unfold d6t_convert_u8_to_s16
    rw [hl]
    exact hsamples
  refine ⟨hlen, List.take_of_length_le (by omega), fun i hi => ?_⟩
  have h0 : 2 * i < frame.length := by omega
  have h1 : 2 * i + 1 < frame.length := by omega
  refine ⟨frame[2 * i], frame[2 * i + 1], List.getElem?_eq_getElem h0,
    List.getElem?_eq_getElem h1, ?_⟩
  have hc : 0 ≤ i ∧ i < 0 + n ∧ i < (frame_mem.mk frame samples).raw.length := by
    simp only [hsamples]; omega
  unfold d6t_convert_u8_to_s16
  rw [hget i, if_pos hc]
  simp only [List.getD_eq_getElem?_getD, List.getElem?_eq_getElem h0,
    List.getElem?_eq_getElem h1, Option.getD_some]
  rw [le_pair_u16 (hbytes _ (List.getElem_mem h0)) (hbytes _ (List.getElem_mem h1))]

end D6tFull

namespace D6tFull

/-- C18: verified frame or error, in `d6t_read` (`d6t_full.c`) and the `D6T_IOC_READ_RAW` case
(`d6tioctl.c`).  On an initialised session (request not past end-of-stream) with `frame` the
bytes left in `buf` by the bus transaction:
* transport failure: `-EIO`, nothing copied, no `copy_to_user` call;
* `d6t_checkPEC` rejects `frame`: `-EIO`, nothing copied, no `copy_to_user` call;
* transaction done and `frame` accepted: `copy_to_user` is called on the byte image of the
  `n_raw_data` decoded samples, sample `i` being `frame[2i] | frame[2i+1] << 8`; when it copies
  everything the caller holds exactly these samples and the call succeeds, otherwise `-EFAULT`.
For arbitrary arguments, bytes reach the caller only if the transaction succeeded and
`d6t_checkPEC` accepted the received frame, and a session that is not initialised yields
`-EINVAL` with nothing copied. -/
theorem verified_frame_or_error (d : d6t_data) (info : d6t_info) (cells samples : List Nat)
    (c : i2c_client) (ppos : Int) (bus : Nat → Xfer) (uncopied : Nat)
    (hinfo : d.d6t_info = some info) (hbuf : d.buf = KPtr.live cells)
    (hraw : d.raw = KPtr.live samples) (hlen : cells.length = d.n_read)
    (hsamples : samples.length = d.n_raw_data) (hgeom : d.n_read = 2 * d.n_raw_data + 1)
    (hpos : ppos ≤ 0) :
    ((bus 0).ret ≠ 2 →
      d6t_read (some d) (some c) ppos bus uncopied
        = some ⟨-EIO_code,
            some { d with buf := KPtr.live (received_frame cells d.n_read (bus 0)) }, ppos, [],
            [Event.mutex_lock, Event.i2c_transfer c.addr info.command d.n_read,
             Event.mutex_unlock]⟩
      ∧ d6t_ioctl_READ_RAW (some d) (some c) bus uncopied
        = some ⟨-EIO_code,
            some { d with buf := KPtr.live (received_frame cells d.n_read (bus 0)) }, 0, [],
            [Event.mutex_lock, Event.i2c_transfer c.addr info.command d.n_read,
             Event.mutex_unlock]⟩)
    ∧ ((bus 0).ret = 2 →
        d6t_checkPEC c.addr d.n_read (received_frame cells d.n_read (bus 0)) = true →
      d6t_read (some d) (some c) ppos bus uncopied
        = some ⟨-EIO_code,
            some { d with buf := KPtr.live (received_frame cells d.n_read (bus 0)) }, ppos, [],
            [Event.mutex_lock, Event.i2c_transfer c.addr info.command d.n_read,
             Event.mutex_unlock]⟩
      ∧ d6t_ioctl_READ_RAW (some d) (some c) bus uncopied
        = some ⟨-EIO_code,
            some { d with buf := KPtr.live (received_frame cells d.n_read (bus 0)) }, 0, [],
            [Event.mutex_lock, Event.i2c_transfer c.addr info.command d.n_read,
             Event.mutex_unlock]⟩)
    ∧ ((bus 0).ret = 2 →
        d6t_checkPEC c.addr d.n_read (received_frame cells d.n_read (bus 0)) = false →
      ∃ decoded : List Nat,
        decoded.length = d.n_raw_data
        ∧ (∀ i, i < d.n_raw_data → ∃ lo hi,
            (received_frame cells d.n_read (bus 0))[2 * i]? = some lo
            ∧ (received_frame cells d.n_read (bus 0))[2 * i + 1]? = some hi
            ∧ decoded[i]? = some (lo ||| (hi <<< 8)))
        ∧ (uncopied = 0 →
            (le_bytes decoded).take (d.n_raw_data * 2 - uncopied) = le_bytes decoded)
        ∧ d6t_read (some d) (some c) ppos bus uncopied
          = some ⟨if uncopied ≠ 0 then -EFAULT else ((d.n_raw_data * 2 : Nat) : Int),
              some { d with buf := KPtr.live (received_frame cells d.n_read (bus 0)),
                            raw := KPtr.live decoded },
              if uncopied ≠ 0 then ppos else ppos + ((d.n_raw_data * 2 : Nat) : Int),
              (le_bytes decoded).take (d.n_raw_data * 2 - uncopied),
              [Event.mutex_lock, Event.i2c_transfer c.addr info.command d.n_read,
               Event.copy_to_user ((le_bytes decoded).take (d.n_raw_data * 2 - uncopied)),
               Event.mutex_unlock]⟩
        ∧ d6t_ioctl_READ_RAW (some d) (some c) bus uncopied
          = some ⟨if uncopied ≠ 0 then -EFAULT else 0,
              some { d with buf := KPtr.live (received_frame cells d.n_read (bus 0)),
                            raw := KPtr.live decoded },
              0,
              (le_bytes decoded).take (d.n_raw_data * 2 - uncopied),
              [Event.mutex_lock, Event.i2c_transfer c.addr info.command d.n_read,
               Event.copy_to_user ((le_bytes decoded).take (d.n_raw_data * 2 - uncopied)),
               Event.mutex_unlock]⟩)
    ∧ (∀ (g : Option d6t_data) (cl : Option i2c_client) (pos : Int) (xbus : Nat → Xfer)
        (unc : Nat) (r : read_result),
        (d6t_read g cl pos xbus unc = some r ∨ d6t_ioctl_READ_RAW g cl xbus unc = some r) →
        r.user ≠ [] →
        ∃ d0 c0 cells0, g = some d0 ∧ cl = some c0 ∧ d0.buf = KPtr.live cells0
          ∧ (xbus 0).ret = 2
          ∧ d6t_checkPEC c0.addr d0.n_read (received_frame cells0 d0.n_read (xbus 0)) = false)
    ∧ (∀ (d0 : d6t_data) (cl : Option i2c_client) (pos : Int) (xbus : Nat → Xfer) (unc : Nat),
        (d0.d6t_info = none ∨ d0.buf = KPtr.null ∨ d0.raw = KPtr.null) →
        d6t_read (some d0) cl pos xbus unc = some ⟨-EINVAL, some d0, pos, [], []⟩
        ∧ d6t_ioctl_READ_RAW (some d0) cl xbus unc = some ⟨-EINVAL, some d0, 0, [], []⟩) := by
  have hle : d.n_read ≤ cells.length := by omega
  have hrn : d.raw.isNull = false := by rw [hraw]; rfl
  refine ⟨?_, ?_, ?_, ?_, ?_⟩
  · intro hret
    exact read_transport_failure d info cells c ppos bus uncopied hinfo hbuf hrn hle hpos hret
  · intro hret hpec
    exact read_pec_mismatch d info cells samples c ppos bus uncopied hinfo hbuf hraw hle hpos
      hret hpec
  · intro hret hpec
    have hfl : 2 * d.n_raw_data ≤ (received_frame cells d.n_read (bus 0)).length := by
      rw [received_frame_length]; omega
    obtain ⟨hdl, htake, hdec⟩ := decoded_samples_spec d.n_raw_data
      (received_frame cells d.n_read (bus 0)) samples hfl hsamples
      (received_frame_bytes cells d.n_read (bus 0) hlen)
    obtain ⟨hr1, hr2⟩ := read_pec_accepted d info cells samples c ppos bus uncopied hinfo hbuf
      hraw hle hpos hret hpec
    rw [htake] at hr1 hr2
    refine ⟨_, hdl, hdec, ?_, hr1, hr2⟩
    intro hu
    apply List.take_of_length_le
    rw [le_bytes_length, hdl, hu]
    omega
  · intro g cl pos xbus unc r hr hcopy
    rcases hr with hr | hr
    · exact read_copy_out_inv g cl pos xbus unc r hr hcopy
    · exact ioctl_copy_out_inv g cl xbus unc r hr hcopy
  · intro d0 cl pos xbus unc h
    exact read_rejects_absent d0 cl pos xbus unc h

set_option maxRecDepth 1000000 in
theorem frame5_received_accepted :
    d6t_checkPEC (i2c_client.mk 0x0A).addr d6t01a_session.n_read
      (received_frame [0, 0, 0, 0, 0] d6t01a_session.n_read (xbus_good_frame 0)) = false := by
  decide

/-- Witness for C18: the ready "d6t01a" session, a transfer that delivers a frame with a
correct trailer, `copy_to_user` copying everything. -/
theorem verified_frame_or_error_witness :
    ∃ decoded : List Nat,
      decoded.length = d6t01a_session.n_raw_data
      ∧ d6t_read (some d6t01a_session) (some (i2c_client.mk 0x0A)) 0 xbus_good_frame 0
        = some ⟨if 0 ≠ 0 then -EFAULT else ((d6t01a_session.n_raw_data * 2 : Nat) : Int),
            some { d6t01a_session with
                     buf := KPtr.live (received_frame [0, 0, 0, 0, 0] d6t01a_session.n_read
                              (xbus_good_frame 0)),
                     raw := KPtr.live decoded },
            if 0 ≠ 0 then 0 else 0 + ((d6t01a_session.n_raw_data * 2 : Nat) : Int),
            (le_bytes decoded).take (d6t01a_session.n_raw_data * 2 - 0),
            [Event.mutex_lock,
             Event.i2c_transfer (i2c_client.mk 0x0A).addr tbl_D6T_01A.command
               d6t01a_session.n_read,
             Event.copy_to_user ((le_bytes decoded).take (d6t01a_session.n_raw_data * 2 - 0)),
             Event.mutex_unlock]⟩ :=
  have hacc := (verified_frame_or_error d6t01a_session tbl_D6T_01A [0, 0, 0, 0, 0] [0, 0]
    (i2c_client.mk 0x0A) 0 xbus_good_frame 0 rfl rfl rfl rfl rfl rfl (by decide)).2.2.1 rfl
    frame5_received_accepted
  hacc.elim fun decoded h => ⟨decoded, h.1, h.2.2.2.1⟩

end D6tFull

/-! ## Read helpers of `d6t32l.c` and `d6t.c`: no frame verification -/

theorem map_mod_256_of_bytes (l : List Nat) (h : ∀ b ∈ l, b < 256) :
    l.map (fun b => b % 256) = l := by
  induction l with
  | nil => rfl
  | cons a rest ih =>
    rw [List.map_cons, Nat.mod_eq_of_lt (h a (List.mem_cons_self a rest)),
      ih (fun b hb => h b (List.mem_cons_of_mem a hb))]

theorem store_at_take_prefix (buf frame : List Nat) (offset len : Nat)
    (hlen : offset + len ≤ buf.length) (hfl : offset + len ≤ frame.length)
    (hpre : buf.take offset = frame.take offset) :
    (store_at buf offset ((frame.drop offset).take len)).take (offset + len)
      = frame.take (offset + len) := by
  have hsl : ((frame.drop offset).take len).length = len := by
    rw [List.length_take, List.length_drop]; omega
  unfold store_at
  rw [List.take_of_length_le (l := (frame.drop offset).take len) (by rw [hsl]; omega), hsl,
    hpre, List.take_add, List.append_assoc]
  have h1 : (frame.take offset ++ ((frame.drop offset).take len ++ buf.drop (offset + len))).take
      offset = frame.take offset := by
    rw [List.take_append_of_le_length (by rw [List.length_take]; omega), List.take_take]
    simp
  have h2 : ((frame.take offset ++ ((frame.drop offset).take len
      ++ buf.drop (offset + len))).drop offset).take len = (frame.drop offset).take len := by
    rw [List.drop_append_of_le_length (by rw [List.length_take]; omega)]
    have : (frame.take offset).drop offset = [] := by
      apply List.drop_eq_nil_of_le
      rw [List.length_take]; omega
    rw [this, List.nil_append, List.take_append_of_le_length (by rw [hsl])]
    rw [List.take_take]
    simp
  rw [h1, h2, ← List.take_add]

namespace D6t32l

theorem chunk_loop_frame (frame : List Nat) (hfl : frame.length = 2051)
    (hfb : ∀ b ∈ frame, b < 256) (k n : Nat) : ∀ (fuel j : Nat) (buf : List Nat)
    (tr : List Event), j + n = 9 → n + 1 ≤ fuel → buf.length = 2051 →
    buf.take (min (256 * j) 2051) = frame.take (min (256 * j) 2051) →
    chunk_loop (frame_bus frame k) fuel j (min (256 * j) 2051) buf tr
      = some (false, frame, tr ++ full_read_events.drop j) := by
  induction n with
  | zero =>
    intro fuel j buf tr hj hfuel hbl hpre
    obtain ⟨f, rfl⟩ : ∃ f, fuel = f + 1 := ⟨fuel - 1, by omega⟩
    have hj9 : j = 9 := by omega
    subst hj9
    have hbuf : buf = frame := by
      have h1 : buf.take 2051 = buf := List.take_of_length_le (by omega)
      have h2 : frame.take 2051 = frame := List.take_of_length_le (by omega)
      rw [show min (256 * 9) 2051 = 2051 by decide, h1, h2] at hpre
      exact hpre
    subst hbuf
    simp [chunk_loop, full_read_events, full_read_chunks]
  | succ n ih =>
    intro fuel j buf tr hj hfuel hbl hpre
    obtain ⟨f, rfl⟩ : ∃ f, fuel = f + 1 := ⟨fuel - 1, by omega⟩
    have hoff : min (256 * j) 2051 = 256 * j := by omega
    have hlt : 256 * j < 2051 := by omega
    have hnext : 256 * j + min 256 (2051 - 256 * j) = min (256 * (j + 1)) 2051 := by omega
    have hret : ¬ (((frame_bus frame k).recv j).ret < 0) := by
      simp only [frame_bus]
      omega
    have hrx : (((frame_bus frame k).recv j).rx.take (min 256 (2051 - 256 * j))).map
        (fun b => b % 256) = (frame.drop (256 * j)).take (min 256 (2051 - 256 * j)) := by
      simp only [frame_bus]
      rw [List.take_take, Nat.min_self]
      exact map_mod_256_of_bytes _
        (fun b hb => hfb b (List.mem_of_mem_drop (List.mem_of_mem_take hb)))
    rw [hoff] at hpre ⊢
    have hpre' := store_at_take_prefix buf frame (256 * j) (min 256 (2051 - 256 * j))
      (by omega) (by omega) hpre
    rw [hnext] at hpre'
    have h1 := ih f (j + 1)
      (store_at buf (256 * j) ((frame.drop (256 * j)).take (min 256 (2051 - 256 * j))))
      (tr ++ [Event.i2c_master_recv (256 * j) (min 256 (2051 - 256 * j))])
      (by omega) (by omega) (by rw [D6tFull.length_store_at]; exact hbl) hpre'
    simp only [chunk_loop, hlt, hret, if_true, if_false, hrx, hnext, h1]
    rw [full_read_events_drop j (by omega), List.append_assoc, List.singleton_append]

theorem d6t_read_helper_frame (frame : List Nat) (hfl : frame.length = 2051)
    (hfb : ∀ b ∈ frame, b < 256) (fill : Nat → Nat) (raw : List Nat) :
    d6t_read_helper (some fill) raw (frame_bus frame)
      = some (0, unpack_loop frame 2050 0 raw,
          [Event.msleep 200, Event.i2c_smbus_write_byte 0x4D] ++ full_read_events) := by
  have hw : ¬ ((frame_bus frame 0).write_ret < 0) := by
    simp only [frame_bus]
    decide
  have h1 := chunk_loop_frame frame hfl hfb 0 9 2051 0 ((List.range 2051).map fill)
    ([] ++ [Event.msleep 200, Event.i2c_smbus_write_byte 0x4D]) (by omega) (by omega)
    (by simp) (by simp)
  rw [show min (256 * 0) 2051 = 0 by decide, List.drop_zero] at h1
  simp only [d6t_read_helper, kmalloc, KPtr.deref]
  rw [show (10 : Nat) = 9 + 1 by rfl]
  simp only [retry_loop, hw, if_false, h1]
  rfl

end D6t32l

namespace D6t32l

theorem unpack_loop_congr (buf buf1 : List Nat)
    (h : ∀ x, x < 2050 → buf.getD x 0 = buf1.getD x 0) (fuel : Nat) :
    ∀ (k : Nat) (raw : List Nat),
      unpack_loop buf fuel (2 * k) raw = unpack_loop buf1 fuel (2 * k) raw := by
  induction fuel with
  | zero => intro k raw; rfl
  | succ fuel ih =>
    intro k raw
    by_cases hi : 2 * k < 2050
    · have hstep : 2 * k + 2 = 2 * (k + 1) := by omega
      simp only [unpack_loop, hi, if_true, h (2 * k) hi, h (2 * k + 1) (by omega), hstep, ih]
    · simp only [unpack_loop, hi, if_false]

theorem unpack_loop_spec (buf : List Nat) (fuel : Nat) : ∀ (k : Nat) (raw : List Nat),
    1025 ≤ k + fuel →
    (unpack_loop buf fuel (2 * k) raw).length = raw.length
    ∧ ∀ j, (unpack_loop buf fuel (2 * k) raw)[j]?
        = if k ≤ j ∧ j < 1025 ∧ j < raw.length then
            some (((buf.getD (2 * j + 1) 0 <<< 8) ||| buf.getD (2 * j) 0) % 65536)
          else raw[j]? := by
  induction fuel with
  | zero =>
    intro k raw hk
    refine ⟨rfl, fun j => ?_⟩
    have : ¬ (k ≤ j ∧ j < 1025 ∧ j < raw.length) := by omega
    rw [if_neg this, unpack_loop]
  | succ fuel ih =>
    intro k raw hk
    by_cases hlt : 2 * k < 2050
    · obtain ⟨hl, hget⟩ := ih (k + 1)
        (raw.set (2 * k / 2) (((buf.getD (2 * k + 1) 0 <<< 8) ||| buf.getD (2 * k) 0) % 65536))
        (by omega)
      have hdiv : 2 * k / 2 = k := by omega
      have hstep : 2 * k + 2 = 2 * (k + 1) := by omega
      simp only [unpack_loop, hlt, if_true, hstep]
      refine ⟨by rw [hl]; simp, fun j => ?_⟩
      rw [hget j]
      simp only [List.length_set, List.getElem?_set, hdiv]
      by_cases hkj : k = j
      · subst hkj
        by_cases hlen : k < raw.length
        · have h1 : ¬ (k + 1 ≤ k ∧ k < 1025 ∧ k < raw.length) := by omega
          have h2 : k ≤ k ∧ k < 1025 ∧ k < raw.length := ⟨le_refl _, by omega, hlen⟩
          simp [h1, h2, hlen]
        · have h1 : ¬ (k + 1 ≤ k ∧ k < 1025 ∧ k < raw.length) := by omega
          have h2 : ¬ (k ≤ k ∧ k < 1025 ∧ k < raw.length) := by omega
          have h3 : raw[k]? = none := List.getElem?_eq_none (by omega)
          simp [h1, h2, hlen, h3]
      · by_cases hc : k + 1 ≤ j ∧ j < 1025 ∧ j < raw.length
        · have h2 : k ≤ j ∧ j < 1025 ∧ j < raw.length := by omega
          simp [hc, h2]
        · have h2 : ¬ (k ≤ j ∧ j < 1025 ∧ j < raw.length) := by omega
          simp [hc, h2, hkj]
    · refine ⟨by simp only [unpack_loop, hlt, if_false], fun j => ?_⟩
      have : ¬ (k ≤ j ∧ j < 1025 ∧ j < raw.length) := by omega
      rw [if_neg this]
      simp only [unpack_loop, hlt, if_false]

end D6t32l

namespace D6tFull

set_option maxRecDepth 1000000 in
theorem d6t_crc8_zero_zero : d6t_crc8 0 0 = 0 := by decide

theorem foldl_crc8_zeros_ne_zero (n : Nat) : ∀ c, c < 256 → c ≠ 0 →
    List.foldl d6t_crc8 c (List.replicate n 0) ≠ 0 := by
  induction n with
  | zero => intro c _ hne; simpa using hne
  | succ n ih =>
    intro c hc hne
    rw [List.replicate_succ, List.foldl_cons]
    apply ih _ (d6t_crc8_lt _ _)
    intro h0
    apply hne
    exact d6t_crc8_inj_crc hc (by decide) (by decide) (h0.trans d6t_crc8_zero_zero.symm)

theorem read_address_byte_ne_zero (addr : Nat) :
    read_address_byte addr < 256 ∧ read_address_byte addr ≠ 0 := by
  unfold read_address_byte
  have h : (addr <<< 1) ||| 1 = 2 ^ 1 * addr + 1 := by
    rw [Nat.shiftLeft_eq, Nat.mul_comm, Nat.mul_add_lt_is_or (by decide)]
  rw [h]
  constructor <;> omega

theorem zero_frame_rejected (addr n_read : Nat) (h1 : 1 ≤ n_read) (hu : n_read < 65536) :
    d6t_checkPEC addr n_read (List.replicate n_read 0) = true := by
  rw [d6t_checkPEC_eq addr n_read _ h1 hu (by simp)]
  obtain ⟨hlt, hne⟩ := read_address_byte_ne_zero addr
  have hseed : d6t_crc8 0 (read_address_byte addr) ≠ 0 := by
    intro h0
    exact hne (d6t_crc8_inj_data (by decide) hlt (by decide) (h0.trans d6t_crc8_zero_zero.symm))
  have hpec := foldl_crc8_zeros_ne_zero (n_read - 1) _ (d6t_crc8_lt _ _) hseed
  have htake : (List.replicate n_read 0).take (n_read - 1) = List.replicate (n_read - 1) 0 := by
    rw [List.take_replicate]
    congr 1
    omega
  have hget : (List.replicate n_read 0).getD (n_read - 1) 0 = 0 := by
    have hpos : 0 < n_read := by omega
    simp [List.getD_eq_getElem?_getD, List.getElem?_replicate, hpos]
  rw [htake, hget]
  unfold compute_pec
  simpa using hpec

end D6tFull

theorem D6t.d6t_read_helper_ok (r0 r1 : Nat) (junk : Nat → Nat) (write_ret recv_ret : Int)
    (b0 b1 b2 b3 b4 : Nat) (hw : 0 ≤ write_ret) (hr : 0 ≤ recv_ret)
    (h0 : b0 < 256) (h1 : b1 < 256) (h2 : b2 < 256) (h3 : b3 < 256) :
    D6t.d6t_read_helper [r0, r1] junk write_ret ⟨recv_ret, [b0, b1, b2, b3, b4]⟩
      = ((0 : Int), [b0 ||| (b1 <<< 8), b2 ||| (b3 <<< 8)],
          [Event.i2c_smbus_write_byte 0x4C, Event.msleep 200, Event.i2c_master_recv 0 5]) := by
  have hw' : ¬ write_ret < 0 := by omega
  have hr' : ¬ recv_ret < 0 := by omega
  simp [D6t.d6t_read_helper, hw', hr', store_at, Nat.mod_eq_of_lt h0, Nat.mod_eq_of_lt h1,
    Nat.mod_eq_of_lt h2, Nat.mod_eq_of_lt h3, D6tFull.le_pair_u16 h0 h1,
    D6tFull.le_pair_u16 h2 h3]

set_option maxRecDepth 1000000 in
theorem D6tFull.d6t_checkPEC_rejects_bad_trailer_5 :
    D6tFull.d6t_checkPEC 0x0A 5 [0x10, 0x01, 0x20, 0x01, 0x00] = true := by
  decide

/-- C19 as stated fails: both read helpers return success with samples for a frame whose
trailer is wrong.  `d6t_read_helper` of `d6t.c` decodes the frame `10 01 20 01 00`, and
`d6t_read_helper` of `d6t32l.c` the 2051-byte frame of zeros, although `d6t_checkPEC` rejects
both frames (bus address 0x0A). -/
theorem read_helpers_accept_wrong_trailer :
    D6tFull.d6t_checkPEC 0x0A 5 [0x10, 0x01, 0x20, 0x01, 0x00] = true
    ∧ D6t.d6t_read_helper [0, 0] (fun _ => 0) 0 ⟨5, [0x10, 0x01, 0x20, 0x01, 0x00]⟩
        = ((0 : Int), [0x0110, 0x0120],
            [Event.i2c_smbus_write_byte 0x4C, Event.msleep 200, Event.i2c_master_recv 0 5])
    ∧ D6tFull.d6t_checkPEC 0x0A 2051 (List.replicate 2051 0) = true
    ∧ D6t32l.d6t_read_helper (some fun _ => 0) (List.replicate 1025 0)
          (D6t32l.frame_bus (List.replicate 2051 0))
        = some (0, D6t32l.unpack_loop (List.replicate 2051 0) 2050 0 (List.replicate 1025 0),
            [Event.msleep 200, Event.i2c_smbus_write_byte 0x4D] ++ D6t32l.full_read_events) := by
  refine ⟨?_, ?_, D6tFull.zero_frame_rejected 0x0A 2051 (by decide) (by decide), ?_⟩
  · exact D6tFull.d6t_checkPEC_rejects_bad_trailer_5
  · exact D6t.d6t_read_helper_ok 0 0 (fun _ => 0) 0 5 0x10 0x01 0x20 0x01 0x00 (by decide)
      (by decide) (by decide) (by decide) (by decide) (by decide)
  · exact D6t32l.d6t_read_helper_frame (List.replicate 2051 0) (List.length_replicate _ _)
      (fun b hb => by rw [List.eq_of_mem_replicate hb]; decide) (fun _ => 0)
      (List.replicate 1025 0)

/-- C19 amended: the read helpers of `d6t32l.c` and `d6t.c` do not verify the frame.
Whenever the command write and the bulk reads succeed, `d6t_read_helper` returns 0 with the
samples decoded little-endian from the received bytes (1025 samples from bytes 0..2049, resp.
2 samples from bytes 0..3); the trailer byte (byte 2050, resp. byte 4) is never read, so the
result is the same whatever its value. -/
theorem read_helpers_do_not_verify (frame : List Nat) (hfl : frame.length = 2051)
    (hfb : ∀ b ∈ frame, b < 256) (fill : Nat → Nat) (raw : List Nat) (hraw : raw.length = 1025)
    (r0 r1 : Nat) (junk : Nat → Nat) (write_ret recv_ret : Int) (b0 b1 b2 b3 : Nat)
    (hw : 0 ≤ write_ret) (hr : 0 ≤ recv_ret)
    (h0 : b0 < 256) (h1 : b1 < 256) (h2 : b2 < 256) (h3 : b3 < 256) :
    (∃ decoded : List Nat,
      decoded.length = 1025
      ∧ (∀ i, i < 1025 → ∃ lo hi, frame[2 * i]? = some lo ∧ frame[2 * i + 1]? = some hi
          ∧ decoded[i]? = some (lo ||| (hi <<< 8)))
      ∧ ∀ t : Nat, t < 256 →
          D6t32l.d6t_read_helper (some fill) raw (D6t32l.frame_bus (frame.set 2050 t))
            = some (0, decoded,
                [Event.msleep 200, Event.i2c_smbus_write_byte 0x4D]
                  ++ D6t32l.full_read_events))
    ∧ (∀ b4 : Nat,
        D6t.d6t_read_helper [r0, r1] junk write_ret ⟨recv_ret, [b0, b1, b2, b3, b4]⟩
          = ((0 : Int), [b0 ||| (b1 <<< 8), b2 ||| (b3 <<< 8)],
              [Event.i2c_smbus_write_byte 0x4C, Event.msleep 200,
               Event.i2c_master_recv 0 5])) := by
  refine ⟨⟨D6t32l.unpack_loop frame 2050 0 raw, ?_, ?_, ?_⟩, ?_⟩
  · have h := (D6t32l.unpack_loop_spec frame 2050 0 raw (by omega)).1
    rw [Nat.mul_zero] at h
    rw [h, hraw]
  · intro i hi
    have h := (D6t32l.unpack_loop_spec frame 2050 0 raw (by omega)).2 i
    rw [Nat.mul_zero] at h
    have hc : 0 ≤ i ∧ i < 1025 ∧ i < raw.length := by omega
    have hi0 : 2 * i < frame.length := by omega
    have hi1 : 2 * i + 1 < frame.length := by omega
    refine ⟨frame[2 * i], frame[2 * i + 1], List.getElem?_eq_getElem hi0,
      List.getElem?_eq_getElem hi1, ?_⟩
    rw [h, if_pos hc]
    simp only [List.getD_eq_getElem?_getD, List.getElem?_eq_getElem hi0,
      List.getElem?_eq_getElem hi1, Option.getD_some]
    rw [D6tFull.le_pair_u16 (hfb _ (List.getElem_mem hi0)) (hfb _ (List.getElem_mem hi1))]
  · intro t ht
    have hfl' : (frame.set 2050 t).length = 2051 := by rw [List.length_set, hfl]
    have hfb' : ∀ b ∈ frame.set 2050 t, b < 256 := by
      intro b hb
      rcases List.mem_or_eq_of_mem_set hb with h | h
      · exact hfb b h
      · rw [h]; exact ht
    rw [D6t32l.d6t_read_helper_frame (frame.set 2050 t) hfl' hfb' fill raw]
    have hcongr := D6t32l.unpack_loop_congr (frame.set 2050 t) frame
      (fun x hx => by
        rw [List.getD_eq_getElem?_getD, List.getD_eq_getElem?_getD,
          List.getElem?_set_ne (by omega)]) 2050 0 raw
    rw [Nat.mul_zero] at hcongr
    rw [hcongr]
  · intro b4
    exact D6t.d6t_read_helper_ok r0 r1 junk write_ret recv_ret b0 b1 b2 b3 b4 hw hr h0 h1 h2 h3

/-- Witness for amended C19: the frame of zeros for `d6t32l.c`, the bytes `10 01 20 01` for
`d6t.c`, with an arbitrary trailer. -/
theorem read_helpers_do_not_verify_witness :
    (∃ decoded : List Nat,
      decoded.length = 1025
      ∧ (∀ i, i < 1025 → ∃ lo hi, (List.replicate 2051 0)[2 * i]? = some lo
          ∧ (List.replicate 2051 0)[2 * i + 1]? = some hi
          ∧ decoded[i]? = some (lo ||| (hi <<< 8)))
      ∧ ∀ t : Nat, t < 256 →
          D6t32l.d6t_read_helper (some fun _ => 0) (List.replicate 1025 0)
              (D6t32l.frame_bus ((List.replicate 2051 0).set 2050 t))
            = some (0, decoded,
                [Event.msleep 200, Event.i2c_smbus_write_byte 0x4D]
                  ++ D6t32l.full_read_events))
    ∧ (∀ b4 : Nat,
        D6t.d6t_read_helper [0, 0] (fun _ => 0) 0 ⟨5, [0x10, 0x01, 0x20, 0x01, b4]⟩
          = ((0 : Int), [0x10 ||| (0x01 <<< 8), 0x20 ||| (0x01 <<< 8)],
              [Event.i2c_smbus_write_byte 0x4C, Event.msleep 200,
               Event.i2c_master_recv 0 5])) :=
  read_helpers_do_not_verify (List.replicate 2051 0) (List.length_replicate _ _)
    (fun b hb => by rw [List.eq_of_mem_replicate hb]; decide) (fun _ => 0)
    (List.replicate 1025 0) (List.length_replicate _ _) 0 0 (fun _ => 0) 0 5
    0x10 0x01 0x20 0x01 (by decide) (by decide) (by decide) (by decide) (by decide) (by decide)

/-! ## Sample buffer after a verification failure -/

namespace D6tFull

set_option maxRecDepth 1000000 in
theorem read_stale_bad_trailer :
    d6t_read (some d6t01a_session_stale) (some (i2c_client.mk 0x0A)) 0 xbus_bad_trailer 0
      = some ⟨-EIO_code,
          some { d6t01a_session_stale with buf := KPtr.live [0x10, 0x01, 0x20, 0x01, 0x00] },
          0, [],
          [Event.mutex_lock, Event.i2c_transfer 0x0A 0x4C 5, Event.mutex_unlock]⟩ := by
  decide

set_option maxRecDepth 1000000 in
theorem ioctl_stale_bad_trailer :
    d6t_ioctl_READ_RAW (some d6t01a_session_stale) (some (i2c_client.mk 0x0A))
        xbus_bad_trailer 0
      = some ⟨-EIO_code,
          some { d6t01a_session_stale with buf := KPtr.live [0x10, 0x01, 0x20, 0x01, 0x00] },
          0, [],
          [Event.mutex_lock, Event.i2c_transfer 0x0A 0x4C 5, Event.mutex_unlock]⟩ := by
  decide

/-- C20 as stated fails: on the ready "d6t01a" session whose sample buffer still holds the
samples 0x1234, 0x5678 of an earlier frame, a read that receives a frame with a wrong trailer
returns `-EIO` and leaves these two samples in `raw`; the buffer is not wiped. -/
theorem pec_failure_does_not_wipe_samples :
    d6t_read (some d6t01a_session_stale) (some (i2c_client.mk 0x0A)) 0 xbus_bad_trailer 0
      = some ⟨-EIO_code,
          some { d6t_info := some tbl_D6T_01A, buf := KPtr.live [0x10, 0x01, 0x20, 0x01, 0x00],
                 raw := KPtr.live [0x1234, 0x5678], n_read := 5, n_raw_data := 2 },
          0, [],
          [Event.mutex_lock, Event.i2c_transfer 0x0A 0x4C 5, Event.mutex_unlock]⟩
    ∧ d6t_ioctl_READ_RAW (some d6t01a_session_stale) (some (i2c_client.mk 0x0A))
          xbus_bad_trailer 0
      = some ⟨-EIO_code,
          some { d6t_info := some tbl_D6T_01A, buf := KPtr.live [0x10, 0x01, 0x20, 0x01, 0x00],
                 raw := KPtr.live [0x1234, 0x5678], n_read := 5, n_raw_data := 2 },
          0, [],
          [Event.mutex_lock, Event.i2c_transfer 0x0A 0x4C 5, Event.mutex_unlock]⟩
    ∧ (KPtr.live [0x1234, 0x5678] : KPtr Nat) ≠ KPtr.live [0, 0] :=
  ⟨read_stale_bad_trailer, ioctl_stale_bad_trailer, by decide⟩

/-- C20 amended: when frame verification fails in `d6t_read` / `D6T_IOC_READ_RAW`, the call
returns `-EIO`, copies nothing out, and leaves the session's sample buffer `raw` exactly as it
was before the call (neither wiped nor updated); of the session only the byte buffer changes,
which holds the rejected frame. -/
theorem pec_failure_keeps_sample_buffer (d : d6t_data) (info : d6t_info)
    (cells samples : List Nat) (c : i2c_client) (ppos : Int) (bus : Nat → Xfer) (uncopied : Nat)
    (hinfo : d.d6t_info = some info) (hbuf : d.buf = KPtr.live cells)
    (hraw : d.raw = KPtr.live samples) (hlen : d.n_read ≤ cells.length) (hpos : ppos ≤ 0)
    (hret : (bus 0).ret = 2)
    (hpec : d6t_checkPEC c.addr d.n_read (received_frame cells d.n_read (bus 0)) = true) :
    d6t_read (some d) (some c) ppos bus uncopied
      = some ⟨-EIO_code,
          some { d6t_info := d.d6t_info,
                 buf := KPtr.live (received_frame cells d.n_read (bus 0)),
                 raw := KPtr.live samples, n_read := d.n_read, n_raw_data := d.n_raw_data },
          ppos, [],
          [Event.mutex_lock, Event.i2c_transfer c.addr info.command d.n_read,
           Event.mutex_unlock]⟩
    ∧ d6t_ioctl_READ_RAW (some d) (some c) bus uncopied
      = some ⟨-EIO_code,
          some { d6t_info := d.d6t_info,
                 buf := KPtr.live (received_frame cells d.n_read (bus 0)),
                 raw := KPtr.live samples, n_read := d.n_read, n_raw_data := d.n_raw_data },
          0, [],
          [Event.mutex_lock, Event.i2c_transfer c.addr info.command d.n_read,
           Event.mutex_unlock]⟩ := by
  obtain ⟨h1, h2⟩ := read_pec_mismatch d info cells samples c ppos bus uncopied hinfo hbuf hraw
    hlen hpos hret hpec
  rw [h1, h2, hraw]
  exact ⟨rfl, rfl⟩

set_option maxRecDepth 1000000 in
theorem frame5_bad_trailer_received_rejected :
    d6t_checkPEC (i2c_client.mk 0x0A).addr d6t01a_session_stale.n_read
      (received_frame [0, 0, 0, 0, 0] d6t01a_session_stale.n_read (xbus_bad_trailer 0))
        = true := by
  decide

/-- Witness for amended C20: the stale "d6t01a" session and the frame with trailer `00`. -/
theorem pec_failure_keeps_sample_buffer_witness :
    d6t_read (some d6t01a_session_stale) (some (i2c_client.mk 0x0A)) 0 xbus_bad_trailer 0
      = some ⟨-EIO_code,
          some { d6t_info := d6t01a_session_stale.d6t_info,
                 buf := KPtr.live (received_frame [0, 0, 0, 0, 0] d6t01a_session_stale.n_read
                          (xbus_bad_trailer 0)),
                 raw := KPtr.live [0x1234, 0x5678], n_read := d6t01a_session_stale.n_read,
                 n_raw_data := d6t01a_session_stale.n_raw_data },
          0, [],
          [Event.mutex_lock,
           Event.i2c_transfer (i2c_client.mk 0x0A).addr tbl_D6T_01A.command
             d6t01a_session_stale.n_read,
           Event.mutex_unlock]⟩ :=
  (pec_failure_keeps_sample_buffer d6t01a_session_stale tbl_D6T_01A [0, 0, 0, 0, 0]
    [0x1234, 0x5678] (i2c_client.mk 0x0A) 0 xbus_bad_trailer 0 rfl rfl rfl (by decide)
    (by decide) rfl frame5_bad_trailer_received_rejected).1

end D6tFull

/-! ## Register write of `d6t_core.c`: theorems -/

namespace D6tCore

/-- C22: `d6t_write` of `d6t_core.c` does not behave as its header comment states.  For every
input its second store is `data[2] = value`, past the end of the two-byte staging array; the
array as the first store leaves it holds `reg` followed by the indeterminate second cell, and
that is what lines 169-173 hand to the transport (returning 1 on a short send); and when the
transport reports 2 bytes sent the function reaches its closing brace without returning 0. -/
theorem d6t_write_stores_past_the_staging_array :
    (∀ (c : i2c_client) (reg value junk0 junk1 : Nat) (send_ret : Int),
        d6t_write c reg value junk0 junk1 send_ret
          = Except.error (c_fault.out_of_bounds 2 2))
    ∧ (∀ reg junk0 junk1 : Nat,
        array_store [junk0 % 256, junk1 % 256] 0 (reg % 256)
          = Except.ok [reg % 256, junk1 % 256])
    ∧ (∀ (c : i2c_client) (reg junk1 : Nat) (send_ret : Int), send_ret ≠ 2 →
        d6t_write_send c [reg % 256, junk1 % 256] send_ret
          = Except.ok (1, [Event.i2c_master_send c.addr [reg % 256, junk1 % 256]]))
    ∧ (∀ (c : i2c_client) (data : List Nat),
        d6t_write_send c data 2 = Except.error c_fault.no_return_value)
    ∧ d6t_write ⟨0x0A⟩ 0x01 0x05 0 0 2 = Except.error (c_fault.out_of_bounds 2 2) := by
  refine ⟨?_, ?_, ?_, ?_, ?_⟩
  · intro c reg value junk0 junk1 send_ret
    simp [d6t_write, array_store]
  · intro reg junk0 junk1
    simp [array_store]
  · intro c reg junk1 send_ret h
    simp [d6t_write_send, h]
  · intro c data
    simp [d6t_write_send]
  · simp [d6t_write, array_store]

end D6tCore

/-! ## Agreement of the two checksum implementations -/

set_option maxRecDepth 1000000 in
theorem D6tCore.calc_crc_loop_eq_crc8_loop :
    ∀ x < 256, D6tCore.calc_crc_loop 8 x = D6tFull.crc8_loop 8 x := by
  decide

theorem D6tCore.calc_crc_xor (crc byte : Nat) :
    D6tCore.calc_crc (crc ^^^ byte) = D6tFull.d6t_crc8 crc byte := by
  unfold D6tCore.calc_crc D6tFull.d6t_crc8
  exact D6tCore.calc_crc_loop_eq_crc8_loop _ (Nat.mod_lt _ (by decide))

theorem D6tCore.pec_loop_eq_full (buf : List Nat) (k : Nat) : ∀ i crc : Nat,
    D6tCore.pec_loop buf k i crc = D6tFull.pec_loop buf k i crc := by
  induction k with
  | zero => intro i crc; rfl
  | succ k ih =>
    intro i crc
    rw [D6tCore.pec_loop, D6tFull.pec_loop, ih, Nat.xor_comm, D6tCore.calc_crc_xor,
      Nat.mod_eq_of_lt (D6tFull.d6t_crc8_lt _ _)]

theorem D6tCore.seed_eq_full (addr : Nat) :
    D6tCore.calc_crc ((addr <<< 1) ||| 1) % 256
      = D6tFull.d6t_crc8 0 (((addr <<< 1) ||| 1) % 256) := by
  have h : D6tCore.calc_crc ((addr <<< 1) ||| 1)
      = D6tFull.d6t_crc8 0 (((addr <<< 1) ||| 1) % 256) := by
    unfold D6tCore.calc_crc D6tFull.d6t_crc8
    rw [Nat.zero_xor, Nat.mod_mod]
    exact D6tCore.calc_crc_loop_eq_crc8_loop _ (Nat.mod_lt _ (by decide))
  rw [h, Nat.mod_eq_of_lt (D6tFull.d6t_crc8_lt _ _)]

/-- C26: the checksum routines of `d6t_core.c` and `d6t_full.c` agree.  `calc_crc(crc ^ byte)`
equals `d6t_crc8(crc, byte)` for all values; for every bus address, frame length and buffer
the checksum `d6t_checkPEC` of `d6t_core.c` accumulates equals the one `d6t_checkPEC` of
`d6t_full.c` accumulates; each function returns non-zero exactly when that checksum differs
from the trailer byte, so the two verdicts coincide. -/
theorem checksum_implementations_agree :
    (∀ crc byte : Nat, D6tCore.calc_crc (crc ^^^ byte) = D6tFull.d6t_crc8 crc byte)
    ∧ ∀ (addr n_read : Nat) (buf : List Nat),
        D6tCore.pec_loop buf ((n_read + 2 ^ 32 - 1) % 2 ^ 32) 0
            (D6tCore.calc_crc ((addr <<< 1) ||| 1) % 256)
          = D6tFull.pec_loop buf ((n_read + 2 ^ 32 - 1) % 2 ^ 32) 0
              (D6tFull.d6t_crc8 0 (((addr <<< 1) ||| 1) % 256))
        ∧ (D6tCore.d6t_checkPEC addr n_read buf ≠ 0 ↔
            D6tCore.pec_loop buf ((n_read + 2 ^ 32 - 1) % 2 ^ 32) 0
                (D6tCore.calc_crc ((addr <<< 1) ||| 1) % 256)
              ≠ buf.getD ((n_read + 2 ^ 32 - 1) % 2 ^ 32) 0)
        ∧ (D6tFull.d6t_checkPEC addr n_read buf = true ↔
            D6tFull.pec_loop buf ((n_read + 2 ^ 32 - 1) % 2 ^ 32) 0
                (D6tFull.d6t_crc8 0 (((addr <<< 1) ||| 1) % 256))
              ≠ buf.getD ((n_read + 2 ^ 32 - 1) % 2 ^ 32) 0)
        ∧ (D6tCore.d6t_checkPEC addr n_read buf ≠ 0 ↔
            D6tFull.d6t_checkPEC addr n_read buf = true) := by
  refine ⟨D6tCore.calc_crc_xor, ?_⟩
  intro addr n_read buf
  have hsum : D6tCore.pec_loop buf ((n_read + 2 ^ 32 - 1) % 2 ^ 32) 0
        (D6tCore.calc_crc ((addr <<< 1) ||| 1) % 256)
      = D6tFull.pec_loop buf ((n_read + 2 ^ 32 - 1) % 2 ^ 32) 0
          (D6tFull.d6t_crc8 0 (((addr <<< 1) ||| 1) % 256)) := by
    rw [D6tCore.seed_eq_full, D6tCore.pec_loop_eq_full]
  have hcore : D6tCore.d6t_checkPEC addr n_read buf ≠ 0 ↔
      D6tCore.pec_loop buf ((n_read + 2 ^ 32 - 1) % 2 ^ 32) 0
          (D6tCore.calc_crc ((addr <<< 1) ||| 1) % 256)
        ≠ buf.getD ((n_read + 2 ^ 32 - 1) % 2 ^ 32) 0 := by
    unfold D6tCore.d6t_checkPEC
    simp only []
    split <;> simp_all
  have hfull : D6tFull.d6t_checkPEC addr n_read buf = true ↔
      D6tFull.pec_loop buf ((n_read + 2 ^ 32 - 1) % 2 ^ 32) 0
          (D6tFull.d6t_crc8 0 (((addr <<< 1) ||| 1) % 256))
        ≠ buf.getD ((n_read + 2 ^ 32 - 1) % 2 ^ 32) 0 := by
    unfold D6tFull.d6t_checkPEC
    simp only [bne_iff_ne]
  exact ⟨hsum, hcore, hfull, by rw [hcore, hfull, hsum]⟩

/-! ## A zeroed buffer is not a frame -/

namespace D6tFull

theorem store_at_nil (dst : List Nat) : store_at dst 0 [] = dst := by
  simp [store_at]

theorem read_address_byte_odd (addr : Nat) : read_address_byte addr % 2 = 1 := by
  unfold read_address_byte
  have h : (addr <<< 1) ||| 1 = 2 ^ 1 * addr + 1 := by
    rw [Nat.shiftLeft_eq, Nat.mul_comm, Nat.mul_add_lt_is_or (by decide)]
  rw [h]
  omega

theorem d6t_crc8_zero_byte_ne_zero (crc : Nat) (hc : crc < 256) (hne : crc ≠ 0) :
    d6t_crc8 crc 0 ≠ 0 := by
  intro h0
  exact hne (d6t_crc8_inj_crc hc (by decide) (by decide) (h0.trans d6t_crc8_zero_zero.symm))

/-- C25: a zeroed buffer is never accepted as a frame.  For every bus address and every frame
length `n_read >= 1` (a `u16`), `d6t_checkPEC` rejects a buffer of at least `n_read` bytes
that are all zero: the read-address byte is odd, `d6t_crc8` maps a non-zero running checksum
folded with a zero byte to a non-zero checksum, so the computed PEC is not the zero trailer.
This is the state `d6t_get_frame` leaves when the adapter delivered no byte. -/
theorem zero_buffer_is_never_accepted (addr n_read : Nat) (buf : List Nat)
    (h1 : 1 ≤ n_read) (hu : n_read < 65536) (hlen : n_read ≤ buf.length)
    (hzero : ∀ b ∈ buf, b = 0) :
    d6t_checkPEC addr n_read buf = true
    ∧ read_address_byte addr % 2 = 1
    ∧ (∀ crc, crc < 256 → crc ≠ 0 → d6t_crc8 crc 0 ≠ 0)
    ∧ (∀ (cells : List Nat) (x : Xfer), cells.length = n_read → x.rx = [] →
        received_frame cells n_read x = List.replicate n_read 0
        ∧ d6t_checkPEC addr n_read (received_frame cells n_read x) = true) := by
  have hn : (n_read + 2 ^ 32 - 1) % 2 ^ 32 = n_read - 1 := n_read_pred_u32 h1 hu
  refine ⟨?_, read_address_byte_odd addr, d6t_crc8_zero_byte_ne_zero, ?_⟩
  · obtain ⟨hlt, hne⟩ := read_address_byte_ne_zero addr
    have hseed : d6t_crc8 0 (read_address_byte addr) ≠ 0 := by
      intro h0
      exact hne (d6t_crc8_inj_data (by decide) hlt (by decide) (h0.trans d6t_crc8_zero_zero.symm))
    have hpec := foldl_crc8_zeros_ne_zero (n_read - 1) _ (d6t_crc8_lt _ _) hseed
    have htake : (buf.drop 0).take (n_read - 1) = List.replicate (n_read - 1) 0 :=
      List.eq_replicate_iff.mpr
        ⟨by rw [List.drop_zero, List.length_take]; omega,
         fun b hb => hzero b (List.mem_of_mem_take hb)⟩
    have hp1 : n_read - 1 < buf.length := by omega
    have hget : buf.getD (n_read - 1) 0 = 0 := by
      rw [List.getD_eq_getElem?_getD, List.getElem?_eq_getElem hp1, Option.getD_some]
      exact hzero _ (List.getElem_mem _)
    unfold d6t_checkPEC
    simp only [hn]
    rw [pec_loop_eq_foldl _ _ 0 _ (by omega), htake, hget, bne_iff_ne]
    exact hpec
  · intro cells x hcl hrx
    have hfr : received_frame cells n_read x = List.replicate n_read 0 := by
      unfold received_frame
      rw [hrx, List.take_nil, List.map_nil, store_at_nil, store_at_replicate_all cells n_read hcl]
    exact ⟨hfr, hfr ▸ zero_frame_rejected addr n_read h1 hu⟩

/-- C25 at bus address 0x0A on the five zero bytes of an untouched "d6t01a" buffer. -/
theorem zero_buffer_is_never_accepted_witness :
    d6t_checkPEC 0x0A 5 [0, 0, 0, 0, 0] = true
    ∧ read_address_byte 0x0A % 2 = 1
    ∧ (∀ crc, crc < 256 → crc ≠ 0 → d6t_crc8 crc 0 ≠ 0)
    ∧ (∀ (cells : List Nat) (x : Xfer), cells.length = 5 → x.rx = [] →
        received_frame cells 5 x = List.replicate 5 0
        ∧ d6t_checkPEC 0x0A 5 (received_frame cells 5 x) = true) :=
  zero_buffer_is_never_accepted 0x0A 5 [0, 0, 0, 0, 0] (by decide) (by decide) (by decide)
    (by decide)

end D6tFull

/-! ## Decode stays inside the frame -/

theorem getD_eq_getElem_of_lt (l : List Nat) (j : Nat) (h : j < l.length) :
    l.getD j 0 = l[j] := by
  rw [List.getD_eq_getElem?_getD, List.getElem?_eq_getElem h, Option.getD_some]

theorem D6tFull.convert_loop_checked_spec (k : Nat) :
    ∀ (i : Nat) (m : D6tFull.frame_mem) (rd wr : List Nat),
      2 * (i + k) ≤ m.buf.length → i + k ≤ m.raw.length →
      ∃ rd1 wr1,
        D6tFull.convert_loop_checked k i m rd wr
          = some (D6tFull.convert_loop k i m, rd ++ rd1, wr ++ wr1)
        ∧ (∀ j ∈ rd1, j < 2 * (i + k)) ∧ (∀ j ∈ wr1, j < i + k)
        ∧ rd1.length = 2 * k ∧ wr1.length = k := by
  induction k with
  | zero =>
    intro i m rd wr _ _
    exact ⟨[], [], by simp [D6tFull.convert_loop_checked, D6tFull.convert_loop], by simp,
      by simp, rfl, rfl⟩
  | succ k ih =>
    intro i m rd wr hb hr
    have h1 : 2 * i + 1 < m.buf.length := by omega
    have h0 : 2 * i < m.buf.length := by omega
    have hi : i < m.raw.length := by omega
    obtain ⟨rd1, wr1, heq, hrd, hwr, hl1, hl2⟩ :=
      ih (i + 1)
        ⟨m.buf,
          m.raw.set i (((m.buf.getD (2 * i + 1) 0 <<< 8) ||| m.buf.getD (2 * i) 0) % 65536)⟩
        (rd ++ [2 * i + 1, 2 * i]) (wr ++ [i])
        (by simp only []; omega) (by simp only [List.length_set]; omega)
    refine ⟨[2 * i + 1, 2 * i] ++ rd1, [i] ++ wr1, ?_, ?_, ?_, ?_, ?_⟩
    · rw [D6tFull.convert_loop_checked]
      simp only [List.getElem?_eq_getElem h1, List.getElem?_eq_getElem h0, hi, if_true]
      rw [getD_eq_getElem_of_lt _ _ h1, getD_eq_getElem_of_lt _ _ h0] at heq
      rw [heq, D6tFull.convert_loop, getD_eq_getElem_of_lt _ _ h1,
        getD_eq_getElem_of_lt _ _ h0, List.append_assoc, List.append_assoc]
    · intro j hj
      rcases List.mem_append.mp hj with h | h
      · simp at h
        omega
      · have := hrd j h
        omega
    · intro j hj
      rcases List.mem_append.mp hj with h | h
      · simp at h
        omega
      · have := hwr j h
        omega
    · simp only [List.length_append, List.length_cons, List.length_nil, hl1]
      omega
    · simp only [List.length_append, List.length_cons, List.length_nil, hl2]
      omega

theorem D6tCore.conv8us_s16_le_checked_eq (buf : List Nat) (n : Nat) (h : n + 1 < buf.length) :
    D6tCore.conv8us_s16_le_checked buf n = some (D6tCore.conv8us_s16_le buf n) := by
  have h0 : n < buf.length := by omega
  simp only [D6tCore.conv8us_s16_le_checked, D6tCore.conv8us_s16_le,
    List.getElem?_eq_getElem h, List.getElem?_eq_getElem h0, getD_eq_getElem_of_lt _ _ h,
    getD_eq_getElem_of_lt _ _ h0]

theorem D6tCore.decode_loop_checked_spec (buffer : List Nat) (k : Nat) :
    ∀ (i : Nat) (raw_data : List Int) (rd wr : List Nat),
      2 * (i + k) ≤ buffer.length → i + k ≤ raw_data.length →
      ∃ rd1 wr1,
        D6tCore.decode_loop_checked buffer k i raw_data rd wr
          = some (D6tCore.decode_loop buffer k i raw_data, rd ++ rd1, wr ++ wr1)
        ∧ (∀ j ∈ rd1, j < 2 * (i + k)) ∧ (∀ j ∈ wr1, j < i + k)
        ∧ rd1.length = 2 * k ∧ wr1.length = k := by
  induction k with
  | zero =>
    intro i raw_data rd wr _ _
    exact ⟨[], [], by simp [D6tCore.decode_loop_checked, D6tCore.decode_loop], by simp,
      by simp, rfl, rfl⟩
  | succ k ih =>
    intro i raw_data rd wr hb hr
    have h1 : 2 * i + 1 < buffer.length := by omega
    have hi : i < raw_data.length := by omega
    obtain ⟨rd1, wr1, heq, hrd, hwr, hl1, hl2⟩ :=
      ih (i + 1) (raw_data.set i (D6tCore.conv8us_s16_le buffer (2 * i)))
        (rd ++ [2 * i, 2 * i + 1]) (wr ++ [i])
        (by omega) (by simp only [List.length_set]; omega)
    refine ⟨[2 * i, 2 * i + 1] ++ rd1, [i] ++ wr1, ?_, ?_, ?_, ?_, ?_⟩
    · rw [D6tCore.decode_loop_checked, D6tCore.conv8us_s16_le_checked_eq buffer (2 * i) h1]
      simp only [hi, if_true]
      rw [heq, D6tCore.decode_loop, List.append_assoc, List.append_assoc]
    · intro j hj
      rcases List.mem_append.mp hj with h | h
      · simp at h
        omega
      · have := hrd j h
        omega
    · intro j hj
      rcases List.mem_append.mp hj with h | h
      · simp at h
        omega
      · have := hwr j h
        omega
    · simp only [List.length_append, List.length_cons, List.length_nil, hl1]
      omega
    · simp only [List.length_append, List.length_cons, List.length_nil, hl2]
      omega

theorem D6tFull.init_ok_sizes (d d1 : D6tFull.d6t_data) (name : String)
    (alloc_buf alloc_raw : Option (Nat → Nat))
    (h : D6tFull.ioctl_d6t_init d name alloc_buf alloc_raw = (0, d1)) :
    d1.n_read = 2 * d1.n_raw_data + 1
    ∧ ∃ b r, d1.buf = KPtr.live b ∧ b.length = d1.n_read
        ∧ d1.raw = KPtr.live r ∧ r.length = d1.n_raw_data := by
  by_cases h1 : name = "d6t01a"
  · subst h1
    obtain ⟨_, hn, hr, hb⟩ :=
      D6tFull.ioctl_d6t_init_ok_inv d d1 D6tFull.tbl_D6T_01A (Or.inl rfl) alloc_buf alloc_raw h
    refine ⟨?_, hb⟩
    rw [hn, hr]
    decide
  · by_cases h2 : name = "d6t32l01a"
    · subst h2
      obtain ⟨_, hn, hr, hb⟩ :=
        D6tFull.ioctl_d6t_init_ok_inv d d1 D6tFull.tbl_D6T_32L_01A (Or.inr rfl) alloc_buf
          alloc_raw h
      refine ⟨?_, hb⟩
      rw [hn, hr]
      decide
    · simp [D6tFull.ioctl_d6t_init, h1, h2, EINVAL] at h

/-- Index arithmetic of the two decoders.  A session produced by a
successful init (of `d6t_full.c` / `d6tioctl.c`, and of `d6t_core.c`) has
`n_read = 2 * n_raw_data + 1` and, in `d6t_full.c`, buffers of exactly `n_read` bytes and
`n_raw_data` samples.  On buffers of those sizes, whatever they contain, the decoder with
checked accesses never faults and computes what the decoder of the driver computes; it reads
`2 * n_raw_data` byte indices, each at most `n_read - 2` (so never the trailer index
`n_read - 1`), and writes `n_raw_data` sample indices, each below `n_raw_data`. -/
theorem decode_stays_inside_the_frame (name : String) (d d1 : D6tFull.d6t_data)
    (alloc_buf alloc_raw alloc_buffer : Option (Nat → Nat))
    (alloc_raw_data : Option (Nat → Int)) (t : D6tCore.d6t_t)
    (hfull : D6tFull.ioctl_d6t_init d name alloc_buf alloc_raw = (0, d1))
    (hcore : D6tCore.d6t_init name true alloc_buffer alloc_raw_data = some t) :
    d1.n_read = 2 * d1.n_raw_data + 1
    ∧ (∃ b r, d1.buf = KPtr.live b ∧ b.length = d1.n_read
        ∧ d1.raw = KPtr.live r ∧ r.length = d1.n_raw_data)
    ∧ (∀ b r : List Nat, b.length = d1.n_read → r.length = d1.n_raw_data →
        ∃ rd wr,
          D6tFull.convert_loop_checked d1.n_raw_data 0 ⟨b, r⟩ [] []
            = some (D6tFull.d6t_convert_u8_to_s16 d1.n_raw_data ⟨b, r⟩, rd, wr)
          ∧ rd.length = 2 * d1.n_raw_data ∧ wr.length = d1.n_raw_data
          ∧ (∀ j ∈ rd, j ≤ d1.n_read - 2 ∧ j ≠ d1.n_read - 1 ∧ j < b.length)
          ∧ (∀ j ∈ wr, j < d1.n_raw_data ∧ j < r.length))
    ∧ t.n_read = 2 * t.n_raw_data + 1
    ∧ (∀ (buffer : List Nat) (raw_data : List Int),
        buffer.length = t.n_read → raw_data.length = t.n_raw_data →
        ∃ rd wr,
          D6tCore.decode_loop_checked buffer t.n_raw_data 0 raw_data [] []
            = some (D6tCore.decode_loop buffer t.n_raw_data 0 raw_data, rd, wr)
          ∧ rd.length = 2 * t.n_raw_data ∧ wr.length = t.n_raw_data
          ∧ (∀ j ∈ rd, j ≤ t.n_read - 2 ∧ j ≠ t.n_read - 1 ∧ j < buffer.length)
          ∧ (∀ j ∈ wr, j < t.n_raw_data ∧ j < raw_data.length)) := by
  obtain ⟨hn, hb⟩ := D6tFull.init_ok_sizes d d1 name alloc_buf alloc_raw hfull
  obtain ⟨_, htn, htr, _, _⟩ :=
    D6tCore.d6t_init_geometry name true alloc_buffer alloc_raw_data t hcore
  have htn2 : t.n_read = 2 * t.n_raw_data + 1 := by rw [htn, htr]
  refine ⟨hn, hb, ?_, htn2, ?_⟩
  · intro b r hbl hrl
    obtain ⟨rd, wr, heq, hrd, hwr, hl1, hl2⟩ :=
      D6tFull.convert_loop_checked_spec d1.n_raw_data 0 ⟨b, r⟩ [] []
        (by simp only []; omega) (by simp only []; omega)
    refine ⟨rd, wr, ?_, hl1, hl2, ?_, ?_⟩
    · rw [heq]
      rfl
    · intro j hj
      have := hrd j hj
      omega
    · intro j hj
      have := hwr j hj
      omega
  · intro buffer raw_data hbl hrl
    obtain ⟨rd, wr, heq, hrd, hwr, hl1, hl2⟩ :=
      D6tCore.decode_loop_checked_spec buffer t.n_raw_data 0 raw_data [] []
        (by omega) (by omega)
    refine ⟨rd, wr, ?_, hl1, hl2, ?_, ?_⟩
    · rw [heq]
      rfl
    · intro j hj
      have := hrd j hj
      omega
    · intro j hj
      have := hwr j hj
      omega

theorem D6tFull.init_d6t01a_session :
    D6tFull.ioctl_d6t_init D6tFull.d6t_data_zero "d6t01a" (some fun _ => 0) (some fun _ => 0)
      = (0, D6tFull.d6t01a_session) := by
  simp [D6tFull.ioctl_d6t_init, kmalloc, KPtr.isNull, D6tFull.d6t01a_session,
    D6tFull.d6t_data_zero, D6tFull.tbl_D6T_01A, D6tFull.N_READ, D6tFull.N_PIXELS]

theorem D6tCore.init_d6t01a_ready :
    D6tCore.d6t_init "d6t01a" true (some fun _ => 0) (some fun _ => 0)
      = some D6tCore.d6t01a_ready := by
  simp [D6tCore.d6t_init, kmalloc, D6tCore.d6t01a_ready, D6tCore.D6T_01A_COMMAND,
    D6tCore.NOT_SUPPORT, to_s8]

/-- The sessions init("d6t01a") produces: 5 frame bytes, 2 samples, 4 byte reads. -/
theorem decode_stays_inside_the_frame_witness :
    D6tFull.d6t01a_session.n_read = 2 * D6tFull.d6t01a_session.n_raw_data + 1
    ∧ D6tFull.convert_loop_checked 2 0 ⟨[0x10, 0x01, 0x20, 0x01, 0x7A], [0, 0]⟩ [] []
        = some (⟨[0x10, 0x01, 0x20, 0x01, 0x7A], [0x0110, 0x0120]⟩, [1, 0, 3, 2], [0, 1])
    ∧ D6tCore.d6t01a_ready.n_read = 2 * D6tCore.d6t01a_ready.n_raw_data + 1 := by
  have h := decode_stays_inside_the_frame "d6t01a" D6tFull.d6t_data_zero D6tFull.d6t01a_session
    (some fun _ => 0) (some fun _ => 0) (some fun _ => 0) (some fun _ => 0)
    D6tCore.d6t01a_ready D6tFull.init_d6t01a_session D6tCore.init_d6t01a_ready
  exact ⟨h.1, by decide, h.2.2.2.1⟩

/-! ## Lock discipline of the read path -/

namespace D6tFull

theorem read_step_cfg (client : Option i2c_client) (sh sh1 : read_shared) (t t1 : read_req)
    (ev : List Event) (h : read_step client sh t = Except.ok (sh1, t1, ev)) :
    t.pc.rank < t1.pc.rank
    ∧ (t.pc = read_pc.lock → sh.locked = false)
    ∧ sh1.locked = (if t.pc = read_pc.lock then true
        else if t.pc = read_pc.unlock_fail ∨ t.pc = read_pc.unlock_copy then false
        else sh.locked)
    ∧ (t.pc.holds = false → sh1.g = sh.g)
    ∧ t1.pc.holds = (if t.pc = read_pc.lock then true
        else if t.pc = read_pc.unlock_fail ∨ t.pc = read_pc.unlock_copy then false
        else t.pc.holds)
    ∧ t1.via_ioctl = t.via_ioctl ∧ t1.x = t.x ∧ t1.uncopied = t.uncopied := by
  unfold read_step at h
  cases hpc : t.pc <;> simp only [hpc] at h <;> (repeat' split at h) <;>
    first
    | (simp only [reduceCtorEq] at h)
    | (simp only [Except.ok.injEq, Prod.mk.injEq] at h
       obtain ⟨h1, h2, h3⟩ := h
       subst h1 h2 h3
       simp_all [read_pc.rank, read_pc.holds])

end D6tFull

namespace D6tFull

theorem read_step_blocked (client : Option i2c_client) (sh : read_shared) (t : read_req)
    (h : read_step client sh t = Except.error read_halt.blocked) :
    t.pc = read_pc.lock ∧ sh.locked = true := by
  unfold read_step at h
  cases hpc : t.pc <;> simp only [hpc] at h <;> (repeat' split at h) <;> simp_all

theorem read_step_finished (client : Option i2c_client) (sh : read_shared) (t : read_req) :
    read_step client sh t = Except.error read_halt.finished ↔ t.pc = read_pc.returned := by
  constructor
  · intro h
    unfold read_step at h
    cases hpc : t.pc <;> simp only [hpc] at h <;> (repeat' split at h) <;> simp_all
  · intro h
    simp [read_step, h]

theorem lock_scan_append (labels : List read_pc) (l : read_pc) : ∀ held : Bool,
    lock_scan held (labels ++ [l]) = (lock_scan held labels).bind fun h => lock_step h l := by
  induction labels with
  | nil =>
    intro held
    simp only [List.nil_append, lock_scan, Option.some_bind]
    cases lock_step held l <;> rfl
  | cons a rest ih =>
    intro held
    simp only [List.cons_append, lock_scan]
    cases lock_step held a with
    | none => rfl
    | some h => exact ih h

theorem lock_step_of_cfg (p q : read_pc)
    (h : q.holds = (if p = read_pc.lock then true
        else if p = read_pc.unlock_fail ∨ p = read_pc.unlock_copy then false
        else p.holds)) :
    lock_step p.holds p = some q.holds := by
  cases p <;> simp_all [lock_step, read_pc.holds]

/-- What every run of a single request maintains. -/
theorem read_alone_inv (client : Option i2c_client) (n : Nat) : ∀ r : read_run,
    lock_scan false r.labels = some r.req.pc.holds →
    r.shared.locked = r.req.pc.holds →
    (r.req.pc.rank ≤ 2 → count_lock r.labels = 0) →
    count_lock r.labels ≤ 1 →
    count_unlock r.labels + (if r.req.pc.holds then 1 else 0) = count_lock r.labels →
    9 ≤ n + r.req.pc.rank →
    lock_scan false (read_alone client n r).labels = some (read_alone client n r).req.pc.holds
    ∧ (read_alone client n r).shared.locked = (read_alone client n r).req.pc.holds
    ∧ count_lock (read_alone client n r).labels ≤ 1
    ∧ count_unlock (read_alone client n r).labels
        + (if (read_alone client n r).req.pc.holds then 1 else 0)
        = count_lock (read_alone client n r).labels
    ∧ (read_step client (read_alone client n r).shared (read_alone client n r).req
          = Except.error read_halt.finished
        ∨ read_step client (read_alone client n r).shared (read_alone client n r).req
          = Except.error read_halt.undefined) := by
  induction n with
  | zero =>
    intro r h1 h2 _ h4 h5 h6
    refine ⟨h1, h2, h4, h5, Or.inl ?_⟩
    rw [read_alone, read_step_finished]
    cases hpc : r.req.pc <;> simp [hpc, read_pc.rank] at h6
    rfl
  | succ n ih =>
    intro r h1 h2 h3 h4 h5 h6
    rw [read_alone]
    cases hstep : read_step client r.shared r.req with
    | error e =>
      simp only []
      refine ⟨h1, h2, h4, h5, ?_⟩
      cases e with
      | blocked =>
        obtain ⟨hp, hl⟩ := read_step_blocked client r.shared r.req hstep
        rw [h2, hp] at hl
        simp [read_pc.holds] at hl
      | finished => exact Or.inl hstep
      | undefined => exact Or.inr hstep
    | ok v =>
      obtain ⟨sh, t, ev⟩ := v
      simp only []
      have hcfg := read_step_cfg client r.shared sh r.req t ev hstep
      have hrank : r.req.pc.rank < t.pc.rank := hcfg.1
      have hlocked := hcfg.2.2.1
      have hholds := hcfg.2.2.2.2.1
      apply ih
      · simp only []
        rw [lock_scan_append, h1, Option.some_bind]
        exact lock_step_of_cfg _ _ hholds
      · simp only []
        rw [hlocked, hholds, h2]
      · intro hr
        have hr2 : t.pc.rank ≤ 2 := hr
        have h0 := h3 (by omega)
        have hne : r.req.pc ≠ read_pc.lock := by
          intro hp
          have h2r : read_pc.lock.rank = 2 := rfl
          rw [hp] at hrank
          omega
        simp only [count_lock, List.count_append, List.count_singleton] at h0 ⊢
        rw [h0]
        simp [hne]
      · simp only []
        by_cases hp : r.req.pc = read_pc.lock
        · have h0 := h3 (by rw [hp]; simp [read_pc.rank])
          simp only [count_lock, List.count_append] at h0 ⊢
          rw [h0, hp]
          simp
        · simp only [count_lock, List.count_append] at h4 ⊢
          have : List.count read_pc.lock [r.req.pc] = 0 := by
            simp [List.count_singleton, hp]
          omega
      · simp only []
        simp only [count_lock, count_unlock, List.count_append] at h5 ⊢
        rw [hholds]
        cases hpc : r.req.pc <;> simp [hpc, read_pc.holds] at h5 ⊢ <;> omega
      · have h7 : 9 ≤ n + 1 + r.req.pc.rank := h6
        show 9 ≤ n + t.pc.rank
        omega

end D6tFull

namespace D6tFull

theorem read_alone_ok (client : Option i2c_client) (n : Nat) (r : read_run)
    (sh : read_shared) (t : read_req) (ev : List Event)
    (h : read_step client r.shared r.req = Except.ok (sh, t, ev)) :
    read_alone client (n + 1) r
      = read_alone client n ⟨sh, t, r.labels ++ [r.req.pc], r.trace ++ ev⟩ := by
  rw [read_alone, h]

theorem read_alone_returned (client : Option i2c_client) (n : Nat) (r : read_run)
    (h : r.req.pc = read_pc.returned) : read_alone client n r = r := by
  cases n with
  | zero => rfl
  | succ n =>
    rw [read_alone, (read_step_finished client r.shared r.req).mpr h]

theorem read_request_not_initialised (client : Option i2c_client) (g : Option d6t_data)
    (via_ioctl : Bool) (ppos : Int) (x : Xfer) (uncopied : Nat)
    (h : g = none ∨ ∃ d, g = some d ∧ (d.d6t_info.isNone || d.buf.isNull || d.raw.isNull) = true) :
    read_request client g via_ioctl ppos x uncopied
      = ⟨⟨g, false⟩,
         { read_entry via_ioctl ppos x uncopied with pc := read_pc.returned, retval := -EINVAL },
         [read_pc.check_init], []⟩ := by
  unfold read_request
  rw [read_alone_ok client 8 _ ⟨g, false⟩
    { read_entry via_ioctl ppos x uncopied with pc := read_pc.returned, retval := -EINVAL } []]
  · rw [read_alone_returned _ _ _ rfl]
    rfl
  · rcases h with h | ⟨d, h, hd⟩
    · subst h
      rfl
    · subst h
      simp only [read_step, read_entry, hd, if_true]

end D6tFull

namespace D6tFull

theorem run_to_lock (client : Option i2c_client) (d : d6t_data)
    (via_ioctl : Bool) (ppos : Int) (x : Xfer) (uncopied : Nat)
    (hinit : (d.d6t_info.isNone || d.buf.isNull || d.raw.isNull) = false)
    (hpos : via_ioctl = true ∨ ¬ ppos > 0) :
    read_request client (some d) via_ioctl ppos x uncopied
      = read_alone client (if via_ioctl then 8 else 7)
          ⟨⟨some d, false⟩, { read_entry via_ioctl ppos x uncopied with pc := read_pc.lock },
           read_pc.check_init :: (if via_ioctl then [] else [read_pc.check_ppos]), []⟩ := by
  unfold read_request
  cases via_ioctl with
  | true =>
    rw [read_alone_ok client 8 _ ⟨some d, false⟩
      { read_entry true ppos x uncopied with pc := read_pc.lock } []
      (by simp [read_step, read_entry, hinit])]
    rfl
  | false =>
    have hp : ¬ ppos > 0 := by simpa using hpos
    rw [read_alone_ok client 8 _ ⟨some d, false⟩
      { read_entry false ppos x uncopied with pc := read_pc.check_ppos } []
      (by simp [read_step, read_entry, hinit])]
    rw [read_alone_ok client 7 _ ⟨some d, false⟩
      { read_entry false ppos x uncopied with pc := read_pc.lock } []
      (by simp [read_step, read_entry, hp])]
    rfl

end D6tFull

namespace D6tFull

theorem run_transfer_failed (client : Option i2c_client) (d d1 : d6t_data) (t : read_req)
    (ls : List read_pc) (tr ev : List Event) (j : Nat) (r : Int)
    (hpc : t.pc = read_pc.lock) (hgf : d6t_get_frame client d t.x = some (r, d1, ev))
    (hr : r < 0) :
    read_alone client (j + 3) ⟨⟨some d, false⟩, t, ls, tr⟩
      = ⟨⟨some d1, false⟩, { t with pc := read_pc.returned, retval := -EIO_code },
         ls ++ [read_pc.lock, read_pc.get_frame, read_pc.unlock_fail],
         tr ++ ([Event.mutex_lock] ++ ev ++ [Event.mutex_unlock])⟩ := by
  rw [read_alone_ok client (j + 2) _ ⟨some d, true⟩ { t with pc := read_pc.get_frame }
    [Event.mutex_lock] (by simp [read_step, hpc])]
  rw [read_alone_ok client (j + 1) _ ⟨some d1, true⟩ { t with pc := read_pc.unlock_fail } ev
    (by simp [read_step, hgf, hr])]
  rw [read_alone_ok client j _ ⟨some d1, false⟩
    { t with pc := read_pc.returned, retval := -EIO_code } [Event.mutex_unlock]
    (by simp [read_step])]
  rw [read_alone_returned _ _ _ rfl]
  simp [hpc]

theorem run_pec_failed (client : Option i2c_client) (c : i2c_client) (d d1 : d6t_data)
    (t : read_req) (ls : List read_pc) (tr ev : List Event) (j : Nat) (r : Int) (b : List Nat)
    (hpc : t.pc = read_pc.lock) (hgf : d6t_get_frame client d t.x = some (r, d1, ev))
    (hr : ¬ r < 0) (hc : client = some c) (hb : d1.buf.deref = some b)
    (hpec : d6t_checkPEC c.addr d1.n_read b = true) :
    read_alone client (j + 4) ⟨⟨some d, false⟩, t, ls, tr⟩
      = ⟨⟨some d1, false⟩, { t with pc := read_pc.returned, retval := -EIO_code },
         ls ++ [read_pc.lock, read_pc.get_frame, read_pc.check_pec, read_pc.unlock_fail],
         tr ++ ([Event.mutex_lock] ++ ev ++ [Event.mutex_unlock])⟩ := by
  rw [read_alone_ok client (j + 3) _ ⟨some d, true⟩ { t with pc := read_pc.get_frame }
    [Event.mutex_lock] (by simp [read_step, hpc])]
  rw [read_alone_ok client (j + 2) _ ⟨some d1, true⟩ { t with pc := read_pc.check_pec } ev
    (by simp [read_step, hgf, hr])]
  rw [read_alone_ok client (j + 1) _ ⟨some d1, true⟩ { t with pc := read_pc.unlock_fail } []
    (by simp [read_step, hc, hb, hpec])]
  rw [read_alone_ok client j _ ⟨some d1, false⟩
    { t with pc := read_pc.returned, retval := -EIO_code } [Event.mutex_unlock]
    (by simp [read_step])]
  rw [read_alone_returned _ _ _ rfl]
  simp [hpc]

theorem run_pec_accepted (client : Option i2c_client) (c : i2c_client) (d d1 : d6t_data)
    (t : read_req) (ls : List read_pc) (tr ev : List Event) (j : Nat) (r : Int)
    (b samples : List Nat) (m : frame_mem) (copied : List Nat)
    (hpc : t.pc = read_pc.lock) (hgf : d6t_get_frame client d t.x = some (r, d1, ev))
    (hr : ¬ r < 0) (hc : client = some c) (hb : d1.buf.deref = some b)
    (hs : d1.raw.deref = some samples)
    (hpec : d6t_checkPEC c.addr d1.n_read b = false)
    (hm : d6t_convert_u8_to_s16 d1.n_raw_data ⟨b, samples⟩ = m)
    (hcopied : (le_bytes (m.raw.take d1.n_raw_data)).take (d1.n_raw_data * 2 - t.uncopied)
      = copied) :
    read_alone client (j + 7) ⟨⟨some d, false⟩, t, ls, tr⟩
      = ⟨⟨some { d1 with buf := KPtr.live m.buf, raw := KPtr.live m.raw }, false⟩,
         { t with
            pc := read_pc.returned, copy_ret := t.uncopied, user := copied,
            ppos := if t.uncopied ≠ 0 ∨ t.via_ioctl = true then t.ppos
              else t.ppos + ((d1.n_raw_data * 2 : Nat) : Int),
            retval := if t.uncopied ≠ 0 then -EFAULT else if t.via_ioctl = true then 0
              else ((d1.n_raw_data * 2 : Nat) : Int) },
         ls ++ [read_pc.lock, read_pc.get_frame, read_pc.check_pec, read_pc.convert,
           read_pc.copy_out, read_pc.unlock_copy, read_pc.tail],
         tr ++ ([Event.mutex_lock] ++ ev ++ [Event.copy_to_user copied, Event.mutex_unlock])⟩ := by
  rw [read_alone_ok client (j + 6) _ ⟨some d, true⟩ { t with pc := read_pc.get_frame }
    [Event.mutex_lock] (by simp [read_step, hpc])]
  rw [read_alone_ok client (j + 5) _ ⟨some d1, true⟩ { t with pc := read_pc.check_pec } ev
    (by simp [read_step, hgf, hr])]
  rw [read_alone_ok client (j + 4) _ ⟨some d1, true⟩ { t with pc := read_pc.convert } []
    (by simp [read_step, hc, hb, hpec])]
  rw [read_alone_ok client (j + 3) _
    ⟨some { d1 with buf := KPtr.live m.buf, raw := KPtr.live m.raw }, true⟩
    { t with pc := read_pc.copy_out } [] (by simp [read_step, hb, hs, hm])]
  rw [read_alone_ok client (j + 2) _
    ⟨some { d1 with buf := KPtr.live m.buf, raw := KPtr.live m.raw }, true⟩
    { t with pc := read_pc.unlock_copy, copy_ret := t.uncopied, user := copied }
    [Event.copy_to_user copied] (by simp [read_step, KPtr.deref, hcopied])]
  rw [read_alone_ok client (j + 1) _
    ⟨some { d1 with buf := KPtr.live m.buf, raw := KPtr.live m.raw }, false⟩
    { t with pc := read_pc.tail, copy_ret := t.uncopied, user := copied }
    [Event.mutex_unlock] (by simp [read_step])]
  by_cases hu : t.uncopied ≠ 0
  · rw [read_alone_ok client j _
        ⟨some { d1 with buf := KPtr.live m.buf, raw := KPtr.live m.raw }, false⟩
      { t with pc := read_pc.returned, copy_ret := t.uncopied, user := copied,
               retval := -EFAULT } [] (by simp [read_step, hu])]
    rw [read_alone_returned _ _ _ rfl]
    simp [hpc, hu]
  · cases hv : t.via_ioctl with
    | true =>
      rw [read_alone_ok client j _
        ⟨some { d1 with buf := KPtr.live m.buf, raw := KPtr.live m.raw }, false⟩
        { t with pc := read_pc.returned, copy_ret := t.uncopied, user := copied,
                 retval := 0 } [] (by simp [read_step, hu, hv])]
      rw [read_alone_returned _ _ _ rfl]
      simp [hpc, hu, hv]
    | false =>
      rw [read_alone_ok client j _
        ⟨some { d1 with buf := KPtr.live m.buf, raw := KPtr.live m.raw }, false⟩
        { t with pc := read_pc.returned, copy_ret := t.uncopied, user := copied,
                 ppos := t.ppos + ((d1.n_raw_data * 2 : Nat) : Int),
                 retval := ((d1.n_raw_data * 2 : Nat) : Int) } []
        (by simp [read_step, hu, hv])]
      rw [read_alone_returned _ _ _ rfl]
      simp [hpc, hu, hv]

end D6tFull

namespace D6tFull

theorem read_request_eof (client : Option i2c_client) (d : d6t_data)
    (ppos : Int) (x : Xfer) (uncopied : Nat)
    (hinit : (d.d6t_info.isNone || d.buf.isNull || d.raw.isNull) = false)
    (hpos : ppos > 0) :
    read_request client (some d) false ppos x uncopied
      = ⟨⟨some d, false⟩,
         { read_entry false ppos x uncopied with pc := read_pc.returned, retval := 0 },
         [read_pc.check_init, read_pc.check_ppos], []⟩ := by
  unfold read_request
  rw [read_alone_ok client 8 _ ⟨some d, false⟩
    { read_entry false ppos x uncopied with pc := read_pc.check_ppos } []
    (by simp [read_step, read_entry, hinit])]
  rw [read_alone_ok client 7 _ ⟨some d, false⟩
    { read_entry false ppos x uncopied with pc := read_pc.returned, retval := 0 } []
    (by simp [read_step, read_entry, hpos])]
  rw [read_alone_returned _ _ _ rfl]
  rfl

theorem read_request_eq_d6t_read (g : Option d6t_data) (client : Option i2c_client)
    (ppos : Int) (x : Xfer) (uncopied : Nat) (r : read_result)
    (h : d6t_read g client ppos (fun _ => x) uncopied = some r) :
    (read_request client g false ppos x uncopied).req.pc = read_pc.returned
    ∧ (read_request client g false ppos x uncopied).req.retval = r.ret
    ∧ (read_request client g false ppos x uncopied).req.user = r.user
    ∧ (read_request client g false ppos x uncopied).req.ppos = r.ppos
    ∧ (read_request client g false ppos x uncopied).shared = ⟨r.data, false⟩
    ∧ (read_request client g false ppos x uncopied).trace = r.trace := by
  cases g with
  | none =>
    simp only [d6t_read, Option.some.injEq] at h
    subst h
    rw [read_request_not_initialised _ _ _ _ _ _ (Or.inl rfl)]
    simp [read_entry]
  | some d =>
    by_cases hinit : (d.d6t_info.isNone || d.buf.isNull || d.raw.isNull) = true
    · simp only [d6t_read, hinit, if_true, Option.some.injEq] at h
      subst h
      rw [read_request_not_initialised _ _ _ _ _ _ (Or.inr ⟨d, rfl, hinit⟩)]
      simp [read_entry]
    · have hinit0 : (d.d6t_info.isNone || d.buf.isNull || d.raw.isNull) = false :=
        Bool.eq_false_iff.mpr hinit
      by_cases hp : ppos > 0
      · simp only [d6t_read, hinit0, Bool.false_eq_true, if_false, hp, if_true,
          Option.some.injEq] at h
        subst h
        rw [read_request_eof client d ppos x uncopied hinit0 hp]
        simp [read_entry]
      · rw [run_to_lock client d false ppos x uncopied hinit0 (Or.inr hp)]
        simp only [d6t_read, hinit0, Bool.false_eq_true, if_false, hp] at h
        cases hgf : d6t_get_frame client d x with
        | none => simp [hgf] at h
        | some v =>
          obtain ⟨r1, d1, ev⟩ := v
          simp only [hgf] at h
          by_cases hr : r1 < 0
          · simp only [hr, if_true, Option.some.injEq] at h
            subst h
            rw [show (if false = true then 8 else 7) = 4 + 3 from rfl,
              run_transfer_failed client d d1 _ _ _ ev 4 r1 rfl hgf hr]
            simp [read_entry]
          · simp only [hr, if_false] at h
            cases hc : client with
            | none => simp [hc] at h
            | some c =>
              cases hb : d1.buf.deref with
              | none => simp [hc, hb] at h
              | some b =>
                cases hs : d1.raw.deref with
                | none => simp [hc, hb, hs] at h
                | some samples =>
                  simp only [hc, hb, hs] at h
                  subst hc
                  by_cases hpec : d6t_checkPEC c.addr d1.n_read b = true
                  · simp only [hpec, if_true, Option.some.injEq] at h
                    subst h
                    rw [show (if false = true then 8 else 7) = 3 + 4 from rfl,
                      run_pec_failed (some c) c d d1 _ _ _ ev 3 r1 b rfl hgf hr rfl hb hpec]
                    simp [read_entry]
                  · have hpec0 : d6t_checkPEC c.addr d1.n_read b = false :=
                      Bool.eq_false_iff.mpr hpec
                    obtain ⟨m, hm⟩ :
                        ∃ m, d6t_convert_u8_to_s16 d1.n_raw_data ⟨b, samples⟩ = m := ⟨_, rfl⟩
                    obtain ⟨copied, hcopied⟩ :
                        ∃ l, (le_bytes (m.raw.take d1.n_raw_data)).take
                          (d1.n_raw_data * 2 - uncopied) = l := ⟨_, rfl⟩
                    simp only [hpec0, Bool.false_eq_true, if_false, hm, hcopied] at h
                    rw [show (if false = true then 8 else 7) = 0 + 7 from rfl,
                      run_pec_accepted (some c) c d d1
                        { read_entry false ppos x uncopied with pc := read_pc.lock }
                        _ _ ev 0 r1 b samples m copied rfl hgf hr rfl hb hs hpec0 hm hcopied]
                    by_cases hu : uncopied ≠ 0
                    · rw [if_pos hu, Option.some.injEq] at h
                      subst h
                      simp [read_entry, hu]
                    · rw [if_neg hu, Option.some.injEq] at h
                      subst h
                      simp [read_entry, hu]

end D6tFull

namespace D6tFull

theorem read_request_eq_READ_RAW (g : Option d6t_data) (client : Option i2c_client)
    (ppos : Int) (x : Xfer) (uncopied : Nat) (r : read_result)
    (h : d6t_ioctl_READ_RAW g client (fun _ => x) uncopied = some r) :
    (read_request client g true ppos x uncopied).req.pc = read_pc.returned
    ∧ (read_request client g true ppos x uncopied).req.retval = r.ret
    ∧ (read_request client g true ppos x uncopied).req.user = r.user
    ∧ (read_request client g true ppos x uncopied).req.ppos = ppos
    ∧ (read_request client g true ppos x uncopied).shared = ⟨r.data, false⟩
    ∧ (read_request client g true ppos x uncopied).trace = r.trace := by
  cases g with
  | none =>
    simp only [d6t_ioctl_READ_RAW, Option.some.injEq] at h
    subst h
    rw [read_request_not_initialised _ _ _ _ _ _ (Or.inl rfl)]
    simp [read_entry]
  | some d =>
    by_cases hinit : (d.d6t_info.isNone || d.buf.isNull || d.raw.isNull) = true
    · simp only [d6t_ioctl_READ_RAW, hinit, if_true, Option.some.injEq] at h
      subst h
      rw [read_request_not_initialised _ _ _ _ _ _ (Or.inr ⟨d, rfl, hinit⟩)]
      simp [read_entry]
    · have hinit0 : (d.d6t_info.isNone || d.buf.isNull || d.raw.isNull) = false :=
        Bool.eq_false_iff.mpr hinit
      rw [run_to_lock client d true ppos x uncopied hinit0 (Or.inl rfl)]
      simp only [d6t_ioctl_READ_RAW, hinit0, Bool.false_eq_true, if_false] at h
      cases hgf : d6t_get_frame client d x with
      | none => simp [hgf] at h
      | some v =>
        obtain ⟨r1, d1, ev⟩ := v
        simp only [hgf] at h
        by_cases hr : r1 < 0
        · simp only [hr, if_true, Option.some.injEq] at h
          subst h
          rw [show (if true = true then 8 else 7) = 5 + 3 from rfl,
            run_transfer_failed client d d1 _ _ _ ev 5 r1 rfl hgf hr]
          simp [read_entry]
        · simp only [hr, if_false] at h
          cases hc : client with
          | none => simp [hc] at h
          | some c =>
            cases hb : d1.buf.deref with
            | none => simp [hc, hb] at h
            | some b =>
              cases hs : d1.raw.deref with
              | none => simp [hc, hb, hs] at h
              | some samples =>
                simp only [hc, hb, hs] at h
                subst hc
                by_cases hpec : d6t_checkPEC c.addr d1.n_read b = true
                · simp only [hpec, if_true, Option.some.injEq] at h
                  subst h
                  rw [show (if true = true then 8 else 7) = 4 + 4 from rfl,
                    run_pec_failed (some c) c d d1 _ _ _ ev 4 r1 b rfl hgf hr rfl hb hpec]
                  simp [read_entry]
                · have hpec0 : d6t_checkPEC c.addr d1.n_read b = false :=
                    Bool.eq_false_iff.mpr hpec
                  obtain ⟨m, hm⟩ :
                      ∃ m, d6t_convert_u8_to_s16 d1.n_raw_data ⟨b, samples⟩ = m := ⟨_, rfl⟩
                  obtain ⟨copied, hcopied⟩ :
                      ∃ l, (le_bytes (m.raw.take d1.n_raw_data)).take
                        (d1.n_raw_data * 2 - uncopied) = l := ⟨_, rfl⟩
                  simp only [hpec0, Bool.false_eq_true, if_false, hm, hcopied] at h
                  rw [show (if true = true then 8 else 7) = 1 + 7 from rfl,
                    run_pec_accepted (some c) c d d1
                      { read_entry true ppos x uncopied with pc := read_pc.lock }
                      _ _ ev 1 r1 b samples m copied rfl hgf hr rfl hb hs hpec0 hm hcopied]
                  by_cases hu : uncopied ≠ 0
                  · rw [if_pos hu, Option.some.injEq] at h
                    subst h
                    simp [read_entry, hu]
                  · rw [if_neg hu, Option.some.injEq] at h
                    subst h
                    simp [read_entry, hu]

end D6tFull

namespace D6tFull

/-- C24: lock discipline of the read path.  A read request entering `d6t_read`
(`via_ioctl = false`) or the `D6T_IOC_READ_RAW` case (`via_ioctl = true`), run on any session
with any adapter answer and any copy result, ends within nine statements, returned or in
undefined behaviour, never waiting for the mutex.  Replaying the statements it executed never
breaks the discipline: `mutex_lock` only while not holding, `mutex_unlock` only while
holding, and `d6t_get_frame`, `d6t_checkPEC`, `d6t_convert_u8_to_s16` and `copy_to_user` only
while holding; `mutex_lock` is executed at most once.  When the function returns, the number
of `mutex_unlock` executed equals the number of `mutex_lock` and the mutex is free.  Whenever
`d6t_read` or `d6t_ioctl_READ_RAW` produces a result, the statement-wise run returns the same
value, bytes, session and kernel calls. -/
theorem read_path_lock_discipline (client : Option i2c_client) (g : Option d6t_data)
    (via_ioctl : Bool) (ppos : Int) (x : Xfer) (uncopied : Nat) :
    (read_step client (read_request client g via_ioctl ppos x uncopied).shared
          (read_request client g via_ioctl ppos x uncopied).req
        = Except.error read_halt.finished
      ∨ read_step client (read_request client g via_ioctl ppos x uncopied).shared
          (read_request client g via_ioctl ppos x uncopied).req
        = Except.error read_halt.undefined)
    ∧ lock_scan false (read_request client g via_ioctl ppos x uncopied).labels
        = some (read_request client g via_ioctl ppos x uncopied).req.pc.holds
    ∧ count_lock (read_request client g via_ioctl ppos x uncopied).labels ≤ 1
    ∧ ((read_request client g via_ioctl ppos x uncopied).req.pc = read_pc.returned →
        count_unlock (read_request client g via_ioctl ppos x uncopied).labels
          = count_lock (read_request client g via_ioctl ppos x uncopied).labels
        ∧ lock_scan false (read_request client g via_ioctl ppos x uncopied).labels = some false
        ∧ (read_request client g via_ioctl ppos x uncopied).shared.locked = false)
    ∧ (∀ r, (if via_ioctl then d6t_ioctl_READ_RAW g client (fun _ => x) uncopied
              else d6t_read g client ppos (fun _ => x) uncopied) = some r →
        (read_request client g via_ioctl ppos x uncopied).req.pc = read_pc.returned
        ∧ (read_request client g via_ioctl ppos x uncopied).req.retval = r.ret
        ∧ (read_request client g via_ioctl ppos x uncopied).req.user = r.user
        ∧ (read_request client g via_ioctl ppos x uncopied).shared.g = r.data
        ∧ (read_request client g via_ioctl ppos x uncopied).trace = r.trace) := by
  obtain ⟨h1, h2, h3, h4, h5⟩ :=
    read_alone_inv client 9 ⟨⟨g, false⟩, read_entry via_ioctl ppos x uncopied, [], []⟩
      rfl rfl (fun _ => rfl) (Nat.zero_le 1) rfl (Nat.le_add_right 9 _)
  refine ⟨h5, h1, h3, ?_, ?_⟩
  · intro hret
    have hh : (read_request client g via_ioctl ppos x uncopied).req.pc.holds = false := by
      rw [hret]
      rfl
    unfold read_request at hh ⊢
    rw [hh] at h1 h2 h4
    exact ⟨by simpa using h4, h1, h2⟩
  · intro r hr
    cases via_ioctl with
    | true =>
      obtain ⟨e1, e2, e3, _, e5, e6⟩ :=
        read_request_eq_READ_RAW g client ppos x uncopied r (by simpa using hr)
      exact ⟨e1, e2, e3, by rw [e5], e6⟩
    | false =>
      obtain ⟨e1, e2, e3, _, e5, e6⟩ :=
        read_request_eq_d6t_read g client ppos x uncopied r (by simpa using hr)
      exact ⟨e1, e2, e3, by rw [e5], e6⟩

end D6tFull

/-! ## Two concurrent read requests -/

namespace D6tFull

theorem own_frame_eq (d : d6t_data) (cells : List Nat) (x : Xfer)
    (h : cells.length = d.n_read) : received_frame cells d.n_read x = own_frame d x := by
  unfold own_frame received_frame
  rw [store_at_replicate_all cells d.n_read h,
    store_at_replicate_all _ d.n_read (List.length_replicate _ _)]

theorem own_frame_length (d : d6t_data) (x : Xfer) : (own_frame d x).length = d.n_read := by
  unfold own_frame
  rw [received_frame_length, List.length_replicate]

theorem own_samples_eq (d : d6t_data) (x : Xfer) (samples : List Nat)
    (h : samples.length = d.n_raw_data) :
    (d6t_convert_u8_to_s16 d.n_raw_data ⟨own_frame d x, samples⟩).raw = own_samples d x := by
  unfold own_samples d6t_convert_u8_to_s16
  apply List.ext_getElem?
  intro j
  rw [(convert_loop_spec _ 0 _).2.2 j, (convert_loop_spec _ 0 _).2.2 j]
  by_cases hj : j < d.n_raw_data
  · have h1 : 0 ≤ j ∧ j < 0 + d.n_raw_data
        ∧ j < (frame_mem.mk (own_frame d x) samples).raw.length := by
      simp only [h]; omega
    have h2 : 0 ≤ j ∧ j < 0 + d.n_raw_data
        ∧ j < (frame_mem.mk (own_frame d x) (List.replicate d.n_raw_data 0)).raw.length := by
      simp only [List.length_replicate]; omega
    rw [if_pos h1, if_pos h2]
  · have h1 : ¬ (0 ≤ j ∧ j < 0 + d.n_raw_data
        ∧ j < (frame_mem.mk (own_frame d x) samples).raw.length) := by
      omega
    have h2 : ¬ (0 ≤ j ∧ j < 0 + d.n_raw_data
        ∧ j < (frame_mem.mk (own_frame d x) (List.replicate d.n_raw_data 0)).raw.length) := by
      omega
    rw [if_neg h1, if_neg h2]
    show samples[j]? = (List.replicate d.n_raw_data 0)[j]?
    rw [List.getElem?_eq_none (by omega), List.getElem?_eq_none (by simp; omega)]

theorem own_samples_length (d : d6t_data) (x : Xfer) :
    (own_samples d x).length = d.n_raw_data := by
  unfold own_samples d6t_convert_u8_to_s16
  rw [(convert_loop_spec _ 0 _).2.1]
  exact List.length_replicate _ _

theorem hold_scan_append (log : List (Bool × read_pc)) (w : Bool) (l : read_pc) :
    ∀ owner : Option Bool,
      hold_scan owner (log ++ [(w, l)])
        = (hold_scan owner log).bind fun o => hold_step o w l := by
  induction log with
  | nil =>
    intro owner
    simp only [List.nil_append, hold_scan, Option.some_bind]
    cases hold_step owner w l <;> rfl
  | cons a rest ih =>
    intro owner
    obtain ⟨w1, l1⟩ := a
    simp only [List.cons_append, hold_scan]
    cases hold_step owner w1 l1 with
    | none => rfl
    | some o => exact ih o

theorem read_inv_frame (c : i2c_client) (d : d6t_data) (t0 t : read_req)
    (g g1 : Option d6t_data) (h : read_inv c d t0 g t) (hh : t.pc.holds = false) :
    read_inv c d t0 g1 t := by
  obtain ⟨hv, hx, hu, hrest⟩ := h
  refine ⟨hv, hx, hu, ?_⟩
  cases hp : t.pc <;> rw [hp] at hrest hh <;> first
    | exact hrest
    | exact absurd hh (by decide)

end D6tFull

namespace D6tFull

theorem read_expected_eof (c : i2c_client) (d : d6t_data) (t0 : read_req)
    (hv : t0.via_ioctl = false) (hp : t0.ppos > 0) :
    read_expected c d t0 = (0, [], t0.ppos) := by
  unfold read_expected
  rw [if_pos ⟨hv, hp⟩]

theorem read_expected_eio (c : i2c_client) (d : d6t_data) (t0 : read_req)
    (hpos : t0.via_ioctl = true ∨ t0.ppos ≤ 0)
    (hbad : t0.x.ret ≠ 2 ∨ d6t_checkPEC c.addr d.n_read (own_frame d t0.x) = true) :
    read_expected c d t0 = (-EIO_code, [], t0.ppos) := by
  have h1 : ¬ (t0.via_ioctl = false ∧ t0.ppos > 0) := by
    rintro ⟨hv, hp⟩
    rcases hpos with h | h
    · rw [hv] at h
      exact absurd h (by decide)
    · omega
  unfold read_expected
  rw [if_neg h1, if_pos hbad]

theorem read_expected_copy (c : i2c_client) (d : d6t_data) (t0 : read_req)
    (hpos : t0.via_ioctl = true ∨ t0.ppos ≤ 0) (hret : t0.x.ret = 2)
    (hpec : d6t_checkPEC c.addr d.n_read (own_frame d t0.x) = false) :
    read_expected c d t0
      = if t0.uncopied ≠ 0 then (-EFAULT, own_bytes d t0.x t0.uncopied, t0.ppos)
        else if t0.via_ioctl then (0, own_bytes d t0.x t0.uncopied, t0.ppos)
        else ((d.n_raw_data * 2 : Nat), own_bytes d t0.x t0.uncopied,
              t0.ppos + ((d.n_raw_data * 2 : Nat) : Int)) := by
  have h1 : ¬ (t0.via_ioctl = false ∧ t0.ppos > 0) := by
    rintro ⟨hv, hp⟩
    rcases hpos with h | h
    · rw [hv] at h
      exact absurd h (by decide)
    · omega
  have h2 : ¬ (t0.x.ret ≠ 2 ∨ d6t_checkPEC c.addr d.n_read (own_frame d t0.x) = true) := by
    rintro (h | h)
    · exact h hret
    · rw [hpec] at h
      exact absurd h (by decide)
  unfold read_expected
  rw [if_neg h1, if_neg h2]

end D6tFull

namespace D6tFull

theorem read_step_inv (c : i2c_client) (d : d6t_data) (info : d6t_info) (t0 t : read_req)
    (sh : read_shared) (hinfo : d.d6t_info = some info)
    (hshape : same_shape d sh.g) (hinv : read_inv c d t0 sh.g t)
    (hpc : t.pc ≠ read_pc.returned) (hfree : t.pc = read_pc.lock → sh.locked = false) :
    ∃ sh1 t1 ev, read_step (some c) sh t = Except.ok (sh1, t1, ev)
      ∧ same_shape d sh1.g ∧ read_inv c d t0 sh1.g t1 := by
  obtain ⟨cells, samples, hg, hcl, hsl⟩ := hshape
  obtain ⟨hv, hx, hu, hrest⟩ := hinv
  have hshape : same_shape d sh.g := ⟨cells, samples, hg, hcl, hsl⟩
  cases hp : t.pc with
  | check_init =>
    rw [hp] at hrest
    cases hvia : t.via_ioctl with
    | true =>
      refine ⟨sh, { t with pc := read_pc.lock }, [], ?_, hshape, hv, hx, hu, ?_⟩
      · simp [read_step, hp, hg, hinfo, KPtr.isNull, hvia]
      · exact ⟨Or.inl (hv ▸ hvia), hrest⟩
    | false =>
      refine ⟨sh, { t with pc := read_pc.check_ppos }, [], ?_, hshape, hv, hx, hu, ?_⟩
      · simp [read_step, hp, hg, hinfo, KPtr.isNull, hvia]
      · exact ⟨hv ▸ hvia, hrest⟩
  | check_ppos =>
    rw [hp] at hrest
    obtain ⟨h0, h1, h2⟩ := hrest
    by_cases hpos : t.ppos > 0
    · refine ⟨sh, { t with pc := read_pc.returned, retval := 0 }, [], ?_, hshape,
        hv, hx, hu, ?_⟩
      · simp [read_step, hp, hpos]
      · show ((0 : Int), t.user, t.ppos) = read_expected c d t0
        rw [read_expected_eof c d t0 h0 (h1 ▸ hpos), h1, h2]
    · refine ⟨sh, { t with pc := read_pc.lock }, [], ?_, hshape, hv, hx, hu, ?_⟩
      · simp [read_step, hp, hpos]
      · exact ⟨Or.inr (by rw [← h1]; omega), h1, h2⟩
  | lock =>
    rw [hp] at hrest
    refine ⟨{ sh with locked := true }, { t with pc := read_pc.get_frame }, [Event.mutex_lock],
      ?_, hshape, hv, hx, hu, hrest⟩
    simp [read_step, hp, hfree hp]
  | get_frame =>
    rw [hp] at hrest
    obtain ⟨h0, h1, h2⟩ := hrest
    have hgf := d6t_get_frame_eq
      { d with buf := KPtr.live cells, raw := KPtr.live samples } info cells c t.x hinfo rfl
      (Nat.le_of_eq hcl.symm)
    have hshape1 : same_shape d
        (some { d with buf := KPtr.live (received_frame cells d.n_read t.x),
                       raw := KPtr.live samples }) :=
      ⟨_, samples, rfl, by rw [received_frame_length, hcl], hsl⟩
    by_cases hret : t.x.ret = 2
    · refine ⟨{ sh with g := some { d with
            buf := KPtr.live (received_frame cells d.n_read t.x),
            raw := KPtr.live samples } },
        { t with pc := read_pc.check_pec }, [Event.i2c_transfer c.addr info.command d.n_read],
        ?_, hshape1, hv, hx, hu, ?_⟩
      · simp only [read_step, hp, hg, hgf, hret]
        rfl
      · refine ⟨h0, h1, h2, hx ▸ hret, ?_⟩
        intro d1 hd1
        simp only [Option.some.injEq] at hd1
        rw [← hd1, ← hx]
        exact congrArg KPtr.live (own_frame_eq d cells t.x hcl)
    · have hneg : (if t.x.ret < 0 then t.x.ret else if t.x.ret ≠ 2 then -EIO_code else 0) < 0 := by
        by_cases hlt : t.x.ret < 0
        · rw [if_pos hlt]
          exact hlt
        · rw [if_neg hlt, if_pos hret]
          decide
      refine ⟨{ sh with g := some { d with
            buf := KPtr.live (received_frame cells d.n_read t.x),
            raw := KPtr.live samples } },
        { t with pc := read_pc.unlock_fail }, [Event.i2c_transfer c.addr info.command d.n_read],
        ?_, hshape1, hv, hx, hu, ?_⟩
      · simp only [read_step, hp, hg, hgf, hneg, if_true]
      · exact ⟨h0, h1, h2, Or.inl (hx ▸ hret)⟩
  | check_pec =>
    rw [hp] at hrest
    obtain ⟨h0, h1, h2, h3, h4⟩ := hrest
    have hbuf : cells = own_frame d t0.x := by
      have h := h4 _ hg
      simpa using h
    by_cases hpec : d6t_checkPEC c.addr d.n_read (own_frame d t0.x) = true
    · refine ⟨sh, { t with pc := read_pc.unlock_fail }, [], ?_, hshape, hv, hx, hu, ?_⟩
      · simp only [read_step, hp, hg, KPtr.deref, hbuf, hpec, if_true]
      · exact ⟨h0, h1, h2, Or.inr hpec⟩
    · refine ⟨sh, { t with pc := read_pc.convert }, [], ?_, hshape, hv, hx, hu, ?_⟩
      · simp [read_step, hp, hg, KPtr.deref, hbuf, hpec]
      · exact ⟨h0, h1, h2, h3, Bool.eq_false_iff.mpr hpec, h4⟩
  | unlock_fail =>
    rw [hp] at hrest
    obtain ⟨h0, h1, h2, h3⟩ := hrest
    refine ⟨{ sh with locked := false }, { t with pc := read_pc.returned, retval := -EIO_code },
      [Event.mutex_unlock], ?_, hshape, hv, hx, hu, ?_⟩
    · simp [read_step, hp]
    · show ((-EIO_code : Int), t.user, t.ppos) = read_expected c d t0
      rw [read_expected_eio c d t0 h0 h3, h1, h2]
  | convert =>
    rw [hp] at hrest
    obtain ⟨h0, h1, h2, h3, h4, h5⟩ := hrest
    have hbuf : cells = own_frame d t0.x := by
      have h := h5 _ hg
      simpa using h
    have hm1 : (d6t_convert_u8_to_s16 d.n_raw_data ⟨own_frame d t0.x, samples⟩).buf
        = own_frame d t0.x := by
      unfold d6t_convert_u8_to_s16
      exact (convert_loop_spec _ 0 _).1
    have hm2 := own_samples_eq d t0.x samples hsl
    refine ⟨{ sh with g := some { d with
          buf := KPtr.live (own_frame d t0.x), raw := KPtr.live (own_samples d t0.x) } },
      { t with pc := read_pc.copy_out }, [], ?_,
      ⟨_, _, rfl, own_frame_length d t0.x, own_samples_length d t0.x⟩, hv, hx, hu, ?_⟩
    · simp only [read_step, hp, hg, hbuf, KPtr.deref, hm1, hm2]
    · refine ⟨h0, h1, h3, h4, ?_⟩
      intro d1 hd1
      simp only [Option.some.injEq] at hd1
      rw [← hd1]
  | copy_out =>
    rw [hp] at hrest
    obtain ⟨h0, h1, h3, h4, h5⟩ := hrest
    have hraw : samples = own_samples d t0.x := by
      have h := h5 _ hg
      simpa using h
    refine ⟨sh, { t with pc := read_pc.unlock_copy, copy_ret := t.uncopied,
                         user := own_bytes d t0.x t0.uncopied },
      [Event.copy_to_user (own_bytes d t0.x t0.uncopied)], ?_, hshape, hv, hx, hu, ?_⟩
    · simp only [read_step, hp, hg, hraw, KPtr.deref, own_bytes, hu]
    · exact ⟨h0, h1, h3, h4, rfl, hu⟩
  | unlock_copy =>
    rw [hp] at hrest
    refine ⟨{ sh with locked := false }, { t with pc := read_pc.tail }, [Event.mutex_unlock],
      ?_, hshape, hv, hx, hu, hrest⟩
    simp [read_step, hp]
  | tail =>
    rw [hp] at hrest
    obtain ⟨h0, h1, h3, h4, h5, h6⟩ := hrest
    have hexp := read_expected_copy c d t0 h0 h3 h4
    by_cases hcr : t.copy_ret ≠ 0
    · refine ⟨sh, { t with pc := read_pc.returned, retval := -EFAULT }, [], ?_, hshape,
        hv, hx, hu, ?_⟩
      · simp [read_step, hp, hcr]
      · show ((-EFAULT : Int), t.user, t.ppos) = read_expected c d t0
        rw [hexp, if_pos (h6 ▸ hcr), h1, h5]
    · cases hvia : t.via_ioctl with
      | true =>
        refine ⟨sh, { t with pc := read_pc.returned, retval := 0 }, [], ?_, hshape,
          hv, hx, hu, ?_⟩
        · simp [read_step, hp, hcr, hvia]
        · show ((0 : Int), t.user, t.ppos) = read_expected c d t0
          rw [hexp, if_neg (h6 ▸ hcr), ← hv, hvia, if_pos rfl, h1, h5]
      | false =>
        refine ⟨sh,
          { t with
            pc := read_pc.returned
            ppos := t.ppos + ((d.n_raw_data * 2 : Nat) : Int)
            retval := ((d.n_raw_data * 2 : Nat) : Int) }, [], ?_, hshape, hv, hx, hu, ?_⟩
        · simp [read_step, hp, hcr, hvia, hg]
        · show ((((d.n_raw_data * 2 : Nat) : Int)), t.user,
              t.ppos + ((d.n_raw_data * 2 : Nat) : Int)) = read_expected c d t0
          rw [hexp, if_neg (h6 ▸ hcr), ← hv, hvia, if_neg (by decide), h1, h5]
  | returned => exact absurd hp hpc

end D6tFull

namespace D6tFull

theorem hold_step_of_cfg (p q : read_pc) (other w : Bool)
    (hq : q.holds = (if p = read_pc.lock then true
        else if p = read_pc.unlock_fail ∨ p = read_pc.unlock_copy then false
        else p.holds))
    (hmx : ¬ (p.holds = true ∧ other = true)) (hlock : p = read_pc.lock → other = false) :
    hold_step (if p.holds then some w else if other then some (!w) else none) w p
      = some (if q.holds then some w else if other then some (!w) else none) := by
  cases p <;> cases other <;> cases w <;> simp_all [hold_step, read_pc.holds]

/-- One scheduler choice, seen from the request that is chosen (`t`) and the other one
(`o`). -/
theorem step_pair (c : i2c_client) (d : d6t_data) (info : d6t_info) (t0 o0 t o : read_req)
    (sh : read_shared) (log : List (Bool × read_pc)) (w : Bool)
    (hinfo : d.d6t_info = some info) (hshape : same_shape d sh.g)
    (hinvt : read_inv c d t0 sh.g t) (hinvo : read_inv c d o0 sh.g o)
    (hlocked : sh.locked = (t.pc.holds || o.pc.holds))
    (hmx : ¬ (t.pc.holds = true ∧ o.pc.holds = true))
    (hscan : hold_scan none log
      = some (if t.pc.holds then some w else if o.pc.holds then some (!w) else none))
    (hlen : log.length ≤ t.pc.rank + o.pc.rank) :
    ((t.pc = read_pc.returned ∨ (t.pc = read_pc.lock ∧ o.pc.holds = true))
      ∧ ∃ e, read_step (some c) sh t = Except.error e)
    ∨ ∃ sh1 t1 ev, read_step (some c) sh t = Except.ok (sh1, t1, ev)
        ∧ same_shape d sh1.g ∧ read_inv c d t0 sh1.g t1 ∧ read_inv c d o0 sh1.g o
        ∧ sh1.locked = (t1.pc.holds || o.pc.holds)
        ∧ ¬ (t1.pc.holds = true ∧ o.pc.holds = true)
        ∧ hold_scan none (log ++ [(w, t.pc)])
            = some (if t1.pc.holds then some w else if o.pc.holds then some (!w) else none)
        ∧ (log ++ [(w, t.pc)]).length ≤ t1.pc.rank + o.pc.rank := by
  by_cases hret : t.pc = read_pc.returned
  · exact Or.inl ⟨Or.inl hret, _, (read_step_finished (some c) sh t).mpr hret⟩
  · by_cases hblk : t.pc = read_pc.lock ∧ sh.locked = true
    · left
      have ho : o.pc.holds = true := by
        have := hblk.2
        rw [hlocked, hblk.1] at this
        simpa [read_pc.holds] using this
      refine ⟨Or.inr ⟨hblk.1, ho⟩, read_halt.blocked, ?_⟩
      simp [read_step, hblk.1, hblk.2]
    · right
      have hfree : t.pc = read_pc.lock → sh.locked = false := by
        intro hl
        cases hsl : sh.locked with
        | false => rfl
        | true => exact absurd ⟨hl, hsl⟩ hblk
      obtain ⟨sh1, t1, ev, hstep, hshape1, hinv1⟩ :=
        read_step_inv c d info t0 t sh hinfo hshape hinvt hret hfree
      have hcfg := read_step_cfg (some c) sh sh1 t t1 ev hstep
      have hrank : t.pc.rank < t1.pc.rank := hcfg.1
      have hl1 := hcfg.2.2.1
      have hg1 := hcfg.2.2.2.1
      have hh1 := hcfg.2.2.2.2.1
      have hlock_other : t.pc = read_pc.lock → o.pc.holds = false := by
        intro hl
        have := hfree hl
        rw [hlocked, hl] at this
        simpa [read_pc.holds] using this
      refine ⟨sh1, t1, ev, hstep, hshape1, hinv1, ?_, ?_, ?_, ?_, ?_⟩
      · cases hoh : o.pc.holds with
        | false => exact read_inv_frame c d o0 o sh.g sh1.g hinvo hoh
        | true =>
          have hth : t.pc.holds = false := by
            cases hth : t.pc.holds with
            | false => rfl
            | true => exact absurd ⟨hth, hoh⟩ hmx
          rw [hg1 hth]
          exact hinvo
      · rw [hl1, hh1]
        by_cases h1 : t.pc = read_pc.lock
        · simp [h1, hlock_other h1]
        · by_cases h2 : t.pc = read_pc.unlock_fail ∨ t.pc = read_pc.unlock_copy
          · have hth : t.pc.holds = true := by
              rcases h2 with h | h <;> rw [h] <;> rfl
            have hoh : o.pc.holds = false := by
              cases hoh : o.pc.holds with
              | false => rfl
              | true => exact absurd ⟨hth, hoh⟩ hmx
            simp [h1, h2, hoh]
          · simp [h1, h2, hlocked]
      · rw [hh1]
        rintro ⟨ht1, hoh⟩
        by_cases h1 : t.pc = read_pc.lock
        · rw [hlock_other h1] at hoh
          exact absurd hoh (by decide)
        · by_cases h2 : t.pc = read_pc.unlock_fail ∨ t.pc = read_pc.unlock_copy
          · simp [h1, h2] at ht1
          · simp only [h1, h2, if_false] at ht1
            exact hmx ⟨ht1, hoh⟩
      · rw [hold_scan_append, hscan, Option.some_bind]
        exact hold_step_of_cfg t.pc t1.pc o.pc.holds w hh1 hmx hlock_other
      · rw [List.length_append, List.length_singleton]
        omega

end D6tFull

namespace D6tFull

theorem owner_swap (s : read_sys) (hmx : ¬ (s.a.pc.holds = true ∧ s.b.pc.holds = true)) :
    s.owner = (if s.b.pc.holds then some (!false) else if s.a.pc.holds then some false
      else none) := by
  unfold read_sys.owner
  cases ha : s.a.pc.holds <;> cases hb : s.b.pc.holds <;> simp_all

theorem sys_step_inv (c : i2c_client) (d : d6t_data) (info : d6t_info) (a0 b0 : read_req)
    (s : read_sys) (w : Bool) (hinfo : d.d6t_info = some info) (h : sys_inv c d a0 b0 s) :
    sys_inv c d a0 b0 (sys_step (some c) (sys_choice.request w) s) := by
  obtain ⟨hshape, hia, hib, hlocked, hmx, hscan, hlen⟩ := h
  cases w with
  | false =>
    rcases step_pair c d info a0 b0 s.a s.b s.shared s.log false hinfo hshape hia hib hlocked
        hmx hscan hlen with ⟨_, e, he⟩ | ⟨sh1, t1, ev, hstep, h1, h2, h3, h4, h5, h6, h7⟩
    · have : sys_step (some c) (sys_choice.request false) s = s := by
        simp [sys_step, he]
      rw [this]
      exact ⟨hshape, hia, hib, hlocked, hmx, hscan, hlen⟩
    · have : sys_step (some c) (sys_choice.request false) s
          = ⟨sh1, t1, s.b, s.log ++ [(false, s.a.pc)]⟩ := by
        simp [sys_step, hstep]
      rw [this]
      exact ⟨h1, h2, h3, h4, h5, h6, h7⟩
  | true =>
    have hmx2 : ¬ (s.b.pc.holds = true ∧ s.a.pc.holds = true) := fun hh => hmx ⟨hh.2, hh.1⟩
    rcases step_pair c d info b0 a0 s.b s.a s.shared s.log true hinfo hshape hib hia
        (by rw [hlocked, Bool.or_comm]) hmx2
        (by rw [hscan, owner_swap s hmx]; rfl)
        (by omega) with ⟨_, e, he⟩ | ⟨sh1, t1, ev, hstep, h1, h2, h3, h4, h5, h6, h7⟩
    · have : sys_step (some c) (sys_choice.request true) s = s := by
        simp [sys_step, he]
      rw [this]
      exact ⟨hshape, hia, hib, hlocked, hmx, hscan, hlen⟩
    · have : sys_step (some c) (sys_choice.request true) s
          = ⟨sh1, s.a, t1, s.log ++ [(true, s.b.pc)]⟩ := by
        simp [sys_step, hstep]
      rw [this]
      have hmx3 : ¬ (s.a.pc.holds = true ∧ t1.pc.holds = true) := fun hh => h5 ⟨hh.2, hh.1⟩
      refine ⟨h1, h3, h2, by rw [h4, Bool.or_comm], hmx3, ?_, ?_⟩
      · rw [h6]
        exact congrArg some (owner_swap ⟨sh1, s.a, t1, s.log ++ [(true, s.b.pc)]⟩ hmx3).symm
      · show (s.log ++ [(true, s.b.pc)]).length ≤ s.a.pc.rank + t1.pc.rank
        omega

theorem sys_run_inv (c : i2c_client) (d : d6t_data) (info : d6t_info) (a0 b0 : read_req)
    (hinfo : d.d6t_info = some info) (sched : List Bool) :
    ∀ s, sys_inv c d a0 b0 s →
      sys_inv c d a0 b0 (sys_run (some c) (requests_only sched) s) := by
  induction sched with
  | nil => intro s h; exact h
  | cons w ws ih =>
    intro s h
    exact ih _ (sys_step_inv c d info a0 b0 s w hinfo h)

theorem sys_run_append (client : Option i2c_client) (xs ys : List sys_choice) :
    ∀ s, sys_run client (xs ++ ys) s = sys_run client ys (sys_run client xs s) := by
  induction xs with
  | nil => intro s; rfl
  | cons w ws ih => intro s; exact ih _

theorem sys_entry_inv (c : i2c_client) (d : d6t_data) (a0 b0 : read_req) (hready : Ready d)
    (ha : a0.pc = read_pc.check_init ∧ a0.user = [])
    (hb : b0.pc = read_pc.check_init ∧ b0.user = []) :
    sys_inv c d a0 b0 (sys_entry d a0 b0) := by
  obtain ⟨info, b, r, _, hinfo, hbuf, hbl, hraw, hrl, _, _⟩ := hready
  have hd : d = { d with buf := KPtr.live b, raw := KPtr.live r } := by
    cases d
    simp_all
  have hia : read_inv c d a0 (some d) a0 := by
    refine ⟨rfl, rfl, rfl, ?_⟩
    rw [ha.1]
    exact ⟨rfl, ha.2⟩
  have hib : read_inv c d b0 (some d) b0 := by
    refine ⟨rfl, rfl, rfl, ?_⟩
    rw [hb.1]
    exact ⟨rfl, hb.2⟩
  refine ⟨⟨b, r, ?_, hbl, hrl⟩, hia, hib, ?_, ?_, ?_, ?_⟩
  · show some d = some _
    rw [← hd]
  · show false = (a0.pc.holds || b0.pc.holds)
    rw [ha.1, hb.1]
    rfl
  · show ¬ (a0.pc.holds = true ∧ b0.pc.holds = true)
    rw [ha.1]
    simp [read_pc.holds]
  · show some none = some (if a0.pc.holds then some false else if b0.pc.holds then some true
      else none)
    rw [ha.1, hb.1]
    rfl
  · exact Nat.zero_le _

end D6tFull

namespace D6tFull

theorem rank_le_nine (p : read_pc) : p.rank ≤ 9 := by
  cases p <;> decide

theorem rank_eq_nine (p : read_pc) (h : 9 ≤ p.rank) : p = read_pc.returned := by
  cases p <;> first | rfl | exact absurd h (by decide)

theorem sys_progress (c : i2c_client) (d : d6t_data) (info : d6t_info) (a0 b0 : read_req)
    (s : read_sys) (hinfo : d.d6t_info = some info) (h : sys_inv c d a0 b0 s)
    (hnot : ¬ (s.a.pc = read_pc.returned ∧ s.b.pc = read_pc.returned)) :
    ∃ w, s.a.pc.rank + s.b.pc.rank
        < (sys_step (some c) (sys_choice.request w) s).a.pc.rank + (sys_step (some c) (sys_choice.request w) s).b.pc.rank
      ∧ (sys_step (some c) (sys_choice.request w) s).log.length = s.log.length + 1 := by
  obtain ⟨hshape, hia, hib, hlocked, hmx, hscan, hlen⟩ := h
  have hmx2 : ¬ (s.b.pc.holds = true ∧ s.a.pc.holds = true) := fun hh => hmx ⟨hh.2, hh.1⟩
  have stepa := step_pair c d info a0 b0 s.a s.b s.shared s.log false hinfo hshape hia hib
    hlocked hmx hscan hlen
  have stepb := step_pair c d info b0 a0 s.b s.a s.shared s.log true hinfo hshape hib hia
    (by rw [hlocked, Bool.or_comm]) hmx2 (by rw [hscan, owner_swap s hmx]; rfl) (by omega)
  have oka : (∃ sh1 t1 ev, read_step (some c) s.shared s.a = Except.ok (sh1, t1, ev)) →
      ∃ w, s.a.pc.rank + s.b.pc.rank
          < (sys_step (some c) (sys_choice.request w) s).a.pc.rank + (sys_step (some c) (sys_choice.request w) s).b.pc.rank
        ∧ (sys_step (some c) (sys_choice.request w) s).log.length = s.log.length + 1 := by
    rintro ⟨sh1, t1, ev, hstep⟩
    have hr : s.a.pc.rank < t1.pc.rank := (read_step_cfg (some c) s.shared sh1 s.a t1 ev hstep).1
    refine ⟨false, ?_⟩
    have : sys_step (some c) (sys_choice.request false) s = ⟨sh1, t1, s.b, s.log ++ [(false, s.a.pc)]⟩ := by
      simp [sys_step, hstep]
    rw [this]
    refine ⟨?_, by simp⟩
    show s.a.pc.rank + s.b.pc.rank < t1.pc.rank + s.b.pc.rank
    omega
  have okb : (∃ sh1 t1 ev, read_step (some c) s.shared s.b = Except.ok (sh1, t1, ev)) →
      ∃ w, s.a.pc.rank + s.b.pc.rank
          < (sys_step (some c) (sys_choice.request w) s).a.pc.rank + (sys_step (some c) (sys_choice.request w) s).b.pc.rank
        ∧ (sys_step (some c) (sys_choice.request w) s).log.length = s.log.length + 1 := by
    rintro ⟨sh1, t1, ev, hstep⟩
    have hr : s.b.pc.rank < t1.pc.rank := (read_step_cfg (some c) s.shared sh1 s.b t1 ev hstep).1
    refine ⟨true, ?_⟩
    have : sys_step (some c) (sys_choice.request true) s = ⟨sh1, s.a, t1, s.log ++ [(true, s.b.pc)]⟩ := by
      simp [sys_step, hstep]
    rw [this]
    refine ⟨?_, by simp⟩
    show s.a.pc.rank + s.b.pc.rank < s.a.pc.rank + t1.pc.rank
    omega
  have hret_holds : ∀ p : read_pc, p = read_pc.returned ∨ p = read_pc.lock → p.holds = false := by
    rintro p (hp | hp) <;> rw [hp] <;> rfl
  rcases stepa with ⟨hcase, _⟩ | ⟨sh1, t1, ev, hstep, _⟩
  · rcases stepb with ⟨hcaseb, _⟩ | ⟨sh1, t1, ev, hstep, _⟩
    · exfalso
      rcases hcase with ha | ⟨ha, hbh⟩
      · rcases hcaseb with hb | ⟨_, hah⟩
        · exact hnot ⟨ha, hb⟩
        · rw [hret_holds _ (Or.inl ha)] at hah
          exact absurd hah (by decide)
      · rcases hcaseb with hb | ⟨hb, _⟩
        · rw [hret_holds _ (Or.inl hb)] at hbh
          exact absurd hbh (by decide)
        · rw [hret_holds _ (Or.inr hb)] at hbh
          exact absurd hbh (by decide)
    · exact okb ⟨sh1, t1, ev, hstep⟩
  · exact oka ⟨sh1, t1, ev, hstep⟩

theorem sys_completes (c : i2c_client) (d : d6t_data) (info : d6t_info) (a0 b0 : read_req)
    (hinfo : d.d6t_info = some info) (n : Nat) :
    ∀ s, sys_inv c d a0 b0 s → 18 ≤ n + (s.a.pc.rank + s.b.pc.rank) →
      ∃ ext, (sys_run (some c) (requests_only ext) s).a.pc = read_pc.returned
        ∧ (sys_run (some c) (requests_only ext) s).b.pc = read_pc.returned := by
  induction n with
  | zero =>
    intro s _ hm
    have h1 := rank_le_nine s.a.pc
    have h2 := rank_le_nine s.b.pc
    have h3 : 9 ≤ s.a.pc.rank := by omega
    have h4 : 9 ≤ s.b.pc.rank := by omega
    exact ⟨[], rank_eq_nine _ h3, rank_eq_nine _ h4⟩
  | succ n ih =>
    intro s hinv hm
    by_cases hdone : s.a.pc = read_pc.returned ∧ s.b.pc = read_pc.returned
    · exact ⟨[], hdone⟩
    · obtain ⟨w, hw, _⟩ := sys_progress c d info a0 b0 s hinfo hinv hdone
      obtain ⟨ext, hext⟩ := ih (sys_step (some c) (sys_choice.request w) s)
        (sys_step_inv c d info a0 b0 s w hinfo hinv) (by omega)
      exact ⟨w :: ext, hext⟩

end D6tFull

namespace D6tFull

theorem own_bytes_all (d : d6t_data) (x : Xfer) :
    own_bytes d x 0 = le_bytes (own_samples d x) := by
  unfold own_bytes
  rw [List.take_of_length_le (Nat.le_of_eq (own_samples_length d x)), Nat.sub_zero]
  apply List.take_of_length_le
  rw [le_bytes_length, own_samples_length]
  omega

theorem read_expected_sequential (c : i2c_client) (d : d6t_data) (t0 : read_req)
    (hready : Ready d) :
    ∃ r, sequential_read c d t0 = some r
      ∧ r.ret = (read_expected c d t0).1
      ∧ r.user = (read_expected c d t0).2.1
      ∧ (t0.via_ioctl = false → r.ppos = (read_expected c d t0).2.2) := by
  obtain ⟨info, b, r0, _, hinfo, hbuf, hbl, hraw, hrl, _, _⟩ := hready
  have hfr := own_frame_eq d b t0.x hbl
  have hrn : d.raw.isNull = false := by rw [hraw]; rfl
  have hbn : d.buf.isNull = false := by rw [hbuf]; rfl
  have hlen : d.n_read ≤ b.length := Nat.le_of_eq hbl.symm
  have hbytes : ∀ u, (le_bytes ((d6t_convert_u8_to_s16 d.n_raw_data
      ⟨received_frame b d.n_read t0.x, r0⟩).raw.take d.n_raw_data)).take
        (d.n_raw_data * 2 - u) = own_bytes d t0.x u := by
    intro u
    rw [hfr, own_samples_eq d t0.x r0 hrl]
    rfl
  unfold sequential_read
  by_cases heof : t0.via_ioctl = false ∧ t0.ppos > 0
  · refine ⟨⟨0, some d, t0.ppos, [], []⟩, ?_, ?_⟩
    · rw [heof.1]
      simp [d6t_read, hinfo, hbn, hrn, heof.2]
    · rw [read_expected_eof c d t0 heof.1 heof.2]
      exact ⟨rfl, rfl, fun _ => rfl⟩
  · have hpos : t0.via_ioctl = true ∨ t0.ppos ≤ 0 := by
      cases hv : t0.via_ioctl with
      | true => exact Or.inl rfl
      | false =>
        right
        by_contra hp
        exact heof ⟨hv, by omega⟩
    have hp0 : t0.via_ioctl = false → t0.ppos ≤ 0 := by
      intro hv
      rcases hpos with h | h
      · rw [hv] at h
        exact absurd h (by decide)
      · exact h
    by_cases hret : t0.x.ret = 2
    · by_cases hpec : d6t_checkPEC c.addr d.n_read (own_frame d t0.x) = true
      · have hexp := read_expected_eio c d t0 hpos (Or.inr hpec)
        rw [hexp]
        cases hv : t0.via_ioctl with
        | true =>
          exact ⟨_, (read_pec_mismatch d info b r0 c 0 (fun _ => t0.x) t0.uncopied hinfo hbuf
            hraw hlen (le_refl 0) hret (hfr ▸ hpec)).2, rfl, rfl, fun h => absurd h (by decide)⟩
        | false =>
          exact ⟨_, (read_pec_mismatch d info b r0 c t0.ppos (fun _ => t0.x) t0.uncopied hinfo
            hbuf hraw hlen (hp0 hv) hret (hfr ▸ hpec)).1, rfl, rfl, fun _ => rfl⟩
      · have hpec0 : d6t_checkPEC c.addr d.n_read (own_frame d t0.x) = false :=
          Bool.eq_false_iff.mpr hpec
        have hexp := read_expected_copy c d t0 hpos hret hpec0
        rw [hexp]
        cases hv : t0.via_ioctl with
        | true =>
          refine ⟨_, (read_pec_accepted d info b r0 c 0 (fun _ => t0.x) t0.uncopied hinfo hbuf
            hraw hlen (le_refl 0) hret (hfr ▸ hpec0)).2, ?_, ?_, fun h => absurd h (by decide)⟩
          · by_cases hu : t0.uncopied ≠ 0 <;> simp [hu]
          · rw [hbytes]
            by_cases hu : t0.uncopied ≠ 0 <;> simp [hu]
        | false =>
          refine ⟨_, (read_pec_accepted d info b r0 c t0.ppos (fun _ => t0.x) t0.uncopied hinfo
            hbuf hraw hlen (hp0 hv) hret (hfr ▸ hpec0)).1, ?_, ?_, fun _ => ?_⟩
          · by_cases hu : t0.uncopied ≠ 0 <;> simp [hu]
          · rw [hbytes]
            by_cases hu : t0.uncopied ≠ 0 <;> simp [hu]
          · by_cases hu : t0.uncopied ≠ 0 <;> simp [hu]
    · have hexp := read_expected_eio c d t0 hpos (Or.inl hret)
      rw [hexp]
      cases hv : t0.via_ioctl with
      | true =>
        exact ⟨_, (read_transport_failure d info b c 0 (fun _ => t0.x) t0.uncopied hinfo hbuf
          hrn hlen (le_refl 0) hret).2, rfl, rfl, fun h => absurd h (by decide)⟩
      | false =>
        exact ⟨_, (read_transport_failure d info b c t0.ppos (fun _ => t0.x) t0.uncopied hinfo
          hbuf hrn hlen (hp0 hv) hret).1, rfl, rfl, fun _ => rfl⟩

end D6tFull

namespace D6tFull

theorem returned_outcome (c : i2c_client) (d : d6t_data) (t0 t : read_req)
    (g : Option d6t_data) (hready : Ready d) (hinv : read_inv c d t0 g t)
    (hret : t.pc = read_pc.returned) :
    (∃ r, sequential_read c d t0 = some r ∧ t.retval = r.ret ∧ t.user = r.user
        ∧ (t0.via_ioctl = false → t.ppos = r.ppos))
    ∧ (0 ≤ t.retval → (t0.via_ioctl = true ∨ t0.ppos ≤ 0) →
        t0.x.ret = 2 ∧ d6t_checkPEC c.addr d.n_read (own_frame d t0.x) = false
        ∧ t0.uncopied = 0 ∧ t.user = le_bytes (own_samples d t0.x)) := by
  obtain ⟨_, _, _, hrest⟩ := hinv
  rw [hret] at hrest
  have hexp : (t.retval, t.user, t.ppos) = read_expected c d t0 := hrest
  have h1 : t.retval = (read_expected c d t0).1 := congrArg Prod.fst hexp
  have h2 : t.user = (read_expected c d t0).2.1 := congrArg (fun p => p.2.1) hexp
  have h3 : t.ppos = (read_expected c d t0).2.2 := congrArg (fun p => p.2.2) hexp
  constructor
  · obtain ⟨r, hr, e1, e2, e3⟩ := read_expected_sequential c d t0 hready
    exact ⟨r, hr, h1.trans e1.symm, h2.trans e2.symm, fun hv => h3.trans (e3 hv).symm⟩
  · intro hnn hpos
    by_cases hbad : t0.x.ret ≠ 2 ∨ d6t_checkPEC c.addr d.n_read (own_frame d t0.x) = true
    · rw [read_expected_eio c d t0 hpos hbad] at h1
      have h1b : t.retval = -EIO_code := h1
      rw [h1b] at hnn
      exact absurd hnn (by decide)
    · have hr2 : t0.x.ret = 2 := by
        by_contra h
        exact hbad (Or.inl h)
      have hpec : d6t_checkPEC c.addr d.n_read (own_frame d t0.x) = false := by
        cases hp : d6t_checkPEC c.addr d.n_read (own_frame d t0.x) with
        | false => rfl
        | true => exact absurd (Or.inr hp) hbad
      have hexp2 := read_expected_copy c d t0 hpos hr2 hpec
      by_cases hu : t0.uncopied ≠ 0
      · rw [hexp2, if_pos hu] at h1
        have h1b : t.retval = -EFAULT := h1
        rw [h1b] at hnn
        exact absurd hnn (by decide)
      · have hu0 : t0.uncopied = 0 := by
          by_contra h
          exact hu h
        refine ⟨hr2, hpec, hu0, ?_⟩
        rw [h2, hexp2, if_neg hu, ← own_bytes_all, hu0]
        cases t0.via_ioctl <;> rfl

/-- As long as no other caller initialises the session while they run, two concurrent read
requests on the same ready session are serialised.  Request `a`
and request `b` each enter `d6t_read` or the `D6T_IOC_READ_RAW` case with their own file
position, adapter answer and copy result, and the scheduler interleaves their statements in
any order `sched`; `mutex_lock` blocks while the mutex is held.  Then, wherever the schedule
stops: the log replays without a request locking while the other holds and with every
acquisition, verification, decode and copy-out inside the hold interval of the request that
executes it; the two requests never hold the mutex together; a request that has returned
returned exactly what its entry point returns when run on its own on the session (value, bytes
and file position); a request that returned without error received the samples decoded from
the frame its own transfer delivered, after that frame passed `d6t_checkPEC`; as long as a
request has not returned some scheduler choice executes a statement, at most 18 statements
are executed in all, and some continuation of the schedule lets both requests return. -/
theorem concurrent_reads_are_serialised (c : i2c_client) (d : d6t_data) (a0 b0 : read_req)
    (sched : List Bool) (hready : Ready d)
    (ha : a0.pc = read_pc.check_init ∧ a0.user = [])
    (hb : b0.pc = read_pc.check_init ∧ b0.user = []) :
    hold_scan none (concurrent_reads c d a0 b0 (requests_only sched)).log
        = some (concurrent_reads c d a0 b0 (requests_only sched)).owner
    ∧ ¬ ((concurrent_reads c d a0 b0 (requests_only sched)).a.pc.holds = true
        ∧ (concurrent_reads c d a0 b0 (requests_only sched)).b.pc.holds = true)
    ∧ ((concurrent_reads c d a0 b0 (requests_only sched)).a.pc = read_pc.returned →
        (∃ r, sequential_read c d a0 = some r
          ∧ (concurrent_reads c d a0 b0 (requests_only sched)).a.retval = r.ret
          ∧ (concurrent_reads c d a0 b0 (requests_only sched)).a.user = r.user
          ∧ (a0.via_ioctl = false → (concurrent_reads c d a0 b0 (requests_only sched)).a.ppos = r.ppos))
        ∧ (0 ≤ (concurrent_reads c d a0 b0 (requests_only sched)).a.retval →
            (a0.via_ioctl = true ∨ a0.ppos ≤ 0) →
            a0.x.ret = 2 ∧ d6t_checkPEC c.addr d.n_read (own_frame d a0.x) = false
            ∧ a0.uncopied = 0
            ∧ (concurrent_reads c d a0 b0 (requests_only sched)).a.user = le_bytes (own_samples d a0.x)))
    ∧ ((concurrent_reads c d a0 b0 (requests_only sched)).b.pc = read_pc.returned →
        (∃ r, sequential_read c d b0 = some r
          ∧ (concurrent_reads c d a0 b0 (requests_only sched)).b.retval = r.ret
          ∧ (concurrent_reads c d a0 b0 (requests_only sched)).b.user = r.user
          ∧ (b0.via_ioctl = false → (concurrent_reads c d a0 b0 (requests_only sched)).b.ppos = r.ppos))
        ∧ (0 ≤ (concurrent_reads c d a0 b0 (requests_only sched)).b.retval →
            (b0.via_ioctl = true ∨ b0.ppos ≤ 0) →
            b0.x.ret = 2 ∧ d6t_checkPEC c.addr d.n_read (own_frame d b0.x) = false
            ∧ b0.uncopied = 0
            ∧ (concurrent_reads c d a0 b0 (requests_only sched)).b.user = le_bytes (own_samples d b0.x)))
    ∧ (¬ ((concurrent_reads c d a0 b0 (requests_only sched)).a.pc = read_pc.returned
          ∧ (concurrent_reads c d a0 b0 (requests_only sched)).b.pc = read_pc.returned) →
        ∃ w, (sys_step (some c) (sys_choice.request w)
            (concurrent_reads c d a0 b0 (requests_only sched))).log.length
          = (concurrent_reads c d a0 b0 (requests_only sched)).log.length + 1)
    ∧ (concurrent_reads c d a0 b0 (requests_only sched)).log.length ≤ 18
    ∧ ∃ ext, (concurrent_reads c d a0 b0 (requests_only (sched ++ ext))).a.pc = read_pc.returned
        ∧ (concurrent_reads c d a0 b0 (requests_only (sched ++ ext))).b.pc = read_pc.returned := by
  have hready2 := hready
  obtain ⟨info, _, _, _, hinfo, _⟩ := hready2
  have hinv : sys_inv c d a0 b0 (concurrent_reads c d a0 b0 (requests_only sched)) :=
    sys_run_inv c d info a0 b0 hinfo sched _ (sys_entry_inv c d a0 b0 hready ha hb)
  obtain ⟨hshape, hia, hib, hlocked, hmx, hscan, hlen⟩ := hinv
  have hinv2 : sys_inv c d a0 b0 (concurrent_reads c d a0 b0 (requests_only sched)) :=
    ⟨hshape, hia, hib, hlocked, hmx, hscan, hlen⟩
  refine ⟨hscan, hmx, ?_, ?_, ?_, ?_, ?_⟩
  · exact fun hret => returned_outcome c d a0 _ _ hready hia hret
  · exact fun hret => returned_outcome c d b0 _ _ hready hib hret
  · intro hnot
    obtain ⟨w, _, hw⟩ := sys_progress c d info a0 b0 _ hinfo hinv2 hnot
    exact ⟨w, hw⟩
  · have h1 := rank_le_nine (concurrent_reads c d a0 b0 (requests_only sched)).a.pc
    have h2 := rank_le_nine (concurrent_reads c d a0 b0 (requests_only sched)).b.pc
    omega
  · obtain ⟨ext, hext⟩ := sys_completes c d info a0 b0 hinfo 18 _ hinv2 (by omega)
    refine ⟨ext, ?_⟩
    unfold concurrent_reads requests_only at hext ⊢
    rw [List.map_append, sys_run_append]
    exact hext

end D6tFull

namespace D6tFull

set_option maxRecDepth 1000000 in
theorem schedule_b_waits_outcome :
    (concurrent_reads ⟨0x0A⟩ d6t01a_session request_a request_b
      (requests_only schedule_b_waits)).log
      = [(false, read_pc.check_init), (false, read_pc.check_ppos), (false, read_pc.lock),
         (false, read_pc.get_frame), (true, read_pc.check_init), (false, read_pc.check_pec),
         (false, read_pc.convert), (false, read_pc.copy_out), (false, read_pc.unlock_copy),
         (true, read_pc.lock), (true, read_pc.get_frame), (true, read_pc.check_pec),
         (false, read_pc.tail), (true, read_pc.convert), (true, read_pc.copy_out),
         (true, read_pc.unlock_copy), (true, read_pc.tail)]
    ∧ (concurrent_reads ⟨0x0A⟩ d6t01a_session request_a request_b
      (requests_only schedule_b_waits)).a.pc
      = read_pc.returned
    ∧ (concurrent_reads ⟨0x0A⟩ d6t01a_session request_a request_b
      (requests_only schedule_b_waits)).b.pc
      = read_pc.returned
    ∧ (concurrent_reads ⟨0x0A⟩ d6t01a_session request_a request_b
      (requests_only schedule_b_waits)).a.retval = 4
    ∧ (concurrent_reads ⟨0x0A⟩ d6t01a_session request_a request_b
      (requests_only schedule_b_waits)).b.retval = 0
    ∧ (concurrent_reads ⟨0x0A⟩ d6t01a_session request_a request_b
      (requests_only schedule_b_waits)).a.user
      = [0x10, 0x01, 0x20, 0x01]
    ∧ (concurrent_reads ⟨0x0A⟩ d6t01a_session request_a request_b
      (requests_only schedule_b_waits)).b.user
      = [0x34, 0x12, 0x78, 0x56] := by
  decide

end D6tFull

namespace D6tFull

/-- Example on a ready "d6t01a" session at bus address 0x0A: `a` reads through `d6t_read`, `b`
through `D6T_IOC_READ_RAW`, and `b` reaches `mutex_lock` while `a` holds the mutex.  The log
replays without overlap, and each caller receives the samples of its own frame. -/
theorem concurrent_reads_are_serialised_witness :
    Ready d6t01a_session
    ∧ hold_scan none
          (concurrent_reads ⟨0x0A⟩ d6t01a_session request_a request_b
      (requests_only schedule_b_waits)).log
        = some (concurrent_reads ⟨0x0A⟩ d6t01a_session request_a request_b
      (requests_only schedule_b_waits)).owner
    ∧ ¬ ((concurrent_reads ⟨0x0A⟩ d6t01a_session request_a request_b
            (requests_only schedule_b_waits)).a.pc.holds = true
        ∧ (concurrent_reads ⟨0x0A⟩ d6t01a_session request_a request_b
            (requests_only schedule_b_waits)).b.pc.holds = true)
    ∧ (concurrent_reads ⟨0x0A⟩ d6t01a_session request_a request_b
      (requests_only schedule_b_waits)).a.user
        = le_bytes (own_samples d6t01a_session request_a.x)
    ∧ (concurrent_reads ⟨0x0A⟩ d6t01a_session request_a request_b
      (requests_only schedule_b_waits)).b.user
        = le_bytes (own_samples d6t01a_session request_b.x)
    ∧ (concurrent_reads ⟨0x0A⟩ d6t01a_session request_a request_b
      (requests_only schedule_b_waits)).log.length
        ≤ 18 := by
  have h := concurrent_reads_are_serialised ⟨0x0A⟩ d6t01a_session request_a request_b
    schedule_b_waits d6t01a_session_ready ⟨rfl, rfl⟩ ⟨rfl, rfl⟩
  obtain ⟨_, hra, hrb, hva, hvb, _, _⟩ := schedule_b_waits_outcome
  refine ⟨d6t01a_session_ready, h.1, h.2.1, ?_, ?_, h.2.2.2.2.2.1⟩
  · exact ((h.2.2.1 hra).2 (by rw [hva]; decide) (Or.inr (by decide))).2.2.2
  · exact ((h.2.2.2.1 hrb).2 (by rw [hvb]) (Or.inl rfl)).2.2.2

end D6tFull

/-! ## Allocations behind the decoder of `d6t_core.c` -/

namespace D6tCore

end D6tCore

namespace D6tFull

set_option maxRecDepth 1000000 in
/-- C21: two concurrent read requests on the same initialised session are not serialised
once another caller initialises the session while the first request holds the mutex, which
the drivers let happen without taking the lock.  On the device of `d6tioctl.c` (a ready
"d6t32l01a" session, two `D6T_IOC_READ_RAW` requests): `a` passes `mutex_lock`, a second
`open()` runs `d6t_init`, ending in `mutex_init` on the shared lock, and `b` passes
`mutex_lock` too; both requests then stand inside the critical section, before their
`d6t_get_frame`, and the log does not replay under the lock discipline.  The same schedule
without the `open()` leaves `b` waiting in `mutex_lock` with `a` the only holder.  On the
device of `d6t_full.c` (a ready "d6t01a" session at bus address 0x0A, two `d6t_read`
requests): `a` acquires its frame `10 01 20 01`, `D6T_IOC_INIT` replaces both buffers and
re-initialises the mutex, `b` acquires its frame `34 12 78 56` while `a` still holds, and `a`
then verifies, decodes and returns the bytes of the frame of `b`, with success, where `a` run
on its own returns the bytes of its own frame.  A release of the session (`D6T_IOC_CLEAR`, or
`close()` on the device of `d6tioctl.c`) after `a` acquired its frame leaves `a` holding the
mutex with no statement it can execute: its `d6t_checkPEC` reads through the `NULL` buffer. -/
theorem initialisation_breaks_read_serialisation :
    (concurrent_reads ⟨0x0A⟩ d6t32l01a_session request_raw request_raw schedule_reopen).a.pc
        = read_pc.get_frame
    ∧ (concurrent_reads ⟨0x0A⟩ d6t32l01a_session request_raw request_raw schedule_reopen).b.pc
        = read_pc.get_frame
    ∧ (concurrent_reads ⟨0x0A⟩ d6t32l01a_session request_raw request_raw
        schedule_reopen).a.pc.holds = true
    ∧ (concurrent_reads ⟨0x0A⟩ d6t32l01a_session request_raw request_raw
        schedule_reopen).b.pc.holds = true
    ∧ (concurrent_reads ⟨0x0A⟩ d6t32l01a_session request_raw request_raw schedule_reopen).log
        = [(false, read_pc.check_init), (false, read_pc.lock),
           (true, read_pc.check_init), (true, read_pc.lock)]
    ∧ hold_scan none
        (concurrent_reads ⟨0x0A⟩ d6t32l01a_session request_raw request_raw schedule_reopen).log
        = none
    ∧ (concurrent_reads ⟨0x0A⟩ d6t32l01a_session request_raw request_raw
        schedule_no_reopen).a.pc = read_pc.get_frame
    ∧ (concurrent_reads ⟨0x0A⟩ d6t32l01a_session request_raw request_raw
        schedule_no_reopen).b.pc = read_pc.lock
    ∧ hold_scan none
        (concurrent_reads ⟨0x0A⟩ d6t32l01a_session request_raw request_raw
          schedule_no_reopen).log
        = some (some false)
    ∧ (concurrent_reads ⟨0x0A⟩ d6t01a_session request_a request_c schedule_reinit).a.pc
        = read_pc.returned
    ∧ (concurrent_reads ⟨0x0A⟩ d6t01a_session request_a request_c schedule_reinit).a.retval = 4
    ∧ (concurrent_reads ⟨0x0A⟩ d6t01a_session request_a request_c schedule_reinit).a.user
        = [0x34, 0x12, 0x78, 0x56]
    ∧ (concurrent_reads ⟨0x0A⟩ d6t01a_session request_a request_c schedule_reinit).a.user
        = le_bytes (own_samples d6t01a_session request_c.x)
    ∧ (concurrent_reads ⟨0x0A⟩ d6t01a_session request_a request_c schedule_reinit).b.pc
        = read_pc.check_pec
    ∧ (sequential_read ⟨0x0A⟩ d6t01a_session request_a).map (fun r => (r.ret, r.user))
        = some (4, [0x10, 0x01, 0x20, 0x01])
    ∧ hold_scan none
        (concurrent_reads ⟨0x0A⟩ d6t01a_session request_a request_c schedule_reinit).log
        = none
    ∧ (concurrent_reads ⟨0x0A⟩ d6t01a_session request_a request_c schedule_release).a.pc
        = read_pc.check_pec
    ∧ (concurrent_reads ⟨0x0A⟩ d6t01a_session request_a request_c
        schedule_release).shared.locked = true
    ∧ (match read_step (some ⟨0x0A⟩)
          (concurrent_reads ⟨0x0A⟩ d6t01a_session request_a request_c schedule_release).shared
          (concurrent_reads ⟨0x0A⟩ d6t01a_session request_a request_c schedule_release).a with
        | Except.error h => some h
        | Except.ok _ => none)
        = some read_halt.undefined := by
  decide

end D6tFull
